import Mathlib

/-!
# Cloud9 client: request multiplexing, bulk transfer and path resolution

A shallow embedding of `src/cloud_client.cpp` and of the path functions of
`src/client_shell.h`.

* `std::string` is a list of characters (`Str`), raw memory is a list of bytes (`List Nat`).
* `uint16_t`, `uint32_t`, `uint64_t` are natural numbers, reduced modulo `2^16`, `2^32`, `2^64`
  wherever the C++ arithmetic or an implicit conversion can wrap.
* The write side of the connection is the log of the `send_*` calls made on it, in order.
* The listener thread and the callers share the object; a caller that sleeps on
  `response_notifier` is resumed with the list of frames the listener handled in the meantime.
* The constants of `cloud_common.h` are the fields of `CloudCommon`.
* The `send_*` calls are taken to succeed; a failing write is an exception of the networking
  layer that leaves the operation before `wait_response`.
* The shell helpers see the client through `Remote`: how each call on it ends.
-/

namespace Cloud9

/-- A `std::string`: a sequence of `char`. -/
abbrev Str := List Char

/-- The constants of `cloud_common.h` used by the client sources. -/
structure CloudCommon where
  REQUEST_OK : Nat
  REQUEST_SWITCH_OK : Nat
  REQUEST_ERR_FORBIDDEN : Nat
  REQUEST_CMD_GET_HOME : Nat
  REQUEST_CMD_LIST_DIRECTORY : Nat
  REQUEST_CMD_GET_PARENT : Nat
  REQUEST_CMD_MAKE_NODE : Nat
  REQUEST_CMD_GET_NODE_OWNER : Nat
  REQUEST_CMD_FD_OPEN : Nat
  REQUEST_CMD_FD_CLOSE : Nat
  REQUEST_CMD_FD_WRITE : Nat
  REQUEST_CMD_FD_READ : Nat
  REQUEST_CMD_GET_NODE_INFO : Nat
  REQUEST_CMD_FD_READ_LONG : Nat
  REQUEST_CMD_FD_WRITE_LONG : Nat
  REQUEST_CMD_SET_NODE_RIGHTS : Nat
  REQUEST_CMD_GROUP_INVITE : Nat
  REQUEST_CMD_GET_NODE_GROUP : Nat
  REQUEST_CMD_DELETE_NODE : Nat
  REQUEST_CMD_SET_NODE_GROUP : Nat
  REQUEST_CMD_GROUP_KICK : Nat
  REQUEST_CMD_GOODBYE : Nat
  CLOUD_PATH_DIV : Char
  CLOUD_PATH_HOME : Char
  CLOUD_PATH_NODE : Char
  CLOUD_PATH_UNKNOWN : Str
  buf_read_uint64 : List Nat → Nat

/-- The type `Node` of `cloud_common.h`: sixteen raw bytes, compared bytewise. -/
structure Node where
  bytes : List Nat
deriving DecidableEq, Repr

/-- The struct `CloudClient::ServerResponse`; `body` holds the bytes behind the `char *`. -/
structure ServerResponse where
  status : Nat
  size : Nat
  body : List Nat
deriving DecidableEq, Repr

/-- The value of `ServerResponse()`. -/
def ServerResponse.empty : ServerResponse := ⟨0, 0, []⟩

/-- One call of a `send_*` function on the connection. -/
inductive Sent where
  | uint8 (v : Nat)
  | uint16 (v : Nat)
  | uint32 (v : Nat)
  | uint64 (v : Nat)
  | exact (n : Nat) (data : List Nat)
deriving DecidableEq, Repr

/-- Number of bytes a `send_*` call puts on the wire. -/
def Sent.width : Sent → Nat
  | .uint8 _ => 1
  | .uint16 _ => 2
  | .uint32 _ => 4
  | .uint64 _ => 8
  | .exact n _ => n

/-- Total number of bytes of a sequence of `send_*` calls. -/
def wire_size (l : List Sent) : Nat := (l.map Sent.width).sum

/-- What the listener gets from the connection when it reads one response frame: the four
fields `read_uint32`, `read_uint16`, `read_uint64`, `read_exact` deliver, or the
`std::runtime_error` one of them throws. -/
inductive NetRead where
  | frame (id status size : Nat) (body : List Nat)
  | failure
deriving DecidableEq, Repr

/-- The exceptions thrown by the client and the shell helpers. -/
inductive Exception where
  | CloudRequestError (status : Nat) (info : Str)
  | runtime_error (what : Str)
  | invalid_argument (what : Str)
deriving DecidableEq, Repr

/-- How a call ends: it returns, it throws, it is asleep on `response_notifier` with nothing
more delivered (`blocked`), or it is still inside a transfer loop when the modelled input is
used up (`unfinished`). -/
inductive Outcome (α : Type) where
  | returned (a : α)
  | thrown (e : Exception)
  | blocked
  | unfinished
deriving DecidableEq, Repr

/-- Apply `f` to the value a call returns. -/
def Outcome.map {α β : Type} (f : α → β) : Outcome α → Outcome β
  | .returned a => .returned (f a)
  | .thrown e => .thrown e
  | .blocked => .blocked
  | .unfinished => .unfinished

/-- Continue with `f` on the value a call returns. -/
def Outcome.bind {α β : Type} (o : Outcome α) (f : α → Outcome β) : Outcome β :=
  match o with
  | .returned a => f a
  | .thrown e => .thrown e
  | .blocked => .blocked
  | .unfinished => .unfinished

/-! ## `std::map<uint32_t, ServerResponse>` -/

/-- The pending table `responses`. -/
abbrev ResponseMap := List (Nat × ServerResponse)

/-- The result of `responses.find(id)`. -/
def map_find (m : ResponseMap) (id : Nat) : Option ServerResponse :=
  match m with
  | [] => none
  | (k, r) :: rest => if k = id then some r else map_find rest id

/-- The result of `responses.contains(id)`. -/
def map_contains (m : ResponseMap) (id : Nat) : Bool := (map_find m id).isSome

/-- The table after `responses.erase(id)`. -/
def map_erase (m : ResponseMap) (id : Nat) : ResponseMap :=
  m.filter (fun e => decide (e.1 ≠ id))

/-- The table after `responses[id] = response`. -/
def map_assign (m : ResponseMap) (id : Nat) (response : ServerResponse) : ResponseMap :=
  (id, response) :: map_erase m id

/-- The value read by `responses[id]` (a default-constructed response when `id` is absent). -/
def map_at (m : ResponseMap) (id : Nat) : ServerResponse :=
  (map_find m id).getD ServerResponse.empty

/-! ## The client object -/

/-- The state of a `CloudClient`: the members `responses`, `current_id`, `connected`, the
log of what was written to `connection`, and whether the `listener` thread is still inside
`listener_routine`. -/
structure CloudClient where
  connection : List Sent
  listener : Bool
  responses : ResponseMap
  current_id : Nat
  connected : Bool
deriving DecidableEq, Repr

/-- The members of a client right after a successful constructor, before any request, with
an empty connection log. -/
def CloudClient.fresh : CloudClient :=
  { connection := [], listener := true, responses := [], current_id := 0, connected := true }

/-- The loop of `CloudClient::listener_routine` over what the connection delivers: each frame is
stored under its id (`responses[id] = response`); the first read failure sets
`connected = false` and ends the thread; with nothing left to read the thread stays blocked
in `read_uint32`. Taking `ldtm_lock` after a `REQUEST_SWITCH_OK` response only delays the
thread and changes none of the members. -/
def listener_loop : CloudClient → List NetRead → CloudClient
  | c, [] => c
  | c, .frame id status size body :: rest =>
      listener_loop { c with responses := map_assign c.responses id ⟨status, size, body⟩ } rest
  | c, .failure :: _ => { c with connected := false, listener := false }

/-- The listener thread: `listener_routine` runs only while the thread is alive. -/
def listener_routine (c : CloudClient) (input : List NetRead) : CloudClient :=
  if c.listener then listener_loop c input else c

/-- The tail of `wait_response` after its loop: throw when disconnected, else take the entry
out of the table. -/
def wait_response_finish (c : CloudClient) (id : Nat) : CloudClient × Outcome ServerResponse :=
  if !c.connected then (c, .thrown (.runtime_error "not connected".toList))
  else ({ c with responses := map_erase c.responses id }, .returned (map_at c.responses id))

/-- The function `CloudClient::wait_response`. Each element of `wakeups` is what the listener
handled during one sleep of the caller on `response_notifier` that a notification ended; the
loop condition is checked again after each. A notification made between the caller's test
of the loop condition and its call of `wait` ends no sleep: the steps of the threads one by
one, with that case, are in `tstep`. -/
def wait_response (id : Nat) : CloudClient → List (List NetRead) →
    CloudClient × Outcome ServerResponse
  | c, [] =>
      if c.connected && !map_contains c.responses id then (c, .blocked)
      else wait_response_finish c id
  | c, w :: ws =>
      if c.connected && !map_contains c.responses id then
        wait_response id (listener_routine c w) ws
      else wait_response_finish c id

/-- Several callers, one after the other, run `wait_response` for their ids while the listener
delivers nothing new. -/
def wait_all : CloudClient → List Nat → CloudClient × List (Outcome ServerResponse)
  | c, [] => (c, [])
  | c, id :: ids =>
      let r := wait_response id c []
      let rest := wait_all r.1 ids
      (rest.1, r.2 :: rest.2)

/-- The frame the listener reads for a response stored under `id`. -/
def NetRead.of_response (e : Nat × ServerResponse) : NetRead :=
  .frame e.1 e.2.status e.2.size e.2.body

/-! ## Writing to the connection -/

/-- The call `send_uint8(connection, v)`. -/
def send_uint8 (c : CloudClient) (v : Nat) : CloudClient :=
  { c with connection := c.connection ++ [.uint8 (v % 2 ^ 8)] }

/-- The call `send_uint16(connection, v)`. -/
def send_uint16 (c : CloudClient) (v : Nat) : CloudClient :=
  { c with connection := c.connection ++ [.uint16 (v % 2 ^ 16)] }

/-- The call `send_uint32(connection, v)`. -/
def send_uint32 (c : CloudClient) (v : Nat) : CloudClient :=
  { c with connection := c.connection ++ [.uint32 (v % 2 ^ 32)] }

/-- The call `send_uint64(connection, v)`. -/
def send_uint64 (c : CloudClient) (v : Nat) : CloudClient :=
  { c with connection := c.connection ++ [.uint64 (v % 2 ^ 64)] }

/-- The call `send_exact(connection, n, src)`: `n` bytes starting at `src`. -/
def send_exact (c : CloudClient) (n : Nat) (src : List Nat) : CloudClient :=
  { c with connection := c.connection ++ [.exact n (src.take n)] }

/-- The bytes behind `s.c_str()`. -/
def c_str (s : Str) : List Nat := s.map Char.toNat

/-- The string `std::string(p, n)` built from `n` bytes at `p`. -/
def string_of (p : List Nat) (n : Nat) : Str := (p.take n).map Char.ofNat

/-- The expression `wait_response(current_id++, locker)`: the old counter value is the id
waited for and the counter is incremented (as a `uint32_t`) before the wait starts. -/
def wait_current (c : CloudClient) (wakeups : List (List NetRead)) :
    CloudClient × Outcome ServerResponse :=
  wait_response c.current_id { c with current_id := (c.current_id + 1) % 2 ^ 32 } wakeups

/-- The code of a leaf operation after `wait_response`: `body` is what the operation does with
the response; an exception or a wait that has not ended passes through. -/
def on_response {α : Type} (w : CloudClient × Outcome ServerResponse)
    (body : ServerResponse → Outcome α) : CloudClient × Outcome α :=
  match w.2 with
  | .returned response => (w.1, body response)
  | .thrown e => (w.1, .thrown e)
  | .blocked => (w.1, .blocked)
  | .unfinished => (w.1, .unfinished)

/-- The struct `NodeInfo` as `get_node_info` fills it. -/
structure NodeInfo where
  type : Nat
  size : Nat
  rights : Nat
deriving DecidableEq, Repr

/-! ## Leaf operations of `cloud_client.cpp` -/

/-- The function `CloudClient::get_home`. -/
def get_home (k : CloudCommon) (c : CloudClient) (user : Str) (wakeups : List (List NetRead)) :
    CloudClient × Outcome Node :=
  let c := send_uint32 c c.current_id
  let c := send_uint16 c k.REQUEST_CMD_GET_HOME
  let c := send_uint64 c user.length
  let c := send_exact c user.length (c_str user)
  on_response (wait_current c wakeups) fun response =>
    if response.status ≠ k.REQUEST_OK then .thrown (.CloudRequestError response.status [])
    else .returned ⟨response.body.take 16⟩

/-- The decoding loop of `CloudClient::list_directory`; `fuel` bounds the number of
iterations. On a body that ends inside an entry the values read beyond its end are cut off
here (the bytes the code reads there are not part of the response); which offsets the loop
reads is `list_directory_reads`. -/
def list_directory_loop (response : ServerResponse) : Nat → Nat → List (Str × Node)
  | 0, _ => []
  | fuel + 1, offset =>
      if offset < response.size then
        let child : Node := ⟨(response.body.drop offset).take 16⟩
        let offset := offset + 16
        let length := response.body.getD offset 0
        let offset := offset + 1
        let name := string_of (response.body.drop offset) length
        let offset := offset + length
        (name, child) :: list_directory_loop response fuel offset
      else []

/-- The function `CloudClient::list_directory`; the value returned is the sequence of
`callback(name, child)` calls. Every iteration of the loop advances `offset` by at least 17,
so `response.size` iterations are enough. -/
def list_directory (k : CloudCommon) (c : CloudClient) (node : Node)
    (wakeups : List (List NetRead)) : CloudClient × Outcome (List (Str × Node)) :=
  let c := send_uint32 c c.current_id
  let c := send_uint16 c k.REQUEST_CMD_LIST_DIRECTORY
  let c := send_uint64 c 16
  let c := send_exact c 16 node.bytes
  on_response (wait_current c wakeups) fun response =>
    if response.status ≠ k.REQUEST_OK then .thrown (.CloudRequestError response.status [])
    else .returned (list_directory_loop response response.size 0)

/-- The function `CloudClient::get_parent`; `some p` stands for `true` with `*parent = p`,
`none` for `false` with `*parent` untouched. -/
def get_parent (k : CloudCommon) (c : CloudClient) (node : Node)
    (wakeups : List (List NetRead)) : CloudClient × Outcome (Option Node) :=
  let c := send_uint32 c c.current_id
  let c := send_uint16 c k.REQUEST_CMD_GET_PARENT
  let c := send_uint64 c 16
  let c := send_exact c 16 node.bytes
  on_response (wait_current c wakeups) fun response =>
    if response.status ≠ k.REQUEST_OK then .thrown (.CloudRequestError response.status [])
    else .returned (if response.size = 16 then some ⟨response.body.take 16⟩ else none)

/-- The function `CloudClient::make_node`. -/
def make_node (k : CloudCommon) (c : CloudClient) (parent : Node) (name : Str) (type : Nat)
    (wakeups : List (List NetRead)) : CloudClient × Outcome Node :=
  let c := send_uint32 c c.current_id
  let c := send_uint16 c k.REQUEST_CMD_MAKE_NODE
  let c := send_uint64 c (16 + 1 + name.length + 1)
  let c := send_exact c 16 parent.bytes
  let c := send_uint8 c name.length
  let c := send_exact c name.length (c_str name)
  let c := send_uint8 c type
  on_response (wait_current c wakeups) fun response =>
    if response.status ≠ k.REQUEST_OK then .thrown (.CloudRequestError response.status [])
    else .returned ⟨response.body.take 16⟩

/-- The function `CloudClient::get_node_owner`. -/
def get_node_owner (k : CloudCommon) (c : CloudClient) (node : Node)
    (wakeups : List (List NetRead)) : CloudClient × Outcome Str :=
  let c := send_uint32 c c.current_id
  let c := send_uint16 c k.REQUEST_CMD_GET_NODE_OWNER
  let c := send_uint64 c 16
  let c := send_exact c 16 node.bytes
  on_response (wait_current c wakeups) fun response =>
    if response.status ≠ k.REQUEST_OK then .thrown (.CloudRequestError response.status [])
    else .returned (string_of response.body response.size)

/-- The function `CloudClient::fd_open`. -/
def fd_open (k : CloudCommon) (c : CloudClient) (node : Node) (mode : Nat)
    (wakeups : List (List NetRead)) : CloudClient × Outcome Nat :=
  let c := send_uint32 c c.current_id
  let c := send_uint16 c k.REQUEST_CMD_FD_OPEN
  let c := send_uint64 c (16 + 1)
  let c := send_exact c 16 node.bytes
  let c := send_uint8 c mode
  on_response (wait_current c wakeups) fun response =>
    if response.status ≠ k.REQUEST_OK then .thrown (.CloudRequestError response.status [])
    else .returned (response.body.getD 0 0)

/-- The function `CloudClient::fd_close`. -/
def fd_close (k : CloudCommon) (c : CloudClient) (fd : Nat)
    (wakeups : List (List NetRead)) : CloudClient × Outcome Unit :=
  let c := send_uint32 c c.current_id
  let c := send_uint16 c k.REQUEST_CMD_FD_CLOSE
  let c := send_uint64 c 1
  let c := send_uint8 c fd
  on_response (wait_current c wakeups) fun response =>
    if response.status ≠ k.REQUEST_OK then .thrown (.CloudRequestError response.status [])
    else .returned ()

/-- The function `CloudClient::fd_write`; `1 + n` is computed in `uint32_t`. -/
def fd_write (k : CloudCommon) (c : CloudClient) (fd n : Nat) (bytes : List Nat)
    (wakeups : List (List NetRead)) : CloudClient × Outcome Unit :=
  let c := send_uint32 c c.current_id
  let c := send_uint16 c k.REQUEST_CMD_FD_WRITE
  let c := send_uint64 c ((1 + n) % 2 ^ 32)
  let c := send_uint8 c fd
  let c := send_exact c n bytes
  on_response (wait_current c wakeups) fun response =>
    if response.status ≠ k.REQUEST_OK then .thrown (.CloudRequestError response.status [])
    else .returned ()

/-- The function `CloudClient::fd_read`; the value returned is the `uint32_t` result together
with the bytes `memcpy` puts into the caller's buffer. -/
def fd_read (k : CloudCommon) (c : CloudClient) (fd n : Nat)
    (wakeups : List (List NetRead)) : CloudClient × Outcome (Nat × List Nat) :=
  let c := send_uint32 c c.current_id
  let c := send_uint16 c k.REQUEST_CMD_FD_READ
  let c := send_uint64 c (1 + 4)
  let c := send_uint8 c fd
  let c := send_uint32 c n
  on_response (wait_current c wakeups) fun response =>
    if response.status ≠ k.REQUEST_OK then .thrown (.CloudRequestError response.status [])
    else .returned (response.size % 2 ^ 32, response.body.take response.size)

/-- The function `CloudClient::get_node_info`. -/
def get_node_info (k : CloudCommon) (c : CloudClient) (node : Node)
    (wakeups : List (List NetRead)) : CloudClient × Outcome NodeInfo :=
  let c := send_uint32 c c.current_id
  let c := send_uint16 c k.REQUEST_CMD_GET_NODE_INFO
  let c := send_uint64 c 16
  let c := send_exact c 16 node.bytes
  on_response (wait_current c wakeups) fun response =>
    if response.status ≠ k.REQUEST_OK then .thrown (.CloudRequestError response.status [])
    else .returned
      { type := response.body.getD 0 0
        size := k.buf_read_uint64 (response.body.drop 1)
        rights := response.body.getD 9 0 }

/-! ## Bulk transfer -/

/-- What a bulk transfer did in raw mode besides writing: every `connection->read(n, buffer)`
with `n` and its result, and every call of the chunk callback with its argument (reads) or
its result (writes), in order. -/
structure RawLog where
  reads : List (Nat × Nat)
  callbacks : List Nat
deriving DecidableEq, Repr

/-- The loop `while (done < count)` of `CloudClient::fd_read_long`. The connection is the
function `read`: its first argument is the number of raw reads made before, the second the
number of bytes asked for, the value the number of bytes delivered. The flag tells whether
the loop ended within `fuel` iterations. -/
def fd_read_long_loop (read : Nat → Nat → Nat) (count buf_size : Nat) :
    Nat → Nat → RawLog → RawLog × Bool
  | 0, done, log => (log, !decide (done < count))
  | fuel + 1, done, log =>
      if done < count then
        let n := min buf_size (count - done)
        let got := read log.reads.length n % 2 ^ 32
        fd_read_long_loop read count buf_size fuel ((done + got) % 2 ^ 64)
          { reads := log.reads ++ [(n, got)], callbacks := log.callbacks ++ [got] }
      else (log, true)

/-- The function `CloudClient::fd_read_long`; `fuel` bounds the iterations of its loop. The
value is the client, what was done in raw mode, and how the call ends. -/
def fd_read_long (k : CloudCommon) (c : CloudClient) (fd count buf_size : Nat)
    (read : Nat → Nat → Nat) (fuel : Nat) (wakeups : List (List NetRead)) :
    CloudClient × RawLog × Outcome Unit :=
  let c := send_uint32 c c.current_id
  let c := send_uint16 c k.REQUEST_CMD_FD_READ_LONG
  let c := send_uint64 c (1 + 8)
  let c := send_uint8 c fd
  let c := send_uint64 c count
  let w := wait_current c wakeups
  match w.2 with
  | .returned response =>
      if response.status ≠ k.REQUEST_SWITCH_OK then
        (w.1, ⟨[], []⟩, .thrown (.CloudRequestError response.status []))
      else
        let r := fd_read_long_loop read count buf_size fuel 0 ⟨[], []⟩
        (w.1, r.1, if r.2 then .returned () else .unfinished)
  | .thrown e => (w.1, ⟨[], []⟩, .thrown e)
  | .blocked => (w.1, ⟨[], []⟩, .blocked)
  | .unfinished => (w.1, ⟨[], []⟩, .unfinished)

/-- The loop `while (done < count)` of `CloudClient::fd_write_long`. Each element of
`callback` is one call of the callback: the value it returns and the content of `buffer`
when it returns. The result is the client after the writes made, the values the callback
returned, and whether the loop ended within the modelled calls. -/
def fd_write_long_loop (count : Nat) :
    CloudClient → Nat → List Nat → List (Nat × List Nat) → CloudClient × List Nat × Bool
  | c, done, calls, [] => (c, calls, !decide (done < count))
  | c, done, calls, (r, buffer) :: rest =>
      if done < count then
        let sent := r % 2 ^ 32
        let c := send_exact c sent buffer
        fd_write_long_loop count c ((done + sent) % 2 ^ 64) (calls ++ [sent]) rest
      else (c, calls, true)

/-- The function `CloudClient::fd_write_long`. The value is the client, what was done in raw
mode besides writing, and how the call ends. -/
def fd_write_long (k : CloudCommon) (c : CloudClient) (fd count : Nat)
    (callback : List (Nat × List Nat)) (wakeups : List (List NetRead)) :
    CloudClient × RawLog × Outcome Unit :=
  let c := send_uint32 c c.current_id
  let c := send_uint16 c k.REQUEST_CMD_FD_WRITE_LONG
  let c := send_uint64 c (1 + 8)
  let c := send_uint8 c fd
  let c := send_uint64 c count
  let w := wait_current c wakeups
  match w.2 with
  | .returned response =>
      if response.status ≠ k.REQUEST_SWITCH_OK then
        (w.1, ⟨[], []⟩, .thrown (.CloudRequestError response.status []))
      else
        let r := fd_write_long_loop count w.1 0 [] callback
        (r.1, ⟨[], r.2.1⟩, if r.2.2 then .returned () else .unfinished)
  | .thrown e => (w.1, ⟨[], []⟩, .thrown e)
  | .blocked => (w.1, ⟨[], []⟩, .blocked)
  | .unfinished => (w.1, ⟨[], []⟩, .unfinished)

/-- What a bulk transfer wrote to the connection after the five fields of its request
frame. -/
def raw_written (before after : CloudClient) : List Sent :=
  after.connection.drop (before.connection.length + 5)

/-- The reads of a bulk read are chunked as the transfer demands: starting with `done` bytes
moved, every read asks for `min(buf_size, count - done)` bytes while `done < count`, gets
between 1 and that many, and the transfer ends with `done = count`. -/
def chunked (count buf_size : Nat) : Nat → List (Nat × Nat) → Prop
  | done, [] => done = count
  | done, (n, got) :: rest =>
      done < count ∧ n = min buf_size (count - done) ∧ 1 ≤ got ∧ got ≤ n
        ∧ chunked count buf_size (done + got) rest

/-! ## Leaf operations, continued -/

/-- The function `CloudClient::set_node_rights`. -/
def set_node_rights (k : CloudCommon) (c : CloudClient) (node : Node) (rights : Nat)
    (wakeups : List (List NetRead)) : CloudClient × Outcome Unit :=
  let c := send_uint32 c c.current_id
  let c := send_uint16 c k.REQUEST_CMD_SET_NODE_RIGHTS
  let c := send_uint64 c (16 + 1)
  let c := send_exact c 16 node.bytes
  let c := send_uint8 c rights
  on_response (wait_current c wakeups) fun response =>
    if response.status ≠ k.REQUEST_OK then .thrown (.CloudRequestError response.status [])
    else .returned ()

/-- The function `CloudClient::group_invite`. -/
def group_invite (k : CloudCommon) (c : CloudClient) (user : Str)
    (wakeups : List (List NetRead)) : CloudClient × Outcome Unit :=
  let c := send_uint32 c c.current_id
  let c := send_uint16 c k.REQUEST_CMD_GROUP_INVITE
  let c := send_uint64 c user.length
  let c := send_exact c user.length (c_str user)
  on_response (wait_current c wakeups) fun response =>
    if response.status ≠ k.REQUEST_OK then .thrown (.CloudRequestError response.status [])
    else .returned ()

/-- The function `CloudClient::get_node_group`. -/
def get_node_group (k : CloudCommon) (c : CloudClient) (node : Node)
    (wakeups : List (List NetRead)) : CloudClient × Outcome Str :=
  let c := send_uint32 c c.current_id
  let c := send_uint16 c k.REQUEST_CMD_GET_NODE_GROUP
  let c := send_uint64 c 16
  let c := send_exact c 16 node.bytes
  on_response (wait_current c wakeups) fun response =>
    if response.status ≠ k.REQUEST_OK then .thrown (.CloudRequestError response.status [])
    else .returned (string_of response.body response.size)

/-- The function `CloudClient::remove_node`. -/
def remove_node (k : CloudCommon) (c : CloudClient) (node : Node)
    (wakeups : List (List NetRead)) : CloudClient × Outcome Unit :=
  let c := send_uint32 c c.current_id
  let c := send_uint16 c k.REQUEST_CMD_DELETE_NODE
  let c := send_uint64 c 16
  let c := send_exact c 16 node.bytes
  on_response (wait_current c wakeups) fun response =>
    if response.status ≠ k.REQUEST_OK then .thrown (.CloudRequestError response.status [])
    else .returned ()

/-- The function `CloudClient::set_node_group`. -/
def set_node_group (k : CloudCommon) (c : CloudClient) (node : Node) (group : Str)
    (wakeups : List (List NetRead)) : CloudClient × Outcome Unit :=
  let c := send_uint32 c c.current_id
  let c := send_uint16 c k.REQUEST_CMD_SET_NODE_GROUP
  let c := send_uint64 c (16 + group.length)
  let c := send_exact c 16 node.bytes
  let c := send_exact c group.length (c_str group)
  on_response (wait_current c wakeups) fun response =>
    if response.status ≠ k.REQUEST_OK then .thrown (.CloudRequestError response.status [])
    else .returned ()

/-- The function `CloudClient::group_kick`. -/
def group_kick (k : CloudCommon) (c : CloudClient) (user : Str)
    (wakeups : List (List NetRead)) : CloudClient × Outcome Unit :=
  let c := send_uint32 c c.current_id
  let c := send_uint16 c k.REQUEST_CMD_GROUP_KICK
  let c := send_uint64 c user.length
  let c := send_exact c user.length (c_str user)
  on_response (wait_current c wakeups) fun response =>
    if response.status ≠ k.REQUEST_OK then .thrown (.CloudRequestError response.status [])
    else .returned ()

/-! ## Calls on a client -/

/-- A call of one leaf operation with its arguments. -/
inductive Request where
  | get_home (user : Str)
  | list_directory (node : Node)
  | get_parent (node : Node)
  | make_node (parent : Node) (name : Str) (type : Nat)
  | get_node_owner (node : Node)
  | fd_open (node : Node) (mode : Nat)
  | fd_close (fd : Nat)
  | fd_write (fd n : Nat) (bytes : List Nat)
  | fd_read (fd n : Nat)
  | get_node_info (node : Node)
  | fd_read_long (fd count buf_size : Nat) (read : Nat → Nat → Nat) (fuel : Nat)
  | fd_write_long (fd count : Nat) (callback : List (Nat × List Nat))
  | set_node_rights (node : Node) (rights : Nat)
  | group_invite (user : Str)
  | get_node_group (node : Node)
  | remove_node (node : Node)
  | set_node_group (node : Node) (group : Str)
  | group_kick (user : Str)

/-- The value a leaf operation returns. -/
inductive Reply where
  | node (n : Node)
  | entries (l : List (Str × Node))
  | parent (p : Option Node)
  | text (s : Str)
  | byte (b : Nat)
  | unit
  | read (n : Nat) (bytes : List Nat)
  | info (i : NodeInfo)
  | raw (log : RawLog)
deriving DecidableEq, Repr

/-- Run the leaf operation a `Request` names. -/
def perform (k : CloudCommon) (c : CloudClient) (req : Request) (wakeups : List (List NetRead)) :
    CloudClient × Outcome Reply :=
  match req with
  | .get_home user =>
      let r := get_home k c user wakeups; (r.1, r.2.map .node)
  | .list_directory node =>
      let r := list_directory k c node wakeups; (r.1, r.2.map .entries)
  | .get_parent node =>
      let r := get_parent k c node wakeups; (r.1, r.2.map .parent)
  | .make_node parent name type =>
      let r := make_node k c parent name type wakeups; (r.1, r.2.map .node)
  | .get_node_owner node =>
      let r := get_node_owner k c node wakeups; (r.1, r.2.map .text)
  | .fd_open node mode =>
      let r := fd_open k c node mode wakeups; (r.1, r.2.map .byte)
  | .fd_close fd =>
      let r := fd_close k c fd wakeups; (r.1, r.2.map fun _ => .unit)
  | .fd_write fd n bytes =>
      let r := fd_write k c fd n bytes wakeups; (r.1, r.2.map fun _ => .unit)
  | .fd_read fd n =>
      let r := fd_read k c fd n wakeups; (r.1, r.2.map fun p => .read p.1 p.2)
  | .get_node_info node =>
      let r := get_node_info k c node wakeups; (r.1, r.2.map .info)
  | .fd_read_long fd count buf_size read fuel =>
      let r := fd_read_long k c fd count buf_size read fuel wakeups
      (r.1, r.2.2.map fun _ => .raw r.2.1)
  | .fd_write_long fd count callback =>
      let r := fd_write_long k c fd count callback wakeups
      (r.1, r.2.2.map fun _ => .raw r.2.1)
  | .set_node_rights node rights =>
      let r := set_node_rights k c node rights wakeups; (r.1, r.2.map fun _ => .unit)
  | .group_invite user =>
      let r := group_invite k c user wakeups; (r.1, r.2.map fun _ => .unit)
  | .get_node_group node =>
      let r := get_node_group k c node wakeups; (r.1, r.2.map .text)
  | .remove_node node =>
      let r := remove_node k c node wakeups; (r.1, r.2.map fun _ => .unit)
  | .set_node_group node group =>
      let r := set_node_group k c node group wakeups; (r.1, r.2.map fun _ => .unit)
  | .group_kick user =>
      let r := group_kick k c user wakeups; (r.1, r.2.map fun _ => .unit)

/-- The operations that end with the ordinary status check (all but the two bulk transfers). -/
def Request.framed : Request → Bool
  | .fd_read_long _ _ _ _ _ => false
  | .fd_write_long _ _ _ => false
  | _ => true

/-- The bulk transfers `fd_read_long` and `fd_write_long`. -/
def Request.bulk (req : Request) : Bool := !req.framed

/-- Whether the request is a call of `fd_write`. -/
def Request.is_fd_write : Request → Bool
  | .fd_write _ _ _ => true
  | _ => false

/-- Whether the request is a call of `fd_write_long`. -/
def Request.is_fd_write_long : Request → Bool
  | .fd_write_long _ _ _ => true
  | _ => false

/-- The response `wait_response` hands to the request issued next on `c`, given what the
listener handles while the caller sleeps. -/
def delivered (c : CloudClient) (wakeups : List (List NetRead)) : Outcome ServerResponse :=
  (wait_response c.current_id c wakeups).2

/-- The opcode each operation names in its frame. -/
def Request.opcode (k : CloudCommon) : Request → Nat
  | .get_home _ => k.REQUEST_CMD_GET_HOME
  | .list_directory _ => k.REQUEST_CMD_LIST_DIRECTORY
  | .get_parent _ => k.REQUEST_CMD_GET_PARENT
  | .make_node _ _ _ => k.REQUEST_CMD_MAKE_NODE
  | .get_node_owner _ => k.REQUEST_CMD_GET_NODE_OWNER
  | .fd_open _ _ => k.REQUEST_CMD_FD_OPEN
  | .fd_close _ => k.REQUEST_CMD_FD_CLOSE
  | .fd_write _ _ _ => k.REQUEST_CMD_FD_WRITE
  | .fd_read _ _ => k.REQUEST_CMD_FD_READ
  | .get_node_info _ => k.REQUEST_CMD_GET_NODE_INFO
  | .fd_read_long _ _ _ _ _ => k.REQUEST_CMD_FD_READ_LONG
  | .fd_write_long _ _ _ => k.REQUEST_CMD_FD_WRITE_LONG
  | .set_node_rights _ _ => k.REQUEST_CMD_SET_NODE_RIGHTS
  | .group_invite _ => k.REQUEST_CMD_GROUP_INVITE
  | .get_node_group _ => k.REQUEST_CMD_GET_NODE_GROUP
  | .remove_node _ => k.REQUEST_CMD_DELETE_NODE
  | .set_node_group _ _ => k.REQUEST_CMD_SET_NODE_GROUP
  | .group_kick _ => k.REQUEST_CMD_GROUP_KICK

/-- The payload of each request frame as the wire format describes it: the fields that
follow the payload-length. -/
def Request.payload : Request → List Sent
  | .get_home user => [.exact user.length (c_str user)]
  | .list_directory node => [.exact 16 (node.bytes.take 16)]
  | .get_parent node => [.exact 16 (node.bytes.take 16)]
  | .make_node parent name type =>
      [.exact 16 (parent.bytes.take 16), .uint8 (name.length % 2 ^ 8),
        .exact name.length (c_str name), .uint8 (type % 2 ^ 8)]
  | .get_node_owner node => [.exact 16 (node.bytes.take 16)]
  | .fd_open node mode => [.exact 16 (node.bytes.take 16), .uint8 (mode % 2 ^ 8)]
  | .fd_close fd => [.uint8 (fd % 2 ^ 8)]
  | .fd_write fd n bytes => [.uint8 (fd % 2 ^ 8), .exact n (bytes.take n)]
  | .fd_read fd n => [.uint8 (fd % 2 ^ 8), .uint32 (n % 2 ^ 32)]
  | .get_node_info node => [.exact 16 (node.bytes.take 16)]
  | .fd_read_long fd count _ _ _ => [.uint8 (fd % 2 ^ 8), .uint64 (count % 2 ^ 64)]
  | .fd_write_long fd count _ => [.uint8 (fd % 2 ^ 8), .uint64 (count % 2 ^ 64)]
  | .set_node_rights node rights => [.exact 16 (node.bytes.take 16), .uint8 (rights % 2 ^ 8)]
  | .group_invite user => [.exact user.length (c_str user)]
  | .get_node_group node => [.exact 16 (node.bytes.take 16)]
  | .remove_node node => [.exact 16 (node.bytes.take 16)]
  | .set_node_group node group =>
      [.exact 16 (node.bytes.take 16), .exact group.length (c_str group)]
  | .group_kick user => [.exact user.length (c_str user)]

/-- The strings among the arguments of a request. -/
def Request.strings : Request → List Str
  | .get_home user => [user]
  | .make_node _ name _ => [name]
  | .group_invite user => [user]
  | .set_node_group _ group => [group]
  | .group_kick user => [user]
  | _ => []

/-- The arguments fit their C++ types as far as the frame layout depends on it: a
`std::string` is shorter than `2^63` bytes. -/
def Request.well_typed (req : Request) : Prop := ∀ s ∈ req.strings, s.length < 2 ^ 63

/-- What the `n`-th of a sequence of calls writes to the connection, for each `n`: every call
runs on the client the previous one left, with its own listener activity. -/
def written_by (k : CloudCommon) :
    CloudClient → List (Request × List (List NetRead)) → List (List Sent)
  | _, [] => []
  | c, (req, wakeups) :: rest =>
      let c1 := (perform k c req wakeups).1
      c1.connection.drop c.connection.length :: written_by k c1 rest

/-- The request id at the head of what a call wrote. -/
def frame_id (frame : List Sent) : Option Nat :=
  match frame with
  | .uint32 id :: _ => some id
  | _ => none

/-! ## Listener and callers side by side -/

/-- The client together with the ids of the callers that are inside `wait_response`. -/
structure System where
  client : CloudClient
  waiting : List Nat
deriving DecidableEq, Repr

/-- One atomic step of a thread. `call`: a caller takes `api_lock`, writes its frame and
enters `wait_response(current_id++)`. `store`: the listener reads one frame. `read_failure`:
the listener catches a read failure. `wake`: a caller inside `wait_response` checks its loop
condition again. -/
inductive Action where
  | call (req : Request)
  | store (id : Nat) (response : ServerResponse)
  | read_failure
  | wake (id : Nat)

/-- The effect of one step; `none` when the step cannot happen: a `wake` for an id nobody
waits on. The listener stores whatever frame it reads, under whatever id. -/
def step (k : CloudCommon) (s : System) : Action → Option System
  | .call req =>
      let r := perform k s.client req []
      match r.2 with
      | .blocked => some { client := r.1, waiting := s.client.current_id :: s.waiting }
      | _ => some { client := r.1, waiting := s.waiting }
  | .store id response =>
      some { s with client := listener_routine s.client [NetRead.of_response (id, response)] }
  | .read_failure => some { s with client := listener_routine s.client [.failure] }
  | .wake id =>
      if id ∈ s.waiting then
        let r := wait_response id s.client []
        match r.2 with
        | .blocked => some s
        | _ => some { client := r.1, waiting := s.waiting.erase id }
      else none

/-- Run a sequence of steps. -/
def run (k : CloudCommon) : System → List Action → Option System
  | s, [] => some s
  | s, a :: rest =>
      match step k s a with
      | some s1 => run k s1 rest
      | none => none

/-- The system right after the constructor: nobody waits. -/
def System.init : System := { client := CloudClient.fresh, waiting := [] }

/-- Whether every frame the listener stores in the run from `s` has the id of a caller that
is inside `wait_response` at that moment. -/
def answers_waiters (k : CloudCommon) : System → List Action → Bool
  | _, [] => true
  | s, a :: rest =>
      (match a with
        | .store id _ => decide (id ∈ s.waiting)
        | _ => true)
      && (match step k s a with
        | some s1 => answers_waiters k s1 rest
        | none => true)

/-! ## Path resolution (`client_shell.h`) -/

/-- The calls on `CloudClient *client` as the shell helpers see them: how each call ends, as
a function of its arguments. For `list_directory` the value is the sequence of callback calls,
for `get_parent` it is `some p` for `true` with `*parent = p` and `none` for `false`. The
server's tree does not change while one path is resolved. -/
structure Remote where
  get_home : Str → Outcome Node
  list_directory : Node → Outcome (List (Str × Node))
  get_parent : Node → Outcome (Option Node)

/-- A request the shell helpers make on the client. -/
inductive Call where
  | get_home (user : Str)
  | list_directory (node : Node)
  | get_parent (node : Node)
deriving DecidableEq, Repr

/-- The string `s.substr(pos, n)`. -/
def substr (s : Str) (pos n : Nat) : Str := (s.drop pos).take n

/-- The body of the first loop of `get_relative_path_node` at position `pos`; the state is
`parts` and `start`. -/
def split_step (path : Str) (st : List Str × Nat) (pos : Nat) : List Str × Nat :=
  if path.getD pos (Char.ofNat 0) = '/' then
    (st.1 ++ [substr path st.2 (pos - st.2)], pos + 1)
  else st

/-- The vector `parts` of `get_relative_path_node` when its second loop starts. -/
def path_parts (path : Str) : List Str :=
  let st := (List.range path.length).foldl (split_step path) ([], 0)
  st.1 ++ [substr path st.2 path.length]

/-- The parts of a path read off its characters from left to right; `cur` holds the
characters since the last divider. -/
def split_from : Str → Str → List Str
  | cur, [] => [cur]
  | cur, ch :: rest =>
      if ch = '/' then cur :: split_from [] rest else split_from (cur ++ [ch]) rest

/-- The callback `get_relative_path_node` passes to `list_directory`; the state is `found`
and `current`. -/
def match_entry (part : Str) (st : Bool × Node) (e : Str × Node) : Bool × Node :=
  if e.1 = part then (true, e.2) else st

/-- The message `"'" + part + "' not found"`. -/
def not_found (part : Str) : Str := [Char.ofNat 39] ++ part ++ "' not found".toList

/-- The second loop of `get_relative_path_node` from `current` over the parts left; the
value is the requests made, in order, and how the function ends. -/
def resolve_parts (r : Remote) : Node → List Str → List Call × Outcome Node
  | current, [] => ([], .returned current)
  | current, part :: rest =>
      if part.isEmpty then resolve_parts r current rest
      else if part = "..".toList then
        match r.get_parent current with
        | .returned p =>
            let next := resolve_parts r (p.getD current) rest
            (.get_parent current :: next.1, next.2)
        | .thrown e => ([.get_parent current], .thrown e)
        | .blocked => ([.get_parent current], .blocked)
        | .unfinished => ([.get_parent current], .unfinished)
      else
        match r.list_directory current with
        | .returned entries =>
            let st := entries.foldl (match_entry part) (false, current)
            if !st.1 then
              ([.list_directory current], .thrown (.runtime_error (not_found part)))
            else
              let next := resolve_parts r st.2 rest
              (.list_directory current :: next.1, next.2)
        | .thrown e => ([.list_directory current], .thrown e)
        | .blocked => ([.list_directory current], .blocked)
        | .unfinished => ([.list_directory current], .unfinished)

/-- The function `get_relative_path_node`. -/
def get_relative_path_node (r : Remote) (base : Node) (path : Str) : List Call × Outcome Node :=
  resolve_parts r base (path_parts path)

/-- The status check every framed operation applies to the response it is handed. -/
def status_check (k : CloudCommon) (response : ServerResponse) : Outcome Unit :=
  if response.status ≠ k.REQUEST_OK then .thrown (.CloudRequestError response.status [])
  else .returned ()

/-- One choice of values for the constants of `cloud_common.h`, for evaluating the definitions
on concrete inputs. -/
def CloudCommon.sample : CloudCommon :=
  { REQUEST_OK := 0
    REQUEST_SWITCH_OK := 1
    REQUEST_ERR_FORBIDDEN := 2
    REQUEST_CMD_GET_HOME := 1
    REQUEST_CMD_LIST_DIRECTORY := 2
    REQUEST_CMD_GET_PARENT := 3
    REQUEST_CMD_MAKE_NODE := 4
    REQUEST_CMD_GET_NODE_OWNER := 5
    REQUEST_CMD_FD_OPEN := 6
    REQUEST_CMD_FD_CLOSE := 7
    REQUEST_CMD_FD_WRITE := 8
    REQUEST_CMD_FD_READ := 9
    REQUEST_CMD_GET_NODE_INFO := 10
    REQUEST_CMD_FD_READ_LONG := 11
    REQUEST_CMD_FD_WRITE_LONG := 12
    REQUEST_CMD_SET_NODE_RIGHTS := 13
    REQUEST_CMD_GROUP_INVITE := 14
    REQUEST_CMD_GET_NODE_GROUP := 15
    REQUEST_CMD_DELETE_NODE := 16
    REQUEST_CMD_SET_NODE_GROUP := 17
    REQUEST_CMD_GROUP_KICK := 18
    REQUEST_CMD_GOODBYE := 19
    CLOUD_PATH_DIV := '/'
    CLOUD_PATH_HOME := '~'
    CLOUD_PATH_NODE := '#'
    CLOUD_PATH_UNKNOWN := "?".toList
    buf_read_uint64 := fun p => (p.take 8).foldl (fun acc b => acc * 256 + b) 0 }

/-! ## Absolute paths and reverse mapping (`client_shell.h`) -/

/-- The result of `s.find(ch)`: the first position of `ch`, `none` for `npos`. -/
def str_find : Str → Char → Option Nat
  | [], _ => none
  | c :: rest, ch => if c = ch then some 0 else (str_find rest ch).map (· + 1)

/-- The function `is_absolute_path`; `path[0]` of an empty string is the null character. -/
def is_absolute_path (k : CloudCommon) (path : Str) : Bool :=
  path.getD 0 (Char.ofNat 0) = k.CLOUD_PATH_HOME || path.getD 0 (Char.ofNat 0) = k.CLOUD_PATH_NODE

/-- The function `get_absolute_path_base`: `path.substr(0, path.find(CLOUD_PATH_DIV))`, the
whole path when there is no divider. -/
def get_absolute_path_base (k : CloudCommon) (path : Str) : Str :=
  match str_find path k.CLOUD_PATH_DIV with
  | some n => substr path 0 n
  | none => path

/-- The function `get_absolute_path_base_node`; `string2node` is the function of that name in
`cloud_common.h`. The value is the requests made and how the call ends. -/
def get_absolute_path_base_node (k : CloudCommon) (string2node : Str → Outcome Node)
    (r : Remote) (base : Str) : List Call × Outcome Node :=
  if base.getD 0 (Char.ofNat 0) = k.CLOUD_PATH_NODE then ([], string2node (base.drop 1))
  else if base.getD 0 (Char.ofNat 0) = k.CLOUD_PATH_HOME then
    ([.get_home (base.drop 1)], r.get_home (base.drop 1))
  else ([], .thrown (.invalid_argument ("invalid base ".toList ++ base)))

/-- The function `get_path_node`. -/
def get_path_node (k : CloudCommon) (string2node : Str → Outcome Node) (r : Remote)
    (cwd : Node) (path : Str) : List Call × Outcome Node :=
  if is_absolute_path k path then
    let base := get_absolute_path_base k path
    let b := get_absolute_path_base_node k string2node r base
    match b.2 with
    | .returned node =>
        let res := get_relative_path_node r node (path.drop base.length)
        (b.1 ++ res.1, res.2)
    | .thrown e => (b.1, .thrown e)
    | .blocked => (b.1, .blocked)
    | .unfinished => (b.1, .unfinished)
  else get_relative_path_node r cwd path

/-- The callback `get_node_path` passes to `list_directory`; the state is `name`. -/
def match_child (node : Node) (name : Str) (e : Str × Node) : Str :=
  if e.2 = node then e.1 else name

/-- The function `get_node_path`; `fuel` bounds the depth of the recursion, and the outcome is
`unfinished` when it is used up. The value is the requests made, in order, and how the call
ends. -/
def get_node_path (k : CloudCommon) (r : Remote) : Nat → Node → List Call × Outcome Str
  | 0, _ => ([], .unfinished)
  | fuel + 1, node =>
      match r.get_parent node with
      | .returned (some parent) =>
          match r.list_directory parent with
          | .returned entries =>
              let name := entries.foldl (match_child node) []
              let up := get_node_path k r fuel parent
              (.get_parent node :: .list_directory parent :: up.1,
                up.2.map fun s => s ++ [k.CLOUD_PATH_DIV] ++ name)
          | .thrown (.CloudRequestError status info) =>
              if status = k.REQUEST_ERR_FORBIDDEN then
                let up := get_node_path k r fuel parent
                (.get_parent node :: .list_directory parent :: up.1,
                  up.2.map fun s => s ++ [k.CLOUD_PATH_DIV] ++ k.CLOUD_PATH_UNKNOWN)
              else
                ([.get_parent node, .list_directory parent],
                  .thrown (.CloudRequestError status info))
          | .thrown e => ([.get_parent node, .list_directory parent], .thrown e)
          | .blocked => ([.get_parent node, .list_directory parent], .blocked)
          | .unfinished => ([.get_parent node, .list_directory parent], .unfinished)
      | .returned none => ([.get_parent node], .returned [])
      | .thrown e => ([.get_parent node], .thrown e)
      | .blocked => ([.get_parent node], .blocked)
      | .unfinished => ([.get_parent node], .unfinished)

/-- A path obtained from `p` by adding dividers, one at a time, at the start, at the end, or
next to a divider that is already there. -/
inductive DividersAdded (p : Str) : Str → Prop where
  | same : DividersAdded p p
  | add (pre post : Str) : DividersAdded p (pre ++ post) →
      (pre = [] ∨ post = [] ∨ pre.getLast? = some '/' ∨ post.head? = some '/') →
      DividersAdded p (pre ++ '/' :: post)

/-- The parent relation leads from `node` up to a parentless node through the levels `ups`,
nearest first: each level gives the parent and the name under which the node below is listed
in it, every entry of the parent's listing for that node carrying this name. -/
def ascends (r : Remote) : Node → List (Str × Node) → Prop
  | node, [] => r.get_parent node = .returned none
  | node, (name, parent) :: ups =>
      r.get_parent node = .returned (some parent)
        ∧ (∃ entries, r.list_directory parent = .returned entries ∧ (name, node) ∈ entries
            ∧ ∀ e ∈ entries, e.2 = node → e.1 = name)
        ∧ ascends r parent ups

/-- The path spelled by the levels `ups` of `ascends`, from the top level down: the divider
followed by the name, for each level. -/
def levels_path (k : CloudCommon) : List (Str × Node) → Str
  | [] => []
  | (name, _) :: ups => levels_path k ups ++ [k.CLOUD_PATH_DIV] ++ name

/-! ## Directory listings on the wire -/

/-- One entry of a listing body: 16 Node bytes, one name-length byte, the name bytes. -/
def encode_entry (e : Str × Node) : List Nat :=
  e.2.bytes ++ [e.1.length % 2 ^ 8] ++ c_str e.1

/-- The body that lists `entries` in order. -/
def encode_entries : List (Str × Node) → List Nat
  | [] => []
  | e :: rest => encode_entry e ++ encode_entries rest

/-! ## The constructor -/

/-- The constants and the function of `cloud_common.h` the constructor uses. -/
structure InitCommon where
  INIT_CMD_AUTH : Nat
  INIT_OK : Nat
  init_status_string : Nat → Str

/-- How `CloudClient::CloudClient` ends: the object exists, a `CloudInitError` is thrown, or
`read_uint16` throws its `std::runtime_error`. -/
inductive Constructed where
  | client (c : CloudClient)
  | CloudInitError (status : Nat) (desc : Str)
  | runtime_error
deriving DecidableEq, Repr

/-- The constructor `CloudClient::CloudClient`. `password` is what `password_callback()`
returns, `status` what `read_uint16(net)` delivers (`none` when it throws). The value is
what was written to `net` and how the constructor ends; the listener thread is started only
on the last line. -/
def CloudClient.construct (i : InitCommon) (login password : Str) (status : Option Nat) :
    List Sent × Constructed :=
  let c : CloudClient :=
    { connection := [], listener := false, responses := [], current_id := 0, connected := true }
  let c := send_uint16 c i.INIT_CMD_AUTH
  let size := (1 + login.length + password.length) % 2 ^ 64
  let c := send_uint64 c size
  let c := send_uint8 c login.length
  let c := send_exact c login.length (c_str login)
  let c := send_exact c password.length (c_str password)
  match status with
  | none => (c.connection, .runtime_error)
  | some status =>
      if status ≠ i.INIT_OK then
        (c.connection, .CloudInitError status (i.init_status_string status))
      else (c.connection, .client { c with listener := true })

/-- The bytes of a sequence of sends made of single bytes and byte blocks; `none` when a wider
integer occurs, whose byte order is the server's. -/
def body_bytes : List Sent → Option (List Nat)
  | [] => some []
  | .uint8 v :: rest => (body_bytes rest).map (v :: ·)
  | .exact _ data :: rest => (body_bytes rest).map (data ++ ·)
  | _ :: _ => none

/-- The body of the authentication frame read as the wire format describes it: a `u8`
login-length, that many login bytes, and the rest as credential bytes. -/
def parse_auth (body : List Nat) : Str × Str :=
  (((body.drop 1).take (body.getD 0 0)).map Char.ofNat,
    (body.drop (1 + body.getD 0 0)).map Char.ofNat)

/-- One choice of values for the constants the constructor uses. -/
def InitCommon.sample : InitCommon :=
  { INIT_CMD_AUTH := 1, INIT_OK := 0, init_status_string := fun _ => "init failed".toList }

/-- A `string2node` for evaluating the definitions on concrete inputs: the node whose bytes are
the character codes. -/
def string2node_sample (s : Str) : Outcome Node := .returned ⟨c_str s⟩

/-! ## The destructor -/

/-- How `CloudClient::~CloudClient` leaves things: the members of the client, whether
`connection->close()` was completed, whether `listener.join()` was completed, and the
exception that leaves the destructor, if any. -/
structure Destroyed where
  client : CloudClient
  closed : Bool
  joined : Bool
  propagated : Option Exception
deriving DecidableEq, Repr

/-- The call `listener.join()`: the caller waits until the listener thread has left
`listener_routine`. The thread handles what it still reads (`input`) and ends with the read
failure it meets on a connection that is closed or lost. -/
def join_listener (c : CloudClient) (input : List NetRead) : CloudClient :=
  listener_routine c (input ++ [.failure])

/-- The destructor `CloudClient::~CloudClient` of a client whose constructor succeeded (the
`listener` thread object is joinable). The calls on the connection inside the `try` block
are numbered 0, 1, 2 (the three sends) and 3 (`close`); `fails = some j` means that call `j`
throws the `std::runtime_error` of the networking layer, which the `catch (std::exception &)`
clause swallows, the rest of the block being skipped. `input` is what the listener still
reads before its read fails. -/
def CloudClient.destroy (k : CloudCommon) (c : CloudClient) (fails : Option Nat)
    (input : List NetRead) : Destroyed :=
  if c.connected then
    if fails = some 0 then ⟨c, false, false, none⟩
    else
      let c := send_uint32 c c.current_id
      if fails = some 1 then ⟨c, false, false, none⟩
      else
        let c := send_uint16 c k.REQUEST_CMD_GOODBYE
        if fails = some 2 then ⟨c, false, false, none⟩
        else
          let c := send_uint64 c 0
          if fails = some 3 then ⟨c, false, false, none⟩
          else ⟨join_listener c input, true, true, none⟩
  else ⟨join_listener c input, false, true, none⟩

/-! ## The exception `CloudRequestError` -/

/-- The members of a `CloudRequestError`, in the order of their declaration in
`cloud_client.h`. -/
structure CloudRequestError where
  status : Nat
  info : Str
  desc : Str
deriving DecidableEq, Repr

/-- The constructor `CloudRequestError::CloudRequestError(uint16_t status, std::string info)`;
`request_status_string` is the function of that name in `cloud_common.h`. The members are
initialised in the order of their declaration in the class (`status`, `info`, `desc`), not in
the order of the initialiser list, so `info(std::move(info))` runs first and the initialiser
of `desc` reads the parameter `info` after it was moved from: an empty string. -/
def CloudRequestError.construct (request_status_string : Nat → Str) (status : Nat)
    (info : Str) : CloudRequestError :=
  let status_member := status
  let info_member := info
  let info : Str := []
  let desc_member :=
    if info.isEmpty then request_status_string status
    else request_status_string status ++ " (".toList ++ info ++ ")".toList
  { status := status_member, info := info_member, desc := desc_member }

/-- The function `CloudRequestError::what`. -/
def CloudRequestError.what (e : CloudRequestError) : Str := e.desc

/-! ## Reads of the listing decoder -/

/-- The offsets into `response.body` that the decoding loop of `CloudClient::list_directory`
reads, in order: the 16 bytes of the `Node`, the length byte, and `length` bytes of the name,
for every iteration. -/
def list_directory_reads (response : ServerResponse) : Nat → Nat → List Nat
  | 0, _ => []
  | fuel + 1, offset =>
      if offset < response.size then
        let node_reads := (List.range 16).map (offset + ·)
        let offset := offset + 16
        let length := response.body.getD offset 0
        let length_read := [offset]
        let offset := offset + 1
        let name_reads := (List.range length).map (offset + ·)
        let offset := offset + length
        node_reads ++ length_read ++ name_reads ++ list_directory_reads response fuel offset
      else []

/-! ## Shell commands (`client_shell.h`) -/

/-- The constants `NODE_RIGHTS_*` of `cloud_common.h`. -/
structure NodeRights where
  NODE_RIGHTS_GROUP_READ : Nat
  NODE_RIGHTS_GROUP_WRITE : Nat
  NODE_RIGHTS_ALL_READ : Nat
  NODE_RIGHTS_ALL_WRITE : Nat

/-- The result of `s.find_first_not_of(chars)`: the first position whose character is not in
`chars`, `none` for `npos`. -/
def find_first_not_of : Str → Str → Option Nat
  | [], _ => none
  | c :: rest, chars =>
      if c ∈ chars then (find_first_not_of rest chars).map (· + 1) else some 0

/-- What one run of the `chmod` command did: the requests of `get_path_node`, the line written
to `std::cerr`, and the call `client->set_node_rights(target, rights)` with its arguments. -/
structure ChmodRun where
  calls : List Call
  cerr : Option Str
  set_node_rights : Option (Node × Nat)
deriving DecidableEq, Repr

/-- The `chmod` command of the shell. When `get_path_node` does not return, the command ends
there with its exception. -/
def chmod (k : CloudCommon) (nr : NodeRights) (string2node : Str → Outcome Node) (r : Remote)
    (cwd : Node) (args : List Str) : ChmodRun :=
  if args.length < 2 then ⟨[], some "chmod: not enough arguments".toList, none⟩
  else if args.length > 2 then ⟨[], some "chmod: too many arguments".toList, none⟩
  else
    let s_rights := args.getD 0 []
    let path := args.getD 1 []
    let p := get_path_node k string2node r cwd path
    match p.2 with
    | .returned target =>
        if s_rights.length ≠ 4 ∨ find_first_not_of s_rights "01".toList ≠ none then
          ⟨p.1, some "chmod: invalid rights".toList, none⟩
        else
          let rights :=
            ((if s_rights.getD 0 (Char.ofNat 0) = '1' then nr.NODE_RIGHTS_GROUP_READ else 0) % 2 ^ 8)
              ||| ((if s_rights.getD 1 (Char.ofNat 0) = '1' then nr.NODE_RIGHTS_GROUP_WRITE else 0)
                % 2 ^ 8)
              ||| ((if s_rights.getD 2 (Char.ofNat 0) = '1' then nr.NODE_RIGHTS_ALL_READ else 0)
                % 2 ^ 8)
              ||| ((if s_rights.getD 3 (Char.ofNat 0) = '1' then nr.NODE_RIGHTS_ALL_WRITE else 0)
                % 2 ^ 8)
          ⟨p.1, none, some (target, rights)⟩
    | _ => ⟨p.1, none, none⟩

/-- The flag of `cloud_common.h` that position `i` of a rights string stands for. -/
def NodeRights.flag (nr : NodeRights) : Nat → Nat
  | 0 => nr.NODE_RIGHTS_GROUP_READ
  | 1 => nr.NODE_RIGHTS_GROUP_WRITE
  | 2 => nr.NODE_RIGHTS_ALL_READ
  | 3 => nr.NODE_RIGHTS_ALL_WRITE
  | _ => 0

/-- The mask as the documentation of `chmod` describes it: the bitwise OR of the flags of
exactly those positions 0, 1, 2, 3 of the rights string that hold `1`. -/
def described_mask (nr : NodeRights) (s : Str) : Nat :=
  (((List.range 4).filter fun i => s.getD i (Char.ofNat 0) = '1').map nr.flag).foldl
    (fun m f => m ||| f) 0

/-- The first loop of the `ls` command over its arguments; the state is `target` and
`options`, and the value is `none` when the command ends with "too much arguments". -/
def ls_arguments : List Str → Str × Str → Option (Str × Str)
  | [], st => some st
  | a :: rest, st =>
      if !a.isEmpty && a.getD 0 (Char.ofNat 0) = '-' then
        ls_arguments rest (st.1, st.2 ++ a.drop 1)
      else if !st.1.isEmpty then none
      else ls_arguments rest (a, st.2)

/-- The second loop of the `ls` command over the option characters; the state is `hidden`
and `long_list`, and the value is the unknown option the command ends with, if any. -/
def ls_options : List Char → Bool × Bool → Char ⊕ (Bool × Bool)
  | [], st => .inr st
  | o :: rest, st =>
      if o = 'l' then ls_options rest (st.1, true)
      else if o = 'a' then ls_options rest (true, st.2)
      else .inl o

/-- What the `ls` command does: it ends with one of its two complaints, or it lists the
children of a node (`contents`), or it prints the description of the node itself
(`description`). `calls` are the requests of `get_path_node` and `node` is how that call
ends; what is printed for each node is left out. -/
inductive LsRun where
  | too_much_arguments
  | unknown_option (o : Char)
  | contents (calls : List Call) (node : Outcome Node) (hidden long_list : Bool)
  | description (calls : List Call) (node : Outcome Node) (hidden long_list : Bool)
deriving DecidableEq, Repr

/-- The `ls` command of the shell. `target.find(CLOUD_PATH_DIV)` is a `size_t`, `npos` being
`2^64 - 1`, and so is `target.length() - 1`. -/
def ls (k : CloudCommon) (string2node : Str → Outcome Node) (r : Remote) (cwd : Node)
    (args : List Str) : LsRun :=
  match ls_arguments args ([], []) with
  | none => .too_much_arguments
  | some (target, options) =>
      match ls_options options (false, false) with
      | .inl o => .unknown_option o
      | .inr (hidden, long_list) =>
          if target.isEmpty ∨ (str_find target k.CLOUD_PATH_DIV).getD (2 ^ 64 - 1)
              = (target.length + 2 ^ 64 - 1) % 2 ^ 64 then
            if target.isEmpty then .contents [] (.returned cwd) hidden long_list
            else
              let p := get_path_node k string2node r cwd target
              .contents p.1 p.2 hidden long_list
          else
            let p := get_path_node k string2node r cwd target
            .description p.1 p.2 hidden long_list

/-! ## Trees -/

/-- The listings of the server form a tree as far as the path helpers see it: in every
listing that succeeds the names are distinct, no name is empty, `..` or contains the divider
`/`, and `get_parent` of every listed child is the directory listed. -/
def tree_listings (r : Remote) : Prop :=
  ∀ (d : Node) (entries : List (Str × Node)), r.list_directory d = .returned entries →
    (entries.map Prod.fst).Nodup
      ∧ ∀ e ∈ entries, e.1 ≠ [] ∧ e.1 ≠ "..".toList ∧ '/' ∉ e.1
          ∧ r.get_parent e.2 = .returned (some d)

/-- The node lies below `root`: `ups` are the directories from its own up to `root`, nearest
first, each listed in the next, every listing on the way permitted. -/
def below (r : Remote) (root : Node) : Node → List Node → Prop
  | node, [] => node = root
  | node, d :: ups =>
      (∃ entries, r.list_directory d = .returned entries ∧ ∃ name, (name, node) ∈ entries)
        ∧ below r root d ups

/-! ## Threads and locks -/

/-- What an operation writes to the connection before it waits: its request frame, with `id`
as the value of `current_id`. -/
def request_frame (k : CloudCommon) (id : Nat) (req : Request) : List Sent :=
  (perform k
    { connection := [], listener := true, responses := [], current_id := id, connected := true }
    req []).1.connection

/-- The argument `count` of a bulk transfer. -/
def Request.count : Request → Nat
  | .fd_read_long _ count _ _ _ => count
  | .fd_write_long _ count _ => count
  | _ => 0

/-- Where a caller thread stands. `locked`: a bulk transfer holds `api_lock` and is about to
take `ldtm_lock`. `sending`: the locks are taken and `sent` of the `send_*` calls of the
request frame are made, `id` being the value of `current_id` the frame names. `checking`:
inside `wait_response`, holding `api_lock`, about to test the loop condition. `entering`: the
test said to sleep and the call `response_notifier.wait(locker)` is about to be made,
`api_lock` still held. `asleep`: inside `response_notifier.wait`, `api_lock` released;
`notified` tells whether a `notify_all` was made since the thread went to sleep. `raw`:
inside the loop `while (done < count)` of a bulk transfer. -/
inductive Pc where
  | idle
  | locked (req : Request)
  | sending (req : Request) (id : Nat) (sent : Nat)
  | checking (req : Request) (id : Nat)
  | entering (req : Request) (id : Nat)
  | asleep (req : Request) (id : Nat) (notified : Bool)
  | raw (req : Request) (done : Nat)

/-- Where the listener thread stands: about to read a frame, about to take `ldtm_lock` after
a `REQUEST_SWITCH_OK` response, or past the end of `listener_routine`. -/
inductive ListenerPc where
  | reading
  | locking
  | ended
deriving DecidableEq, Repr

/-- The client with its threads: the members `responses`, `current_id`, `connected`, the
owners of the two mutexes, the position of every caller thread and of the listener, and the
log of the `send_*` calls on the connection, each with the thread that made it. -/
structure Threads where
  responses : ResponseMap
  current_id : Nat
  connected : Bool
  api_lock : Option Nat
  ldtm_lock : Option Nat
  pc : Nat → Pc
  listener_pc : ListenerPc
  wire : List (Nat × Sent)

/-- The positions after thread `t` moved to `v`. -/
def set_pc (pc : Nat → Pc) (t : Nat) (v : Pc) : Nat → Pc := fun u => if u = t then v else pc u

/-- The call `response_notifier.notify_all()`: it reaches the threads that are inside
`response_notifier.wait` at that moment, and no other. -/
def notify_all (pc : Nat → Pc) : Nat → Pc := fun u =>
  match pc u with
  | .asleep req id _ => .asleep req id true
  | p => p

/-- The operation of thread `t` ends, by `return` or by an exception: the destructors of its
`unique_lock`s release `api_lock` and, for a bulk transfer, `ldtm_lock`. -/
def leave (s : Threads) (t : Nat) (req : Request) : Threads :=
  { s with
    api_lock := none
    ldtm_lock := if req.bulk then none else s.ldtm_lock
    pc := set_pc s.pc t .idle }

/-- One atomic step of one thread.
`lock`: caller `t` enters an operation and gets `api_lock`.
`lock_ldtm`: a bulk transfer gets `ldtm_lock`.
`send`: the next `send_*` call of the request frame.
`wait`: the frame is written and `wait_response(current_id++, locker)` is entered.
`check`: the caller tests the loop condition of `wait_response` and decides to sleep, or
goes on to the end of an ordinary operation or into the loop of a transfer.
`sleep`: the caller enters `response_notifier.wait(locker)`, which releases `api_lock`.
`wake`: a sleeping caller that was notified gets `api_lock` back.
`spurious`: a sleeping caller wakes up without a notification and gets `api_lock` back.
`transfer`: one iteration of the loop of a bulk transfer moving `moved` bytes, or its end.
`listener_store`: the listener reads a frame, stores it under its id and notifies.
`listener_failure`: a read of the listener fails; it sets `connected = false` and notifies.
`listener_lock`: the listener gets `ldtm_lock` and releases it at once. -/
inductive ThreadAction where
  | lock (t : Nat) (req : Request)
  | lock_ldtm (t : Nat)
  | send (t : Nat)
  | wait (t : Nat)
  | check (t : Nat)
  | sleep (t : Nat)
  | wake (t : Nat)
  | spurious (t : Nat)
  | transfer (t : Nat) (moved : Nat) (data : List Nat)
  | listener_store (id : Nat) (response : ServerResponse)
  | listener_failure
  | listener_lock

/-- The effect of one step; `none` when the thread cannot take it: the mutex it wants is
held, or it stands elsewhere. The listener takes no mutex for storing, for setting
`connected` and for notifying, so these steps can fall between the `check` and the `sleep` of
a caller. -/
def tstep (k : CloudCommon) (s : Threads) : ThreadAction → Option Threads
  | .lock t req =>
      match s.pc t, s.api_lock with
      | .idle, none =>
          if req.bulk then some { s with api_lock := some t, pc := set_pc s.pc t (.locked req) }
          else
            some { s with
              api_lock := some t, pc := set_pc s.pc t (.sending req s.current_id 0) }
      | _, _ => none
  | .lock_ldtm t =>
      match s.pc t, s.ldtm_lock with
      | .locked req, none =>
          some { s with
            ldtm_lock := some t, pc := set_pc s.pc t (.sending req s.current_id 0) }
      | _, _ => none
  | .send t =>
      match s.pc t with
      | .sending req id sent =>
          match (request_frame k id req).get? sent with
          | some token =>
              some { s with
                wire := s.wire ++ [(t, token)], pc := set_pc s.pc t (.sending req id (sent + 1)) }
          | none => none
      | _ => none
  | .wait t =>
      match s.pc t with
      | .sending req id sent =>
          if sent = (request_frame k id req).length then
            some { s with
              current_id := (s.current_id + 1) % 2 ^ 32
              pc := set_pc s.pc t (.checking req s.current_id) }
          else none
      | _ => none
  | .check t =>
      match s.pc t with
      | .checking req id =>
          if s.connected && !map_contains s.responses id then
            some { s with pc := set_pc s.pc t (.entering req id) }
          else if !s.connected then some (leave s t req)
          else
            let response := map_at s.responses id
            let s := { s with responses := map_erase s.responses id }
            if req.bulk then
              if response.status ≠ k.REQUEST_SWITCH_OK then some (leave s t req)
              else some { s with pc := set_pc s.pc t (.raw req 0) }
            else some (leave s t req)
      | _ => none
  | .sleep t =>
      match s.pc t with
      | .entering req id =>
          some { s with api_lock := none, pc := set_pc s.pc t (.asleep req id false) }
      | _ => none
  | .wake t =>
      match s.pc t, s.api_lock with
      | .asleep req id true, none =>
          some { s with api_lock := some t, pc := set_pc s.pc t (.checking req id) }
      | _, _ => none
  | .spurious t =>
      match s.pc t, s.api_lock with
      | .asleep req id _, none =>
          some { s with api_lock := some t, pc := set_pc s.pc t (.checking req id) }
      | _, _ => none
  | .transfer t moved data =>
      match s.pc t with
      | .raw req done =>
          if done < req.count then
            some { s with
              wire :=
                if req.is_fd_write_long then
                  s.wire ++ [(t, .exact (moved % 2 ^ 32) (data.take (moved % 2 ^ 32)))]
                else s.wire
              pc := set_pc s.pc t (.raw req ((done + moved % 2 ^ 32) % 2 ^ 64)) }
          else some (leave s t req)
      | _ => none
  | .listener_store id response =>
      match s.listener_pc with
      | .reading =>
          some { s with
            responses := map_assign s.responses id response
            pc := notify_all s.pc
            listener_pc := if response.status = k.REQUEST_SWITCH_OK then .locking else .reading }
      | _ => none
  | .listener_failure =>
      match s.listener_pc with
      | .reading => some { s with connected := false, pc := notify_all s.pc, listener_pc := .ended }
      | _ => none
  | .listener_lock =>
      match s.listener_pc, s.ldtm_lock with
      | .locking, none => some { s with listener_pc := .reading }
      | _, _ => none

/-- Run a sequence of thread steps. -/
def trun (k : CloudCommon) : Threads → List ThreadAction → Option Threads
  | s, [] => some s
  | s, a :: rest =>
      match tstep k s a with
      | some s1 => trun k s1 rest
      | none => none

/-- The threads right after the constructor: every caller outside any operation, the
listener about to read. -/
def Threads.init : Threads :=
  { responses := [], current_id := 0, connected := true, api_lock := none, ldtm_lock := none
    pc := fun _ => .idle, listener_pc := .reading, wire := [] }

/-- Whether a thread at this position holds `api_lock`. -/
def Pc.holds_api : Pc → Bool
  | .locked _ => true
  | .sending _ _ _ => true
  | .checking _ _ => true
  | .entering _ _ => true
  | .raw _ _ => true
  | _ => false

/-- Whether a thread at this position holds `ldtm_lock`. -/
def Pc.holds_ldtm : Pc → Bool
  | .sending req _ _ => req.bulk
  | .checking req _ => req.bulk
  | .entering req _ => req.bulk
  | .asleep req _ _ => req.bulk
  | .raw _ _ => true
  | _ => false

/-- What holds of the locks in every state the threads reach: a thread at a position inside
the locked part of an operation owns `api_lock`, and a bulk transfer past `lock_ldtm` owns
`ldtm_lock`. -/
def locks_held (s : Threads) : Prop :=
  (∀ t, (s.pc t).holds_api = true → s.api_lock = some t)
    ∧ (∀ t, (s.pc t).holds_ldtm = true → s.ldtm_lock = some t)

/-- Whether a step is a wake-up without notification. -/
def ThreadAction.is_spurious : ThreadAction → Bool
  | .spurious _ => true
  | _ => false

/-- The send calls of `l`, each marked as made by thread `t`. -/
def by_thread (t : Nat) (l : List Sent) : List (Nat × Sent) := l.map fun x => (t, x)

/-- A log of send calls that is a concatenation of whole request frames, each made by one
thread, and of chunks of bulk writes. -/
inductive WholeFrames (k : CloudCommon) : List (Nat × Sent) → Prop where
  | nil : WholeFrames k []
  | frame (w : List (Nat × Sent)) (t id : Nat) (req : Request) :
      WholeFrames k w → WholeFrames k (w ++ by_thread t (request_frame k id req))
  | chunk (w : List (Nat × Sent)) (t n : Nat) (data : List Nat) :
      WholeFrames k w → WholeFrames k (w ++ [(t, .exact n data)])

/-- The part of its request frame the owner of `api_lock` has written so far, when it is in
the middle of one. -/
def frame_begun (k : CloudCommon) (s : Threads) : List (Nat × Sent) :=
  match s.api_lock with
  | some t =>
      match s.pc t with
      | .sending req id sent => by_thread t ((request_frame k id req).take sent)
      | _ => []
  | none => []

/-- The state the threads reach from the start by `actions`; the start itself when some step
of `actions` cannot be taken. -/
def Threads.after (k : CloudCommon) (actions : List ThreadAction) : Threads :=
  (trun k Threads.init actions).getD Threads.init

/-- A run of two callers and the listener, for evaluating the definitions: caller 0 starts a
bulk write of 5 bytes and caller 1 an `fd_close`, both go to sleep in `wait_response`, the
listener reads the `REQUEST_SWITCH_OK` response to caller 0, and caller 0 wakes up and
enters the loop of the transfer. -/
def Threads.sample_steps : List ThreadAction :=
  [.lock 0 (.fd_write_long 3 5 []), .lock_ldtm 0, .send 0, .send 0, .send 0, .send 0, .send 0,
    .wait 0, .check 0, .sleep 0, .lock 1 (.fd_close 3), .send 1, .send 1, .send 1, .send 1,
    .wait 1, .check 1, .sleep 1, .listener_store 0 ⟨1, 0, []⟩, .wake 0, .check 0]

/-- A run in which the read of the listener fails after caller 0 has tested the loop
condition of `wait_response` and before it has entered `response_notifier.wait`. -/
def Threads.lost_wakeup_steps : List ThreadAction :=
  [.lock 0 (.get_home []), .send 0, .send 0, .send 0, .send 0, .wait 0, .check 0,
    .listener_failure, .sleep 0]

/-- A run in which the read of the listener fails while caller 0 is inside
`response_notifier.wait`; the caller is notified, wakes up and leaves `wait_response`. -/
def Threads.notified_steps : List ThreadAction :=
  [.lock 0 (.get_home []), .send 0, .send 0, .send 0, .send 0, .wait 0, .check 0, .sleep 0,
    .listener_failure, .wake 0, .check 0]

/-! # Properties -/

/-! ## The pending table -/

theorem map_find_erase_self (m : ResponseMap) (id : Nat) :
    map_find (map_erase m id) id = none := by
  induction m with
  | nil => rfl
  | cons e m ih =>
      obtain ⟨k, r⟩ := e
      by_cases h : k = id
      · simpa [map_erase, List.filter_cons, h] using ih
      · simpa [map_erase, List.filter_cons, h, map_find] using ih

theorem map_find_erase_ne (m : ResponseMap) (id other : Nat) (h : other ≠ id) :
    map_find (map_erase m id) other = map_find m other := by
  induction m with
  | nil => rfl
  | cons e m ih =>
      obtain ⟨k, r⟩ := e
      by_cases hk : k = id
      · have hko : ¬ k = other := fun e => h (e ▸ hk)
        have hio : ¬ id = other := fun e => h e.symm
        subst hk
        simpa [map_erase, List.filter_cons, map_find, hio] using ih
      · by_cases hko : k = other
        · subst hko
          simp [map_erase, List.filter_cons, hk, map_find]
        · simpa [map_erase, List.filter_cons, hk, map_find, hko] using ih

theorem map_find_assign_self (m : ResponseMap) (id : Nat) (r : ServerResponse) :
    map_find (map_assign m id r) id = some r := by
  simp [map_assign, map_find]

theorem map_find_assign_ne (m : ResponseMap) (id other : Nat) (r : ServerResponse)
    (h : other ≠ id) : map_find (map_assign m id r) other = map_find m other := by
  have h2 : ¬ id = other := fun e => h e.symm
  simp [map_assign, map_find, h2, map_find_erase_ne m id other h]

theorem map_erase_subset (m : ResponseMap) (id : Nat) : map_erase m id ⊆ m := by
  intro e he
  exact (List.mem_filter.1 he).1

/-! ## `wait_response` -/

theorem wait_response_of_stored (c : CloudClient) (id : Nat) (r : ServerResponse)
    (wakeups : List (List NetRead)) (hconn : c.connected = true)
    (hr : map_find c.responses id = some r) :
    wait_response id c wakeups =
      ({ c with responses := map_erase c.responses id }, .returned r) := by
  cases wakeups <;>
    simp [wait_response, wait_response_finish, map_contains, map_at, hconn, hr]

theorem wait_response_disconnected (c : CloudClient) (id : Nat) (wakeups : List (List NetRead))
    (hconn : c.connected = false) :
    wait_response id c wakeups = (c, .thrown (.runtime_error "not connected".toList)) := by
  cases wakeups <;> simp [wait_response, wait_response_finish, hconn]

/-- The table after the callers of `ws` have erased their entries one after the other. -/
theorem wait_all_of_stored (c : CloudClient) (hconn : c.connected = true) :
    ∀ (ws : List (Nat × ServerResponse)) (m : ResponseMap),
      (ws.map Prod.fst).Nodup → (∀ e ∈ ws, map_find m e.1 = some e.2) →
      wait_all { c with responses := m } (ws.map Prod.fst) =
        ({ c with responses := ws.foldl (fun t e => map_erase t e.1) m },
          ws.map fun e => Outcome.returned e.2) := by
  intro ws
  induction ws with
  | nil => intro m _ _; rfl
  | cons e ws ih =>
      intro m hnd hall
      have hnd2 : e.1 ∉ ws.map Prod.fst ∧ (ws.map Prod.fst).Nodup := by
        simpa using hnd
      have hstep := wait_response_of_stored { c with responses := m } e.1 e.2 [] hconn
        (hall e (List.mem_cons_self _ _))
      have hrest := ih (map_erase m e.1) hnd2.2 (by
        intro e2 he2
        have hne : e2.1 ≠ e.1 := by
          intro heq
          exact hnd2.1 (heq ▸ List.mem_map_of_mem Prod.fst he2)
        rw [map_find_erase_ne m e.1 e2.1 hne]
        exact hall e2 (List.mem_cons_of_mem _ he2))
      simp only [List.map_cons, wait_all, hstep, List.foldl_cons]
      simp only [hrest]

theorem map_find_foldl_erase_none (ws : List (Nat × ServerResponse)) :
    ∀ (m : ResponseMap) (id : Nat), map_find m id = none →
      map_find (ws.foldl (fun t e => map_erase t e.1) m) id = none := by
  induction ws with
  | nil => intro m id h; exact h
  | cons e ws ih =>
      intro m id h
      apply ih
      by_cases hid : id = e.1
      · subst hid; exact map_find_erase_self m _
      · rw [map_find_erase_ne m e.1 id hid]; exact h

theorem map_find_foldl_erase_mem (ws : List (Nat × ServerResponse)) :
    ∀ (m : ResponseMap) (id : Nat), id ∈ ws.map Prod.fst →
      map_find (ws.foldl (fun t e => map_erase t e.1) m) id = none := by
  induction ws with
  | nil => intro m id h; simp at h
  | cons e ws ih =>
      intro m id h
      by_cases hid : id = e.1
      · subst hid
        exact map_find_foldl_erase_none ws _ _ (map_find_erase_self m _)
      · have : id ∈ ws.map Prod.fst := by
          simp only [List.map_cons, List.mem_cons] at h
          exact h.resolve_left hid
        exact ih _ _ this

/-! ## The listener -/

theorem listener_loop_frames (frames : List (Nat × ServerResponse)) :
    ∀ c : CloudClient, listener_loop c (frames.map NetRead.of_response) =
      { c with responses := frames.foldl (fun t e => map_assign t e.1 e.2) c.responses } := by
  induction frames with
  | nil => intro c; rfl
  | cons e frames ih =>
      intro c
      have h := ih { c with responses := map_assign c.responses e.1 e.2 }
      simpa [NetRead.of_response, listener_loop] using h

theorem map_find_foldl_assign_not_mem (frames : List (Nat × ServerResponse)) :
    ∀ (m : ResponseMap) (id : Nat), id ∉ frames.map Prod.fst →
      map_find (frames.foldl (fun t e => map_assign t e.1 e.2) m) id = map_find m id := by
  induction frames with
  | nil => intro m id _; rfl
  | cons e frames ih =>
      intro m id h
      simp only [List.map_cons, List.mem_cons, not_or] at h
      rw [List.foldl_cons, ih _ _ h.2, map_find_assign_ne m e.1 id e.2 h.1]

theorem map_find_foldl_assign_mem (frames : List (Nat × ServerResponse)) :
    ∀ (m : ResponseMap), (frames.map Prod.fst).Nodup → ∀ e ∈ frames,
      map_find (frames.foldl (fun t e => map_assign t e.1 e.2) m) e.1 = some e.2 := by
  induction frames with
  | nil => intro m _ e he; simp at he
  | cons f frames ih =>
      intro m hnd e he
      have hnd2 : f.1 ∉ frames.map Prod.fst ∧ (frames.map Prod.fst).Nodup := by
        simpa using hnd
      rw [List.foldl_cons]
      rcases List.mem_cons.1 he with rfl | he2
      · rw [map_find_foldl_assign_not_mem frames _ _ hnd2.1]
        exact map_find_assign_self m _ _
      · exact ih _ hnd2.2 e he2

/-! ## C1 -/

/-- C1: while the client is connected, `wait_response(id)` on a table that holds a response
under `id` returns exactly that response, erases `id` and leaves every other entry as it was;
and when the listener has stored responses for distinct ids in any order, callers consuming
them in any order each get the response stored under their own id, after which none of these
ids is left in the table. -/
theorem wait_response_returns_own_response
    (c : CloudClient) (id : Nat) (r : ServerResponse) (wakeups : List (List NetRead))
    (hconn : c.connected = true) (hr : map_find c.responses id = some r) :
    wait_response id c wakeups =
        ({ c with responses := map_erase c.responses id }, .returned r)
    ∧ map_find (map_erase c.responses id) id = none
    ∧ (∀ other, other ≠ id →
        map_find (map_erase c.responses id) other = map_find c.responses other)
    ∧ (∀ frames waiters : List (Nat × ServerResponse),
        c.listener = true → (frames.map Prod.fst).Nodup → waiters.Perm frames →
        (wait_all (listener_routine c (frames.map NetRead.of_response))
            (waiters.map Prod.fst)).2 = waiters.map (fun e => Outcome.returned e.2)
        ∧ ∀ e ∈ frames,
            map_find (wait_all (listener_routine c (frames.map NetRead.of_response))
              (waiters.map Prod.fst)).1.responses e.1 = none) := by
  refine ⟨wait_response_of_stored c id r wakeups hconn hr, map_find_erase_self _ _,
    fun other h => map_find_erase_ne _ _ _ h, ?_⟩
  intro frames waiters hlis hnd hperm
  have hnd2 : (waiters.map Prod.fst).Nodup := ((hperm.map Prod.fst).nodup_iff).2 hnd
  have hstored : ∀ e ∈ waiters,
      map_find (frames.foldl (fun t e => map_assign t e.1 e.2) c.responses) e.1 = some e.2 :=
    fun e he => map_find_foldl_assign_mem frames _ hnd e (hperm.subset he)
  have hrun := wait_all_of_stored c hconn waiters _ hnd2 hstored
  have hl : listener_routine c (frames.map NetRead.of_response) =
      { c with responses := frames.foldl (fun t e => map_assign t e.1 e.2) c.responses } := by
    simp [listener_routine, hlis, listener_loop_frames]
  rw [hl, hrun]
  refine ⟨rfl, fun e he => ?_⟩
  exact map_find_foldl_erase_mem waiters _ _
    (List.mem_map_of_mem Prod.fst (hperm.symm.subset he))

/-- C1 at a concrete table: the listener stores the answers to requests 1 and 2 in the order
2, 1 and the callers consume them in the order 1, 2. -/
theorem wait_response_returns_own_response_witness :
    wait_response 7 { CloudClient.fresh with responses := [(7, ⟨0, 1, [9]⟩)] } [] =
        ({ CloudClient.fresh with responses := [] }, .returned ⟨0, 1, [9]⟩)
    ∧ (wait_all (listener_routine { CloudClient.fresh with responses := [(7, ⟨0, 1, [9]⟩)] }
          [.frame 2 0 1 [22], .frame 1 5 0 []]) [1, 2]).2 =
        [.returned ⟨5, 0, []⟩, .returned ⟨0, 1, [22]⟩] :=
  have h := wait_response_returns_own_response
    { CloudClient.fresh with responses := [(7, ⟨0, 1, [9]⟩)] } 7 ⟨0, 1, [9]⟩ [] rfl rfl
  ⟨h.1, (h.2.2.2 [(2, ⟨0, 1, [22]⟩), (1, ⟨5, 0, []⟩)] [(1, ⟨5, 0, []⟩), (2, ⟨0, 1, [22]⟩)]
    rfl (by decide) (List.Perm.swap _ _ _)).1⟩

/-! ## What a leaf operation does around `wait_response` -/

theorem listener_loop_frame_indep (x : List Sent) (y : Nat) (input : List NetRead) :
    ∀ c : CloudClient,
      listener_loop { c with connection := x, current_id := y } input =
        { listener_loop c input with connection := x, current_id := y } := by
  induction input with
  | nil => intro c; rfl
  | cons e input ih =>
      intro c
      cases e with
      | frame id status size body =>
          have h := ih { c with responses := map_assign c.responses id ⟨status, size, body⟩ }
          simpa [listener_loop] using h
      | failure => rfl

theorem listener_routine_frame_indep (x : List Sent) (y : Nat) (input : List NetRead)
    (c : CloudClient) :
    listener_routine { c with connection := x, current_id := y } input =
      { listener_routine c input with connection := x, current_id := y } := by
  obtain ⟨x0, l, m, i, b⟩ := c
  cases l
  · rfl
  · have h := listener_loop_frame_indep x y input ⟨x0, true, m, i, b⟩
    simpa [listener_routine] using h

theorem wait_response_frame_indep (id : Nat) (x : List Sent) (y : Nat)
    (wakeups : List (List NetRead)) :
    ∀ c : CloudClient,
      wait_response id { c with connection := x, current_id := y } wakeups =
        ({ (wait_response id c wakeups).1 with connection := x, current_id := y },
          (wait_response id c wakeups).2) := by
  induction wakeups with
  | nil =>
      intro c
      by_cases h1 : c.connected = true <;> by_cases h2 : map_contains c.responses id = true <;>
        simp [wait_response, wait_response_finish, h1, h2]
  | cons w ws ih =>
      intro c
      have hl := listener_routine_frame_indep x y w c
      have hi := ih (listener_routine c w)
      obtain ⟨x0, l, m, i, b⟩ := c
      cases b <;> cases h2 : map_contains m id <;>
        simp [wait_response, wait_response_finish, h2]
      rw [hl]
      exact hi

theorem listener_loop_connection (input : List NetRead) :
    ∀ c : CloudClient, (listener_loop c input).connection = c.connection
      ∧ (listener_loop c input).current_id = c.current_id := by
  induction input with
  | nil => intro c; exact ⟨rfl, rfl⟩
  | cons e input ih =>
      intro c
      cases e with
      | frame id status size body => simpa [listener_loop] using ih _
      | failure => exact ⟨rfl, rfl⟩

theorem listener_routine_connection (c : CloudClient) (input : List NetRead) :
    (listener_routine c input).connection = c.connection
      ∧ (listener_routine c input).current_id = c.current_id := by
  unfold listener_routine
  split
  · exact listener_loop_connection input c
  · exact ⟨rfl, rfl⟩

theorem wait_response_connection (id : Nat) (wakeups : List (List NetRead)) :
    ∀ c : CloudClient, (wait_response id c wakeups).1.connection = c.connection
      ∧ (wait_response id c wakeups).1.current_id = c.current_id := by
  induction wakeups with
  | nil =>
      intro c
      unfold wait_response wait_response_finish
      split
      · exact ⟨rfl, rfl⟩
      · split <;> exact ⟨rfl, rfl⟩
  | cons w ws ih =>
      intro c
      unfold wait_response wait_response_finish
      split
      · have h := ih (listener_routine c w)
        have h2 := listener_routine_connection c w
        exact ⟨h.1.trans h2.1, h.2.trans h2.2⟩
      · split <;> exact ⟨rfl, rfl⟩

theorem wait_current_snd (c : CloudClient) (wakeups : List (List NetRead)) :
    (wait_current c wakeups).2 = delivered c wakeups := by
  have h := wait_response_frame_indep c.current_id c.connection
    ((c.current_id + 1) % 2 ^ 32) wakeups c
  unfold wait_current delivered
  rw [h]

theorem wait_current_connection (c : CloudClient) (wakeups : List (List NetRead)) :
    (wait_current c wakeups).1.connection = c.connection := by
  unfold wait_current
  exact (wait_response_connection _ _ _).1

theorem wait_current_current_id (c : CloudClient) (wakeups : List (List NetRead)) :
    (wait_current c wakeups).1.current_id = (c.current_id + 1) % 2 ^ 32 := by
  unfold wait_current
  exact (wait_response_connection _ _ _).2

theorem delivered_congr (c2 c : CloudClient) (wakeups : List (List NetRead))
    (hl : c2.listener = c.listener) (hr : c2.responses = c.responses)
    (hi : c2.current_id = c.current_id) (hc : c2.connected = c.connected) :
    delivered c2 wakeups = delivered c wakeups := by
  obtain ⟨x, l, m, i, b⟩ := c2
  simp only at hl hr hi hc
  subst hl hr hi hc
  have h := wait_response_frame_indep c.current_id x c.current_id wakeups c
  unfold delivered
  simp only
  rw [h]

@[simp] theorem delivered_send_uint8 (c : CloudClient) (v : Nat) (w : List (List NetRead)) :
    delivered (send_uint8 c v) w = delivered c w := delivered_congr _ _ _ rfl rfl rfl rfl

@[simp] theorem delivered_send_uint16 (c : CloudClient) (v : Nat) (w : List (List NetRead)) :
    delivered (send_uint16 c v) w = delivered c w := delivered_congr _ _ _ rfl rfl rfl rfl

@[simp] theorem delivered_send_uint32 (c : CloudClient) (v : Nat) (w : List (List NetRead)) :
    delivered (send_uint32 c v) w = delivered c w := delivered_congr _ _ _ rfl rfl rfl rfl

@[simp] theorem delivered_send_uint64 (c : CloudClient) (v : Nat) (w : List (List NetRead)) :
    delivered (send_uint64 c v) w = delivered c w := delivered_congr _ _ _ rfl rfl rfl rfl

@[simp] theorem delivered_send_exact (c : CloudClient) (n : Nat) (src : List Nat)
    (w : List (List NetRead)) :
    delivered (send_exact c n src) w = delivered c w := delivered_congr _ _ _ rfl rfl rfl rfl

theorem on_response_snd {α : Type} (w : CloudClient × Outcome ServerResponse)
    (body : ServerResponse → Outcome α) : (on_response w body).2 = w.2.bind body := by
  unfold on_response Outcome.bind
  cases w.2 <;> rfl

theorem on_response_fst {α : Type} (w : CloudClient × Outcome ServerResponse)
    (body : ServerResponse → Outcome α) : (on_response w body).1 = w.1 := by
  unfold on_response
  cases w.2 <;> rfl

/-- The outcome of an operation that has written its frame and treats the response with
`body`. -/
theorem leaf_outcome {α : Type} (c : CloudClient) (wakeups : List (List NetRead))
    (body : ServerResponse → Outcome α) :
    (on_response (wait_current c wakeups) body).2 = (delivered c wakeups).bind body := by
  rw [on_response_snd, wait_current_snd]

/-- The outcome of every framed operation, up to the value returned, is the status check of
the response delivered. -/
theorem perform_framed_outcome (k : CloudCommon) (c : CloudClient) (req : Request)
    (wakeups : List (List NetRead)) (hf : req.framed = true) :
    (perform k c req wakeups).2.map (fun _ => ()) =
      (delivered c wakeups).bind (status_check k) := by
  cases req
  case fd_read_long => simp [Request.framed] at hf
  case fd_write_long => simp [Request.framed] at hf
  all_goals
    simp only [perform, get_home, list_directory, get_parent, make_node, get_node_owner, fd_open,
      fd_close, fd_write, fd_read, get_node_info, set_node_rights, group_invite, get_node_group,
      remove_node, set_node_group, group_kick, leaf_outcome, delivered_send_uint8,
      delivered_send_uint16, delivered_send_uint32, delivered_send_uint64,
      delivered_send_exact]
    cases delivered c wakeups with
    | returned response =>
        by_cases hs : response.status = k.REQUEST_OK <;>
          simp [Outcome.bind, Outcome.map, status_check, hs]
    | thrown e => rfl
    | blocked => rfl
    | unfinished => rfl

/-! ## C2 -/

theorem outcome_map_unit_thrown {α : Type} (o : Outcome α) (e : Exception)
    (h : o.map (fun _ => ()) = .thrown e) : o = .thrown e := by
  cases o <;> simp [Outcome.map] at h ⊢
  exact h

theorem outcome_map_unit_returned {α : Type} (o : Outcome α)
    (h : o.map (fun _ => ()) = .returned ()) : ∃ v, o = .returned v := by
  cases o <;> simp [Outcome.map] at h ⊢

/-- C2: for every framed leaf operation and every response delivered for its request, the
operation throws a `CloudRequestError` exactly when the response status differs from
`REQUEST_OK`; the error then carries the response status (with empty info), and with status
`REQUEST_OK` the operation returns a value. -/
theorem framed_operation_fails_iff_status_not_ok
    (k : CloudCommon) (c : CloudClient) (req : Request) (wakeups : List (List NetRead))
    (response : ServerResponse) (hf : req.framed = true)
    (hd : delivered c wakeups = .returned response) :
    ((∃ status info, (perform k c req wakeups).2 = .thrown (.CloudRequestError status info))
        ↔ response.status ≠ k.REQUEST_OK)
    ∧ (∀ status info, (perform k c req wakeups).2 = .thrown (.CloudRequestError status info) →
        status = response.status)
    ∧ (response.status ≠ k.REQUEST_OK →
        (perform k c req wakeups).2 = .thrown (.CloudRequestError response.status []))
    ∧ (response.status = k.REQUEST_OK → ∃ v, (perform k c req wakeups).2 = .returned v) := by
  have h := perform_framed_outcome k c req wakeups hf
  rw [hd] at h
  simp only [Outcome.bind, status_check] at h
  by_cases hs : response.status = k.REQUEST_OK
  · simp only [hs, ne_eq, not_true_eq_false, if_false] at h
    obtain ⟨v, hv⟩ := outcome_map_unit_returned _ h
    refine ⟨?_, ?_, fun hne => absurd hs hne, fun _ => ⟨v, hv⟩⟩
    · constructor
      · rintro ⟨status, info, he⟩
        rw [hv] at he
        cases he
      · intro hne
        exact absurd hs hne
    · intro status info he
      rw [hv] at he
      cases he
  · simp only [ne_eq, hs, not_false_eq_true, if_true] at h
    have ht := outcome_map_unit_thrown _ _ h
    refine ⟨⟨fun _ => hs, fun _ => ⟨_, _, ht⟩⟩, ?_, fun _ => ht, fun he => absurd he hs⟩
    intro status info he
    rw [ht] at he
    cases he
    rfl

/-- C2 on `get_node_owner` when the response stored for request 0 has status 2. -/
theorem framed_operation_fails_iff_status_not_ok_witness :
    (perform CloudCommon.sample { CloudClient.fresh with responses := [(0, ⟨2, 0, []⟩)] }
      (.get_node_owner ⟨[]⟩) []).2 = .thrown (.CloudRequestError 2 []) :=
  (framed_operation_fails_iff_status_not_ok CloudCommon.sample
    { CloudClient.fresh with responses := [(0, ⟨2, 0, []⟩)] } (.get_node_owner ⟨[]⟩) []
    ⟨2, 0, []⟩ rfl rfl).2.2.1 (by decide)

/-! ## Shared state after an operation -/

theorem fd_write_long_loop_shared (count : Nat) (callback : List (Nat × List Nat)) :
    ∀ (c : CloudClient) (done : Nat) (calls : List Nat),
      (fd_write_long_loop count c done calls callback).1.listener = c.listener
      ∧ (fd_write_long_loop count c done calls callback).1.responses = c.responses
      ∧ (fd_write_long_loop count c done calls callback).1.current_id = c.current_id
      ∧ (fd_write_long_loop count c done calls callback).1.connected = c.connected := by
  induction callback with
  | nil =>
      intro c done calls
      exact ⟨rfl, rfl, rfl, rfl⟩
  | cons e callback ih =>
      intro c done calls
      obtain ⟨v, buffer⟩ := e
      unfold fd_write_long_loop
      split
      · exact ih (send_exact c (v % 2 ^ 32) buffer) _ _
      · exact ⟨rfl, rfl, rfl, rfl⟩

/-- Apart from the connection log, the client an operation leaves is the one `wait_response`
leaves, with the counter incremented. -/
theorem perform_shared (k : CloudCommon) (c : CloudClient) (req : Request)
    (wakeups : List (List NetRead)) :
    (perform k c req wakeups).1.listener = (wait_response c.current_id c wakeups).1.listener
    ∧ (perform k c req wakeups).1.responses = (wait_response c.current_id c wakeups).1.responses
    ∧ (perform k c req wakeups).1.connected = (wait_response c.current_id c wakeups).1.connected
    ∧ (perform k c req wakeups).1.current_id = (c.current_id + 1) % 2 ^ 32 := by
  cases req
  case fd_write_long fd count callback =>
    simp only [perform, fd_write_long, send_uint8, send_uint16, send_uint32, send_uint64,
      wait_current, wait_response_frame_indep]
    cases (wait_response c.current_id c wakeups).2 with
    | returned response =>
        simp only
        split
        · exact ⟨rfl, rfl, rfl, rfl⟩
        · generalize hc2 : ({ (wait_response c.current_id c wakeups).1 with
              connection := c.connection ++ [Sent.uint32 (c.current_id % 2 ^ 32)] ++
                [Sent.uint16 (k.REQUEST_CMD_FD_WRITE_LONG % 2 ^ 16)] ++
                [Sent.uint64 ((1 + 8) % 2 ^ 64)] ++ [Sent.uint8 (fd % 2 ^ 8)] ++
                [Sent.uint64 (count % 2 ^ 64)],
              current_id := (c.current_id + 1) % 2 ^ 32 } : CloudClient) = c1
          have h := fd_write_long_loop_shared count callback c1 0 []
          subst hc2
          exact ⟨h.1, h.2.1, h.2.2.2, h.2.2.1⟩
    | thrown e => exact ⟨rfl, rfl, rfl, rfl⟩
    | blocked => exact ⟨rfl, rfl, rfl, rfl⟩
    | unfinished => exact ⟨rfl, rfl, rfl, rfl⟩
  case fd_read_long fd count buf_size read fuel =>
    simp only [perform, fd_read_long, send_uint8, send_uint16, send_uint32, send_uint64,
      wait_current, wait_response_frame_indep]
    cases (wait_response c.current_id c wakeups).2 with
    | returned response =>
        simp only
        split <;> exact ⟨rfl, rfl, rfl, rfl⟩
    | thrown e => exact ⟨rfl, rfl, rfl, rfl⟩
    | blocked => exact ⟨rfl, rfl, rfl, rfl⟩
    | unfinished => exact ⟨rfl, rfl, rfl, rfl⟩
  all_goals
    simp [perform, get_home, list_directory, get_parent, make_node, get_node_owner, fd_open,
      fd_close, fd_write, fd_read, get_node_info, set_node_rights, group_invite, get_node_group,
      remove_node, set_node_group, group_kick, on_response_fst, send_uint8,
      send_uint16, send_uint32, send_uint64, send_exact, wait_current,
      wait_response_frame_indep]

/-! ## Once disconnected -/

theorem listener_loop_connected_false (input : List NetRead) :
    ∀ c : CloudClient, c.connected = false → (listener_loop c input).connected = false := by
  induction input with
  | nil => intro c h; exact h
  | cons e input ih =>
      intro c h
      cases e with
      | frame id status size body => exact ih _ h
      | failure => rfl

theorem listener_routine_connected_false (c : CloudClient) (input : List NetRead)
    (h : c.connected = false) : (listener_routine c input).connected = false := by
  unfold listener_routine
  split
  · exact listener_loop_connected_false input c h
  · exact h

theorem listener_loop_failure (input : List NetRead) :
    ∀ c : CloudClient, NetRead.failure ∈ input → (listener_loop c input).connected = false := by
  induction input with
  | nil => intro c h; simp at h
  | cons e input ih =>
      intro c h
      cases e with
      | frame id status size body =>
          have h2 : NetRead.failure ∈ input := by simpa using h
          exact ih _ h2
      | failure => rfl

theorem perform_thrown (k : CloudCommon) (c : CloudClient) (req : Request)
    (wakeups : List (List NetRead)) (e : Exception) (h : delivered c wakeups = .thrown e) :
    (perform k c req wakeups).2 = .thrown e := by
  cases req
  case fd_write_long fd count callback =>
    have hw : (wait_current (send_uint64 (send_uint8 (send_uint64 (send_uint16
        (send_uint32 c c.current_id) k.REQUEST_CMD_FD_WRITE_LONG) (1 + 8)) fd) count)
        wakeups).2 = .thrown e := by
      rw [wait_current_snd]
      simpa using h
    simp only [perform, fd_write_long, hw, Outcome.map]
  case fd_read_long fd count buf_size read fuel =>
    have hw : (wait_current (send_uint64 (send_uint8 (send_uint64 (send_uint16
        (send_uint32 c c.current_id) k.REQUEST_CMD_FD_READ_LONG) (1 + 8)) fd) count)
        wakeups).2 = .thrown e := by
      rw [wait_current_snd]
      simpa using h
    simp only [perform, fd_read_long, hw, Outcome.map]
  all_goals
    simp [perform, get_home, list_directory, get_parent, make_node, get_node_owner, fd_open,
      fd_close, fd_write, fd_read, get_node_info, set_node_rights, group_invite, get_node_group,
      remove_node, set_node_group, group_kick, leaf_outcome, h, Outcome.bind,
      Outcome.map]

theorem delivered_disconnected (c : CloudClient) (wakeups : List (List NetRead))
    (h : c.connected = false) :
    delivered c wakeups = .thrown (.runtime_error "not connected".toList) := by
  unfold delivered
  rw [wait_response_disconnected c _ wakeups h]

/-- Once `connected` is false, `wait_response` throws the not-connected error at once, for
every id, every table content and whatever the listener input, so does every leaf operation
issued afterwards, and neither the listener, nor an operation, nor any step of the callers
and the listener makes `connected` true again. -/
theorem wait_response_throws_once_disconnected (c : CloudClient) (hconn : c.connected = false) :
    (∀ id wakeups,
        wait_response id c wakeups = (c, .thrown (.runtime_error "not connected".toList)))
    ∧ (∀ k req wakeups,
        (perform k c req wakeups).2 = .thrown (.runtime_error "not connected".toList)
        ∧ (perform k c req wakeups).1.connected = false)
    ∧ (∀ input, (listener_routine c input).connected = false)
    ∧ (∀ k waiting a s, step k ⟨c, waiting⟩ a = some s → s.client.connected = false) := by
  have hperf : ∀ k req wakeups, (perform k c req wakeups).1.connected = false := by
    intro k req wakeups
    rw [(perform_shared k c req wakeups).2.2.1, wait_response_disconnected c _ wakeups hconn]
    exact hconn
  refine ⟨fun id wakeups => wait_response_disconnected c id wakeups hconn, ?_,
    fun input => listener_routine_connected_false c input hconn, ?_⟩
  · intro k req wakeups
    exact ⟨perform_thrown k c req wakeups _ (delivered_disconnected c wakeups hconn),
      hperf k req wakeups⟩
  · intro k waiting a s hs
    cases a with
    | call req =>
        simp only [step] at hs
        split at hs <;> cases hs <;> exact hperf k req []
    | store id response =>
        simp only [step] at hs
        cases hs
        exact listener_routine_connected_false c _ hconn
    | read_failure =>
        simp only [step] at hs
        cases hs
        exact listener_routine_connected_false c _ hconn
    | wake id =>
        simp only [step] at hs
        split at hs
        · rw [wait_response_disconnected c id [] hconn] at hs
          simp only at hs
          cases hs
          exact hconn
        · cases hs

/-! ## C4 -/

theorem fd_write_long_loop_exact (count : Nat) (hcount : count < 2 ^ 64) :
    ∀ (callback : List (Nat × List Nat)) (c : CloudClient) (done : Nat) (calls : List Nat)
      (n : Nat), (∀ e ∈ callback, e.1 < 2 ^ 32) →
      done + ((callback.take n).map Prod.fst).sum = count →
      ∃ raw calls2,
        fd_write_long_loop count c done calls callback =
          ({ c with connection := c.connection ++ raw }, calls ++ calls2, true)
        ∧ done + calls2.sum = count ∧ wire_size raw = calls2.sum
        ∧ calls2 <+: callback.map Prod.fst := by
  intro callback
  induction callback with
  | nil =>
      intro c done calls n _ hsum
      refine ⟨[], [], ?_, by simpa using hsum, rfl, List.nil_prefix⟩
      have hd : ¬ done < count := by simp at hsum; omega
      simp [fd_write_long_loop, hd]
  | cons e callback ih =>
      intro c done calls n hlt hsum
      obtain ⟨v, buffer⟩ := e
      by_cases hd : done < count
      · cases n with
        | zero => simp at hsum; omega
        | succ n =>
            have hv : v < 2 ^ 32 := hlt (v, buffer) (List.mem_cons_self _ _)
            have hv2 : v % 2 ^ 32 = v := Nat.mod_eq_of_lt hv
            simp only [List.take_succ_cons, List.map_cons, List.sum_cons] at hsum
            have hd2 : (done + v) % 2 ^ 64 = done + v := Nat.mod_eq_of_lt (by omega)
            obtain ⟨raw, calls2, hrun, hs, hw, hp⟩ :=
              ih (send_exact c v buffer) (done + v) (calls ++ [v]) n
                (fun e he => hlt e (List.mem_cons_of_mem _ he)) (by omega)
            refine ⟨.exact v (buffer.take v) :: raw, v :: calls2, ?_, ?_, ?_, ?_⟩
            · simp only [fd_write_long_loop, hd, if_true, hv2, hd2, hrun]
              simp [send_exact]
            · simp only [List.sum_cons]; omega
            · simp only [wire_size, List.map_cons, List.sum_cons, Sent.width] at hw ⊢
              omega
            · simpa using hp
      · refine ⟨[], [], ?_, ?_, rfl, List.nil_prefix⟩
        · simp [fd_write_long_loop, hd]
        · simp only [List.sum_nil]
          omega

/-- Once the switch is accepted, `fd_write_long` is its loop run on the client that holds the
request frame. -/
theorem fd_write_long_accepted (k : CloudCommon) (c : CloudClient) (fd count : Nat)
    (callback : List (Nat × List Nat)) (wakeups : List (List NetRead))
    (response : ServerResponse)
    (hd : delivered c wakeups = .returned response)
    (hs : response.status = k.REQUEST_SWITCH_OK) :
    ∃ c1 : CloudClient, c1.connection = c.connection ++
        [.uint32 (c.current_id % 2 ^ 32), .uint16 (k.REQUEST_CMD_FD_WRITE_LONG % 2 ^ 16),
          .uint64 9, .uint8 (fd % 2 ^ 8), .uint64 (count % 2 ^ 64)]
      ∧ fd_write_long k c fd count callback wakeups =
        ((fd_write_long_loop count c1 0 [] callback).1,
          ⟨[], (fd_write_long_loop count c1 0 [] callback).2.1⟩,
          if (fd_write_long_loop count c1 0 [] callback).2.2 then .returned ()
          else .unfinished) := by
  refine ⟨(wait_current (send_uint64 (send_uint8 (send_uint64 (send_uint16
        (send_uint32 c c.current_id) k.REQUEST_CMD_FD_WRITE_LONG) (1 + 8)) fd) count)
        wakeups).1, ?_, ?_⟩
  · rw [wait_current_connection]
    simp [send_uint8, send_uint16, send_uint32, send_uint64]
  · have hw : (wait_current (send_uint64 (send_uint8 (send_uint64 (send_uint16
        (send_uint32 c c.current_id) k.REQUEST_CMD_FD_WRITE_LONG) (1 + 8)) fd) count)
        wakeups).2 = .returned response := by
      rw [wait_current_snd]
      simpa using hd
    simp only [fd_write_long, hw, hs, ne_eq, not_true_eq_false, if_false]

/-- C4, as amended: when the switch is accepted, the count fits `uint64_t`, the callback
returns `uint32_t` values and some initial run of them adds up to exactly `count`, then
`fd_write_long` returns after the callback calls of the shortest such run, and the raw bytes
it wrote after its request frame number exactly `count`. -/
theorem fd_write_long_writes_count_when_chunks_add_up
    (k : CloudCommon) (c : CloudClient) (fd count : Nat) (callback : List (Nat × List Nat))
    (wakeups : List (List NetRead)) (response : ServerResponse) (n : Nat)
    (hd : delivered c wakeups = .returned response)
    (hs : response.status = k.REQUEST_SWITCH_OK)
    (hcount : count < 2 ^ 64) (hchunks : ∀ e ∈ callback, e.1 < 2 ^ 32)
    (hsum : ((callback.take n).map Prod.fst).sum = count) :
    (fd_write_long k c fd count callback wakeups).2.2 = .returned ()
    ∧ (fd_write_long k c fd count callback wakeups).2.1.callbacks <+: callback.map Prod.fst
    ∧ (fd_write_long k c fd count callback wakeups).2.1.callbacks.sum = count
    ∧ wire_size (raw_written c (fd_write_long k c fd count callback wakeups).1) = count := by
  obtain ⟨c1, hc1, hrun⟩ := fd_write_long_accepted k c fd count callback wakeups response hd hs
  obtain ⟨raw, calls, hloop, hsum2, hwire, hpre⟩ :=
    fd_write_long_loop_exact count hcount callback c1 0 [] n hchunks (by simpa using hsum)
  rw [hloop] at hrun
  simp only [List.nil_append, if_true] at hrun
  rw [hrun]
  refine ⟨rfl, hpre, by simpa using hsum2, ?_⟩
  simp only [raw_written, hc1]
  rw [List.drop_left' (by simp)]
  omega

/-- C4, as amended, on a transfer of 5 bytes in chunks of 4 and 1. -/
theorem fd_write_long_writes_count_when_chunks_add_up_witness :
    wire_size (raw_written { CloudClient.fresh with responses := [(0, ⟨1, 0, []⟩)] }
      (fd_write_long CloudCommon.sample { CloudClient.fresh with responses := [(0, ⟨1, 0, []⟩)] }
        3 5 [(4, [1, 2, 3, 4]), (1, [5])] []).1) = 5 :=
  (fd_write_long_writes_count_when_chunks_add_up CloudCommon.sample
    { CloudClient.fresh with responses := [(0, ⟨1, 0, []⟩)] } 3 5 [(4, [1, 2, 3, 4]), (1, [5])] []
    ⟨1, 0, []⟩ 2 rfl rfl (by decide) (by decide) rfl).2.2.2

/-- C4 fails as stated: with the switch accepted and `count = 5`, a callback that returns 4
twice makes `fd_write_long` return after writing 8 raw bytes. -/
theorem fd_write_long_writes_more_than_count :
    delivered { CloudClient.fresh with responses := [(0, ⟨1, 0, []⟩)] } [] =
        .returned ⟨CloudCommon.sample.REQUEST_SWITCH_OK, 0, []⟩
    ∧ (fd_write_long CloudCommon.sample { CloudClient.fresh with responses := [(0, ⟨1, 0, []⟩)] }
        3 5 [(4, [1, 2, 3, 4]), (4, [5, 6, 7, 8])] []).2 = (⟨[], [4, 4]⟩, .returned ())
    ∧ wire_size (raw_written { CloudClient.fresh with responses := [(0, ⟨1, 0, []⟩)] }
        (fd_write_long CloudCommon.sample
          { CloudClient.fresh with responses := [(0, ⟨1, 0, []⟩)] }
          3 5 [(4, [1, 2, 3, 4]), (4, [5, 6, 7, 8])] []).1) = 8
    ∧ ¬ wire_size (raw_written { CloudClient.fresh with responses := [(0, ⟨1, 0, []⟩)] }
        (fd_write_long CloudCommon.sample
          { CloudClient.fresh with responses := [(0, ⟨1, 0, []⟩)] }
          3 5 [(4, [1, 2, 3, 4]), (4, [5, 6, 7, 8])] []).1) ≤ 5 := by
  decide


/-! ## C5 -/

theorem chunked_sum (count buf_size : Nat) :
    ∀ (rs : List (Nat × Nat)) (done : Nat), chunked count buf_size done rs →
      done + (rs.map Prod.snd).sum = count
        ∧ ∀ p ∈ rs, p.1 ≤ buf_size ∧ 1 ≤ p.2 ∧ p.2 ≤ p.1 := by
  intro rs
  induction rs with
  | nil => intro done h; exact ⟨by simpa [chunked] using h, by simp⟩
  | cons p rs ih =>
      intro done h
      obtain ⟨n, got⟩ := p
      obtain ⟨_, hn, h1, h2, hrest⟩ := h
      obtain ⟨hsum, hall⟩ := ih _ hrest
      refine ⟨by simp only [List.map_cons, List.sum_cons]; omega, ?_⟩
      intro q hq
      rcases List.mem_cons.1 hq with rfl | hq
      · exact ⟨by simp only [hn]; exact Nat.min_le_left _ _, h1, h2⟩
      · exact hall q hq

theorem fd_read_long_loop_chunked (read : Nat → Nat → Nat) (count buf_size : Nat)
    (hb1 : 1 ≤ buf_size) (hb2 : buf_size < 2 ^ 32) (hcount : count < 2 ^ 64)
    (hread : ∀ i n, 1 ≤ n → 1 ≤ read i n ∧ read i n ≤ n) :
    ∀ (fuel done : Nat) (log : RawLog), done ≤ count → count - done ≤ fuel →
      ∃ rs, fd_read_long_loop read count buf_size fuel done log =
          (⟨log.reads ++ rs, log.callbacks ++ rs.map Prod.snd⟩, true)
        ∧ chunked count buf_size done rs
        ∧ ∀ i p, rs[i]? = some p → p.2 = read (log.reads.length + i) p.1 := by
  intro fuel
  induction fuel with
  | zero =>
      intro done log hle hfuel
      have hd : done = count := by omega
      refine ⟨[], ?_, hd, fun i p h => by simp at h⟩
      simp [fd_read_long_loop, hd]
  | succ fuel ih =>
      intro done log hle hfuel
      by_cases hd : done < count
      · have hn1 : 1 ≤ min buf_size (count - done) := by
          rw [Nat.le_min]; omega
        obtain ⟨hg1, hg2⟩ := hread log.reads.length _ hn1
        have hn2 : min buf_size (count - done) ≤ buf_size := Nat.min_le_left _ _
        have hn3 : min buf_size (count - done) ≤ count - done := Nat.min_le_right _ _
        have hgot : read log.reads.length (min buf_size (count - done)) % 2 ^ 32 =
            read log.reads.length (min buf_size (count - done)) :=
          Nat.mod_eq_of_lt (by omega)
        have hdone : (done + read log.reads.length (min buf_size (count - done))) % 2 ^ 64 =
            done + read log.reads.length (min buf_size (count - done)) :=
          Nat.mod_eq_of_lt (by omega)
        obtain ⟨rs, hrun, hch, hdel⟩ :=
          ih (done + read log.reads.length (min buf_size (count - done)))
          ⟨log.reads ++ [(min buf_size (count - done),
              read log.reads.length (min buf_size (count - done)))],
            log.callbacks ++ [read log.reads.length (min buf_size (count - done))]⟩
          (by omega) (by omega)
        refine ⟨(min buf_size (count - done),
            read log.reads.length (min buf_size (count - done))) :: rs, ?_, ?_, ?_⟩
        · simp only [fd_read_long_loop, hd, if_true, hgot, hdone, hrun]
          simp
        · exact ⟨hd, rfl, hg1, hg2, hch⟩
        · intro i p hp
          cases i with
          | zero =>
              simp only [List.getElem?_cons_zero, Option.some.injEq] at hp
              subst hp
              rfl
          | succ i =>
              simp only [List.getElem?_cons_succ] at hp
              have h := hdel i p hp
              simp only [List.length_append, List.length_singleton] at h
              rw [h]
              congr 1
              omega
      · have hd2 : done = count := by omega
        refine ⟨[], ?_, hd2, fun i p h => by simp at h⟩
        simp [fd_read_long_loop, hd]

/-- C5: with the switch accepted, a count that fits `uint64_t`, a `uint32_t` buffer size of at
least 1 and a connection whose every read delivers between 1 and the number of bytes asked
for, `fd_read_long` returns (`count` iterations are enough); every read asked for
`min(buf_size, count - done)` bytes, the number logged for the `i`-th read is what the
connection delivered on that read, the callback was called once after each read with that
number, and these numbers add up to exactly `count`. -/
theorem fd_read_long_moves_exactly_count
    (k : CloudCommon) (c : CloudClient) (fd count buf_size : Nat) (read : Nat → Nat → Nat)
    (fuel : Nat) (wakeups : List (List NetRead)) (response : ServerResponse)
    (hd : delivered c wakeups = .returned response)
    (hs : response.status = k.REQUEST_SWITCH_OK)
    (hb1 : 1 ≤ buf_size) (hb2 : buf_size < 2 ^ 32) (hcount : count < 2 ^ 64)
    (hread : ∀ i n, 1 ≤ n → 1 ≤ read i n ∧ read i n ≤ n) (hfuel : count ≤ fuel) :
    (fd_read_long k c fd count buf_size read fuel wakeups).2.2 = .returned ()
    ∧ chunked count buf_size 0 (fd_read_long k c fd count buf_size read fuel wakeups).2.1.reads
    ∧ (fd_read_long k c fd count buf_size read fuel wakeups).2.1.callbacks =
        (fd_read_long k c fd count buf_size read fuel wakeups).2.1.reads.map Prod.snd
    ∧ ((fd_read_long k c fd count buf_size read fuel wakeups).2.1.reads.map Prod.snd).sum = count
    ∧ (∀ p ∈ (fd_read_long k c fd count buf_size read fuel wakeups).2.1.reads,
        p.1 ≤ buf_size ∧ 1 ≤ p.2 ∧ p.2 ≤ p.1)
    ∧ (∀ i p, (fd_read_long k c fd count buf_size read fuel wakeups).2.1.reads[i]? = some p →
        p.2 = read i p.1)
    ∧ (∀ i, (fd_read_long k c fd count buf_size read fuel wakeups).2.1.callbacks[i]? =
        ((fd_read_long k c fd count buf_size read fuel wakeups).2.1.reads[i]?).map
          fun p => read i p.1) := by
  have hw : (wait_current (send_uint64 (send_uint8 (send_uint64 (send_uint16
      (send_uint32 c c.current_id) k.REQUEST_CMD_FD_READ_LONG) (1 + 8)) fd) count)
      wakeups).2 = .returned response := by
    rw [wait_current_snd]
    simpa using hd
  obtain ⟨rs, hrun, hch, hdel⟩ :=
    fd_read_long_loop_chunked read count buf_size hb1 hb2 hcount hread
      fuel 0 ⟨[], []⟩ (Nat.zero_le _) (by omega)
  have hdel0 : ∀ i p, rs[i]? = some p → p.2 = read i p.1 := by
    intro i p hp
    have h := hdel i p hp
    simpa using h
  have hrun2 : fd_read_long k c fd count buf_size read fuel wakeups =
      ((wait_current (send_uint64 (send_uint8 (send_uint64 (send_uint16
        (send_uint32 c c.current_id) k.REQUEST_CMD_FD_READ_LONG) (1 + 8)) fd) count)
        wakeups).1, ⟨rs, rs.map Prod.snd⟩, .returned ()) := by
    simp only [fd_read_long, hw, hs, ne_eq, not_true_eq_false, if_false, hrun, if_true,
      List.nil_append]
  rw [hrun2]
  obtain ⟨hsum, hall⟩ := chunked_sum count buf_size rs 0 hch
  refine ⟨rfl, hch, rfl, by simpa using hsum, hall, hdel0, ?_⟩
  intro i
  simp only [List.getElem?_map]
  cases hp : rs[i]? with
  | none => rfl
  | some p => simp [hdel0 i p hp]

/-- C5 on a transfer of 5 bytes with a 2-byte buffer over a connection whose first read
delivers 1 byte of the 2 asked for and every later read all of them: the reads ask for 2, 2
and 2 bytes and deliver 1, 2 and 2, and the callback is called with 1, 2 and 2. -/
theorem fd_read_long_moves_exactly_count_witness :
    (fd_read_long CloudCommon.sample { CloudClient.fresh with responses := [(0, ⟨1, 0, []⟩)] }
      3 5 2 (fun i n => if i = 0 then 1 else n) 5 []).2.2 = .returned ()
    ∧ ((fd_read_long CloudCommon.sample { CloudClient.fresh with responses := [(0, ⟨1, 0, []⟩)] }
      3 5 2 (fun i n => if i = 0 then 1 else n) 5 []).2.1.reads.map Prod.snd).sum = 5
    ∧ (fd_read_long CloudCommon.sample { CloudClient.fresh with responses := [(0, ⟨1, 0, []⟩)] }
      3 5 2 (fun i n => if i = 0 then 1 else n) 5 []).2.1 =
        ⟨[(2, 1), (2, 2), (2, 2)], [1, 2, 2]⟩ :=
  have h := fd_read_long_moves_exactly_count CloudCommon.sample
    { CloudClient.fresh with responses := [(0, ⟨1, 0, []⟩)] } 3 5 2
    (fun i n => if i = 0 then 1 else n) 5 [] ⟨1, 0, []⟩ rfl rfl (by decide) (by decide)
    (by decide)
    (fun i n h => by
      by_cases hi : i = 0
      · simp only [hi, if_true]; exact ⟨Nat.le_refl _, h⟩
      · simp only [hi, if_false]; exact ⟨h, Nat.le_refl _⟩)
    (Nat.le_refl _)
  ⟨h.1, h.2.2.2.1, by decide⟩


/-! ## C6 -/

theorem bulk_frame_connection (c : CloudClient) (op fd count : Nat)
    (wakeups : List (List NetRead)) :
    (wait_current (send_uint64 (send_uint8 (send_uint64 (send_uint16
      (send_uint32 c c.current_id) op) (1 + 8)) fd) count) wakeups).1.connection =
      c.connection ++ [.uint32 (c.current_id % 2 ^ 32), .uint16 (op % 2 ^ 16), .uint64 9,
        .uint8 (fd % 2 ^ 8), .uint64 (count % 2 ^ 64)] := by
  rw [wait_current_connection]
  simp [send_uint8, send_uint16, send_uint32, send_uint64]

/-- C6: when the response to the request of `fd_read_long` or `fd_write_long` carries a
status other than `REQUEST_SWITCH_OK` (the ordinary `REQUEST_OK` included, as it is another
value), the call throws a `CloudRequestError` with that status, nothing is written to the
connection after the request frame, no raw read is made and the callback is never called. -/
theorem bulk_transfer_rejected_without_raw_io
    (k : CloudCommon) (c : CloudClient) (fd count : Nat) (wakeups : List (List NetRead))
    (response : ServerResponse)
    (hd : delivered c wakeups = .returned response)
    (hs : response.status ≠ k.REQUEST_SWITCH_OK) :
    (∀ buf_size read fuel,
        (fd_read_long k c fd count buf_size read fuel wakeups).2 =
          (⟨[], []⟩, .thrown (.CloudRequestError response.status []))
        ∧ raw_written c (fd_read_long k c fd count buf_size read fuel wakeups).1 = [])
    ∧ (∀ callback,
        (fd_write_long k c fd count callback wakeups).2 =
          (⟨[], []⟩, .thrown (.CloudRequestError response.status []))
        ∧ raw_written c (fd_write_long k c fd count callback wakeups).1 = []) := by
  constructor
  · intro buf_size read fuel
    have hw : (wait_current (send_uint64 (send_uint8 (send_uint64 (send_uint16
        (send_uint32 c c.current_id) k.REQUEST_CMD_FD_READ_LONG) (1 + 8)) fd) count)
        wakeups).2 = .returned response := by
      rw [wait_current_snd]
      simpa using hd
    have hc := bulk_frame_connection c k.REQUEST_CMD_FD_READ_LONG fd count wakeups
    have hres : fd_read_long k c fd count buf_size read fuel wakeups =
        ((wait_current (send_uint64 (send_uint8 (send_uint64 (send_uint16
          (send_uint32 c c.current_id) k.REQUEST_CMD_FD_READ_LONG) (1 + 8)) fd) count)
          wakeups).1, ⟨[], []⟩, .thrown (.CloudRequestError response.status [])) := by
      simp only [fd_read_long, hw, ne_eq, hs, not_false_eq_true, if_true]
    rw [hres]
    refine ⟨rfl, ?_⟩
    simp only [raw_written, hc]
    exact List.drop_eq_nil_of_le (by simp)
  · intro callback
    have hw : (wait_current (send_uint64 (send_uint8 (send_uint64 (send_uint16
        (send_uint32 c c.current_id) k.REQUEST_CMD_FD_WRITE_LONG) (1 + 8)) fd) count)
        wakeups).2 = .returned response := by
      rw [wait_current_snd]
      simpa using hd
    have hc := bulk_frame_connection c k.REQUEST_CMD_FD_WRITE_LONG fd count wakeups
    have hres : fd_write_long k c fd count callback wakeups =
        ((wait_current (send_uint64 (send_uint8 (send_uint64 (send_uint16
          (send_uint32 c c.current_id) k.REQUEST_CMD_FD_WRITE_LONG) (1 + 8)) fd) count)
          wakeups).1, ⟨[], []⟩, .thrown (.CloudRequestError response.status [])) := by
      simp only [fd_write_long, hw, ne_eq, hs, not_false_eq_true, if_true]
    rw [hres]
    refine ⟨rfl, ?_⟩
    simp only [raw_written, hc]
    exact List.drop_eq_nil_of_le (by simp)

/-- C6 on a response with the ordinary success status `REQUEST_OK`. -/
theorem bulk_transfer_rejected_without_raw_io_witness :
    (fd_write_long CloudCommon.sample
      { CloudClient.fresh with responses := [(0, ⟨CloudCommon.sample.REQUEST_OK, 0, []⟩)] }
      3 5 [(5, [1, 2, 3, 4, 5])] []).2 =
        (⟨[], []⟩, .thrown (.CloudRequestError CloudCommon.sample.REQUEST_OK []))
    ∧ (fd_read_long CloudCommon.sample
      { CloudClient.fresh with responses := [(0, ⟨CloudCommon.sample.REQUEST_OK, 0, []⟩)] }
      3 5 2 (fun _ n => n) 5 []).2 =
        (⟨[], []⟩, .thrown (.CloudRequestError CloudCommon.sample.REQUEST_OK [])) :=
  have h := bulk_transfer_rejected_without_raw_io CloudCommon.sample
    { CloudClient.fresh with responses := [(0, ⟨CloudCommon.sample.REQUEST_OK, 0, []⟩)] }
    3 5 [] ⟨CloudCommon.sample.REQUEST_OK, 0, []⟩ rfl (by decide)
  ⟨(h.2 [(5, [1, 2, 3, 4, 5])]).1, (h.1 2 (fun _ n => n) 5).1⟩


/-! ## C8 -/

@[simp] theorem c_str_length (s : Str) : (c_str s).length = s.length := by
  simp [c_str]

theorem fd_write_long_loop_connection (count : Nat) (callback : List (Nat × List Nat)) :
    ∀ (c : CloudClient) (done : Nat) (calls : List Nat),
      ∃ raw, (fd_write_long_loop count c done calls callback).1.connection =
        c.connection ++ raw := by
  induction callback with
  | nil => intro c done calls; exact ⟨[], by simp [fd_write_long_loop]⟩
  | cons e callback ih =>
      intro c done calls
      obtain ⟨v, buffer⟩ := e
      unfold fd_write_long_loop
      split
      · obtain ⟨raw, h⟩ := ih (send_exact c (v % 2 ^ 32) buffer) ((done + v % 2 ^ 32) % 2 ^ 64)
          (calls ++ [v % 2 ^ 32])
        exact ⟨.exact (v % 2 ^ 32) (buffer.take (v % 2 ^ 32)) :: raw,
          h.trans (by simp [send_exact])⟩
      · exact ⟨[], by simp⟩

/-- C8: every leaf operation other than `fd_write`, on arguments that fit their C++ types,
writes `u32 id`, `u16 opcode`, `u64 payload-length` and then the payload, the id being the
request counter and the declared length being the number of payload bytes; nothing follows
the payload except the raw chunks of `fd_write_long`. -/
theorem request_frame_layout
    (k : CloudCommon) (c : CloudClient) (req : Request) (wakeups : List (List NetRead))
    (hw : req.is_fd_write = false) (ht : req.well_typed) :
    ∃ raw, (perform k c req wakeups).1.connection =
        c.connection ++ ([.uint32 (c.current_id % 2 ^ 32), .uint16 (req.opcode k % 2 ^ 16),
          .uint64 (wire_size req.payload)] ++ req.payload ++ raw)
      ∧ (req.is_fd_write_long = false → raw = []) := by
  cases req
  case fd_write fd n bytes => simp [Request.is_fd_write] at hw
  case fd_write_long fd count callback =>
    simp only [perform, fd_write_long]
    have hc := bulk_frame_connection c k.REQUEST_CMD_FD_WRITE_LONG fd count wakeups
    cases hres : (wait_current (send_uint64 (send_uint8 (send_uint64 (send_uint16
        (send_uint32 c c.current_id) k.REQUEST_CMD_FD_WRITE_LONG) (1 + 8)) fd) count)
        wakeups).2 with
    | returned response =>
        simp only
        split
        · exact ⟨[], by simp [hc, Request.payload, Request.opcode, wire_size, Sent.width],
            fun _ => rfl⟩
        · obtain ⟨raw, hraw⟩ := fd_write_long_loop_connection count callback
            (wait_current (send_uint64 (send_uint8 (send_uint64 (send_uint16
              (send_uint32 c c.current_id) k.REQUEST_CMD_FD_WRITE_LONG) (1 + 8)) fd) count)
              wakeups).1 0 []
          exact ⟨raw, by
            simp [hraw, hc, Request.payload, Request.opcode, wire_size, Sent.width],
            fun h => by simp [Request.is_fd_write_long] at h⟩
    | thrown e =>
        exact ⟨[], by simp [hc, Request.payload, Request.opcode, wire_size, Sent.width],
          fun _ => rfl⟩
    | blocked =>
        exact ⟨[], by simp [hc, Request.payload, Request.opcode, wire_size, Sent.width],
          fun _ => rfl⟩
    | unfinished =>
        exact ⟨[], by simp [hc, Request.payload, Request.opcode, wire_size, Sent.width],
          fun _ => rfl⟩
  case fd_read_long fd count buf_size read fuel =>
    simp only [perform, fd_read_long]
    have hc := bulk_frame_connection c k.REQUEST_CMD_FD_READ_LONG fd count wakeups
    refine ⟨[], ?_, fun _ => rfl⟩
    cases hres : (wait_current (send_uint64 (send_uint8 (send_uint64 (send_uint16
        (send_uint32 c c.current_id) k.REQUEST_CMD_FD_READ_LONG) (1 + 8)) fd) count)
        wakeups).2 with
    | returned response =>
        simp only
        split <;> simp [hc, Request.payload, Request.opcode, wire_size, Sent.width]
    | thrown e => simp [hc, Request.payload, Request.opcode, wire_size, Sent.width]
    | blocked => simp [hc, Request.payload, Request.opcode, wire_size, Sent.width]
    | unfinished => simp [hc, Request.payload, Request.opcode, wire_size, Sent.width]
  case get_home user =>
    have hl : user.length % 2 ^ 64 = user.length :=
      Nat.mod_eq_of_lt (by have := ht user (by simp [Request.strings]); omega)
    have hlt : user.length < 18446744073709551616 := by
      have := ht user (by simp [Request.strings]); omega
    exact ⟨[], by
      simp [perform, get_home, on_response_fst, wait_current_connection, send_uint16,
        send_uint32, send_uint64, send_exact, Request.payload, Request.opcode, wire_size,
        Sent.width, hlt], fun _ => rfl⟩
  case group_invite user =>
    have hl : user.length % 2 ^ 64 = user.length :=
      Nat.mod_eq_of_lt (by have := ht user (by simp [Request.strings]); omega)
    have hlt : user.length < 18446744073709551616 := by
      have := ht user (by simp [Request.strings]); omega
    exact ⟨[], by
      simp [perform, group_invite, on_response_fst, wait_current_connection, send_uint16,
        send_uint32, send_uint64, send_exact, Request.payload, Request.opcode, wire_size,
        Sent.width, hlt], fun _ => rfl⟩
  case group_kick user =>
    have hl : user.length % 2 ^ 64 = user.length :=
      Nat.mod_eq_of_lt (by have := ht user (by simp [Request.strings]); omega)
    have hlt : user.length < 18446744073709551616 := by
      have := ht user (by simp [Request.strings]); omega
    exact ⟨[], by
      simp [perform, group_kick, on_response_fst, wait_current_connection, send_uint16,
        send_uint32, send_uint64, send_exact, Request.payload, Request.opcode, wire_size,
        Sent.width, hlt], fun _ => rfl⟩
  case make_node parent name type =>
    have hl : (16 + 1 + name.length + 1) % 2 ^ 64 = 16 + 1 + name.length + 1 :=
      Nat.mod_eq_of_lt (by have := ht name (by simp [Request.strings]); omega)
    refine ⟨[], ?_, fun _ => rfl⟩
    simp only [perform, make_node, on_response_fst, wait_current_connection, send_uint8,
      send_uint16, send_uint32, send_uint64, send_exact, Request.payload, Request.opcode,
      wire_size, Sent.width, hl, List.map_cons, List.map_nil, List.sum_cons, List.sum_nil]
    simp [c_str]
    omega
  case set_node_group node group =>
    have hl : (16 + group.length) % 2 ^ 64 = 16 + group.length :=
      Nat.mod_eq_of_lt (by have := ht group (by simp [Request.strings]); omega)
    have hlt : 16 + group.length < 18446744073709551616 := by
      have := ht group (by simp [Request.strings]); omega
    refine ⟨[], ?_, fun _ => rfl⟩
    simp [perform, set_node_group, on_response_fst, wait_current_connection, send_uint16,
      send_uint32, send_uint64, send_exact, Request.payload, Request.opcode, wire_size,
      Sent.width, hlt]
  all_goals
    exact ⟨[], by
      simp [perform, list_directory, get_parent, get_node_owner, fd_open,
        fd_close, fd_read, get_node_info, set_node_rights, get_node_group,
        remove_node, on_response_fst, wait_current_connection, send_uint8, send_uint16,
        send_uint32, send_uint64, send_exact, Request.payload, Request.opcode, wire_size,
        Sent.width], fun _ => rfl⟩

/-- C8 on `make_node` with the name `ab`: the declared length 20 is followed by 16 + 1 + 2 + 1
payload bytes. -/
theorem request_frame_layout_witness :
    ∃ raw, (perform CloudCommon.sample CloudClient.fresh
        (.make_node ⟨List.replicate 16 7⟩ ['a', 'b'] 1) []).1.connection =
      [] ++ ([.uint32 0, .uint16 4, .uint64 20] ++
        [.exact 16 (List.replicate 16 7), .uint8 2, .exact 2 [97, 98], .uint8 1] ++ raw)
      ∧ raw = [] :=
  have h := request_frame_layout CloudCommon.sample CloudClient.fresh
    (.make_node ⟨List.replicate 16 7⟩ ['a', 'b'] 1) [] rfl
    (fun s hs => by
      simp only [Request.strings, List.mem_singleton] at hs
      subst hs
      decide)
  h.imp fun _ hr => ⟨hr.1, hr.2 rfl⟩

/-! ## C7 -/

theorem perform_connection_head (k : CloudCommon) (c : CloudClient) (req : Request)
    (wakeups : List (List NetRead)) :
    ∃ tail, (perform k c req wakeups).1.connection =
      c.connection ++ .uint32 (c.current_id % 2 ^ 32) :: tail := by
  cases req
  case fd_write_long fd count callback =>
    simp only [perform, fd_write_long]
    have hc := bulk_frame_connection c k.REQUEST_CMD_FD_WRITE_LONG fd count wakeups
    cases (wait_current (send_uint64 (send_uint8 (send_uint64 (send_uint16
        (send_uint32 c c.current_id) k.REQUEST_CMD_FD_WRITE_LONG) (1 + 8)) fd) count)
        wakeups).2 with
    | returned response =>
        simp only
        split
        · exact ⟨_, hc⟩
        · obtain ⟨raw, hraw⟩ := fd_write_long_loop_connection count callback
            (wait_current (send_uint64 (send_uint8 (send_uint64 (send_uint16
              (send_uint32 c c.current_id) k.REQUEST_CMD_FD_WRITE_LONG) (1 + 8)) fd) count)
              wakeups).1 0 []
          exact ⟨_, by
            simp only [hraw, hc, List.append_assoc, List.cons_append, List.nil_append]
            rfl⟩
    | thrown e => exact ⟨_, hc⟩
    | blocked => exact ⟨_, hc⟩
    | unfinished => exact ⟨_, hc⟩
  case fd_read_long fd count buf_size read fuel =>
    simp only [perform, fd_read_long]
    have hc := bulk_frame_connection c k.REQUEST_CMD_FD_READ_LONG fd count wakeups
    cases (wait_current (send_uint64 (send_uint8 (send_uint64 (send_uint16
        (send_uint32 c c.current_id) k.REQUEST_CMD_FD_READ_LONG) (1 + 8)) fd) count)
        wakeups).2 with
    | returned response =>
        simp only
        split <;> exact ⟨_, hc⟩
    | thrown e => exact ⟨_, hc⟩
    | blocked => exact ⟨_, hc⟩
    | unfinished => exact ⟨_, hc⟩
  all_goals
    exact ⟨_, by
      simp only [perform, get_home, list_directory, get_parent, make_node, get_node_owner,
        fd_open, fd_close, fd_write, fd_read, get_node_info, set_node_rights, group_invite,
        get_node_group, remove_node, set_node_group, group_kick, on_response_fst,
        wait_current_connection, send_uint8, send_uint16, send_uint32, send_uint64, send_exact,
        List.append_assoc, List.singleton_append, List.cons_append, List.nil_append]
      rfl⟩

theorem written_by_ids (k : CloudCommon) :
    ∀ (calls : List (Request × List (List NetRead))) (c : CloudClient),
      (written_by k c calls).map frame_id =
        (List.range calls.length).map fun n => some ((c.current_id + n) % 2 ^ 32) := by
  intro calls
  induction calls with
  | nil => intro c; rfl
  | cons call calls ih =>
      intro c
      obtain ⟨req, wakeups⟩ := call
      obtain ⟨tail, htail⟩ := perform_connection_head k c req wakeups
      have hid := (perform_shared k c req wakeups).2.2.2
      simp only [written_by, List.map_cons, List.length_cons, List.range_succ_eq_map,
        List.map_map, ih, hid, htail, List.drop_left, frame_id, Nat.add_zero]
      congr 1
      apply List.map_congr_left
      intro n _
      simp only [Function.comp_apply, Nat.succ_eq_add_one]
      congr 1
      omega

/-- C7: on a client whose request counter is 0, as the constructor leaves it, the `n`-th call
of a leaf operation (counted from 0) writes a frame that starts with the id `n mod 2^32`,
whatever the operations are and however the earlier ones ended; so the first id is 0 and
two calls less than `2^32` apart carry different ids. -/
theorem request_ids_follow_the_counter
    (k : CloudCommon) (c : CloudClient) (calls : List (Request × List (List NetRead)))
    (h0 : c.current_id = 0) :
    (written_by k c calls).map frame_id =
        (List.range calls.length).map (fun n => some (n % 2 ^ 32))
    ∧ (∀ n, n < calls.length →
        ((written_by k c calls).map frame_id)[n]? = some (some (n % 2 ^ 32)))
    ∧ (0 < calls.length → ((written_by k c calls).map frame_id)[0]? = some (some 0))
    ∧ (∀ i j, i < j → j < calls.length → j < i + 2 ^ 32 →
        ((written_by k c calls).map frame_id)[i]? ≠
          ((written_by k c calls).map frame_id)[j]?) := by
  have h := written_by_ids k calls c
  simp only [h0, Nat.zero_add] at h
  have hn : ∀ n, n < calls.length →
      ((written_by k c calls).map frame_id)[n]? = some (some (n % 2 ^ 32)) := by
    intro n hlt
    rw [h]
    simp [hlt]
  refine ⟨h, hn, fun hpos => hn 0 hpos, ?_⟩
  intro i j hij hj hclose
  rw [hn i (by omega), hn j hj]
  intro heq
  simp only [Option.some.injEq] at heq
  omega

/-- C7 on three calls, the second of which ends with a failure status and the third with the
not-connected error: the ids are 0, 1, 2. -/
theorem request_ids_follow_the_counter_witness :
    (written_by CloudCommon.sample CloudClient.fresh
      [(.get_home [], [[.frame 0 0 16 (List.replicate 16 0)]]),
        (.fd_close 3, [[.frame 1 2 0 []]]),
        (.get_parent ⟨List.replicate 16 0⟩, [[.failure]])]).map frame_id =
      (List.range 3).map (fun n => some (n % 2 ^ 32)) :=
  (request_ids_follow_the_counter CloudCommon.sample CloudClient.fresh
    [(.get_home [], [[.frame 0 0 16 (List.replicate 16 0)]]),
      (.fd_close 3, [[.frame 1 2 0 []]]),
      (.get_parent ⟨List.replicate 16 0⟩, [[.failure]])] rfl).1


/-! ## C9 -/

theorem wait_response_nil_spec (c : CloudClient) (id : Nat) :
    (wait_response id c []).1.connected = c.connected
    ∧ (wait_response id c []).1.responses ⊆ c.responses
    ∧ ((wait_response id c []).2 ≠ .blocked → c.connected = true →
        (wait_response id c []).1.responses = map_erase c.responses id) := by
  unfold wait_response wait_response_finish
  split
  · exact ⟨rfl, List.Subset.refl _, fun h => absurd rfl h⟩
  · split
    · rename_i h1 h2
      refine ⟨rfl, List.Subset.refl _, fun _ hc => ?_⟩
      simp [hc] at h2
    · exact ⟨rfl, map_erase_subset _ _, fun _ _ => rfl⟩

theorem listener_routine_store_spec (c : CloudClient) (id : Nat) (response : ServerResponse) :
    (listener_routine c [NetRead.of_response (id, response)]).connected = c.connected
    ∧ ∀ e ∈ (listener_routine c [NetRead.of_response (id, response)]).responses,
        e.1 = id ∨ e ∈ c.responses := by
  unfold listener_routine
  split
  · refine ⟨rfl, fun e he => ?_⟩
    simp only [NetRead.of_response, listener_loop, map_assign, List.mem_cons] at he
    rcases he with rfl | he
    · exact Or.inl rfl
    · exact Or.inr (map_erase_subset _ _ he)
  · exact ⟨rfl, fun e he => Or.inr he⟩

theorem listener_routine_failure_spec (c : CloudClient) :
    (listener_routine c [.failure]).connected = true →
      listener_routine c [.failure] = c := by
  unfold listener_routine
  split
  · intro h; simp [listener_loop] at h
  · intro _; rfl

/-- The property kept by every step in which the listener stores a frame only under the id
of a waiting caller: while connected, each stored response is for a caller that is still
waiting. -/
theorem step_keeps_stored_for_waiters (k : CloudCommon) (s s1 : System) (a : Action)
    (hinv : s.client.connected = true → ∀ e ∈ s.client.responses, e.1 ∈ s.waiting)
    (hans : ∀ id response, a = .store id response → id ∈ s.waiting)
    (hstep : step k s a = some s1) :
    s1.client.connected = true → ∀ e ∈ s1.client.responses, e.1 ∈ s1.waiting := by
  cases a with
  | call req =>
      have hsh := perform_shared k s.client req []
      have hw := wait_response_nil_spec s.client s.client.current_id
      simp only [step] at hstep
      intro hc e he
      have hc0 : s.client.connected = true := by
        split at hstep <;> cases hstep <;> simpa [hsh.2.2.1, hw.1] using hc
      have he0 : e ∈ s.client.responses := by
        split at hstep <;> cases hstep <;>
          exact hw.2.1 (by simpa [hsh.2.1] using he)
      have hmem := hinv hc0 e he0
      split at hstep <;> cases hstep
      · exact List.mem_cons_of_mem _ hmem
      all_goals exact hmem
  | store id response =>
      simp only [step] at hstep
      cases hstep
      have hsp := listener_routine_store_spec s.client id response
      intro hc e he
      rcases hsp.2 e he with h | h
      · rw [h]; exact hans id response rfl
      · exact hinv (by simpa [hsp.1] using hc) e h
  | read_failure =>
      simp only [step] at hstep
      cases hstep
      intro hc e he
      have h := listener_routine_failure_spec s.client hc
      simp only at hc he
      rw [h] at hc he
      exact hinv hc e he
  | wake id =>
      simp only [step] at hstep
      split at hstep
      · have hw := wait_response_nil_spec s.client id
        split at hstep
        · cases hstep; exact hinv
        · rename_i hnb
          cases hstep
          intro hc e he
          simp only at hc he
          have hc0 : s.client.connected = true := by simpa [hw.1] using hc
          have hne : (wait_response id s.client []).2 ≠ .blocked := by
            intro h; exact hnb h
          rw [hw.2.2 hne hc0] at he
          have he2 := List.mem_filter.1 he
          have hid : e.1 ≠ id := by simpa using he2.2
          exact (List.mem_erase_of_ne hid).2 (hinv hc0 e he2.1)
      · cases hstep

theorem run_keeps_stored_for_waiters (k : CloudCommon) :
    ∀ (actions : List Action) (s s1 : System),
      (s.client.connected = true → ∀ e ∈ s.client.responses, e.1 ∈ s.waiting) →
      answers_waiters k s actions = true → run k s actions = some s1 →
      s1.client.connected = true → ∀ e ∈ s1.client.responses, e.1 ∈ s1.waiting := by
  intro actions
  induction actions with
  | nil => intro s s1 hinv _ hrun; cases hrun; exact hinv
  | cons a actions ih =>
      intro s s1 hinv hans hrun
      simp only [run] at hrun
      simp only [answers_waiters, Bool.and_eq_true] at hans
      cases hs : step k s a with
      | none => simp [hs] at hrun
      | some s2 =>
          simp only [hs] at hrun hans
          refine ih s2 s1 (step_keeps_stored_for_waiters k s s2 a hinv ?_ hs) hans.2 hrun
          intro id response ha
          subst ha
          simpa using hans.1

/-- C9, as amended: in every state reached from the constructed client by steps of the
listener and of the callers in which `connected` is still true, the listener having stored
every frame under the id of a caller that was inside `wait_response` at that moment, every
stored response is for a caller that is still inside `wait_response`; so when no caller is
waiting the pending table is empty. -/
theorem pending_table_empty_while_connected
    (k : CloudCommon) (actions : List Action) (s : System)
    (hrun : run k System.init actions = some s)
    (hans : answers_waiters k System.init actions = true)
    (hconn : s.client.connected = true) :
    (∀ e ∈ s.client.responses, e.1 ∈ s.waiting)
    ∧ (s.waiting = [] → s.client.responses = []) := by
  have h := run_keeps_stored_for_waiters k actions System.init s
    (fun _ e he => by simp [System.init, CloudClient.fresh] at he) hans hrun hconn
  refine ⟨h, fun hw => ?_⟩
  rw [hw] at h
  exact List.eq_nil_iff_forall_not_mem.2 fun e he => by simpa using h e he

/-- C9, as amended, on a run in which the answer to request 0 is stored and consumed. -/
theorem pending_table_empty_while_connected_witness :
    run CloudCommon.sample System.init
        [.call (.get_home []), .store 0 ⟨0, 16, List.replicate 16 0⟩, .wake 0] =
      some ⟨⟨[.uint32 0, .uint16 1, .uint64 0, .exact 0 []], true, [], 1, true⟩, []⟩
    ∧ (⟨⟨[.uint32 0, .uint16 1, .uint64 0, .exact 0 []], true, [], 1, true⟩, []⟩ :
        System).client.responses = [] :=
  ⟨by decide,
    (pending_table_empty_while_connected CloudCommon.sample
      [.call (.get_home []), .store 0 ⟨0, 16, List.replicate 16 0⟩, .wake 0]
      ⟨⟨[.uint32 0, .uint16 1, .uint64 0, .exact 0 []], true, [], 1, true⟩, []⟩
      (by decide) (by decide) rfl).2 rfl⟩

/-- C9 fails as stated, in three ways. A caller issues request 0, the listener stores the
answer and then meets a read failure before the caller looks again: the caller fails with the
not-connected error, nobody waits any more, and the answer is still in the table. The
listener reads a frame with id 7 that answers no request: nobody waits, the client is
connected, and the frame is in the table. The listener reads a second answer to request 0
after the caller took the first: again nobody waits, the client is connected, and the table
holds that answer. -/
theorem pending_table_keeps_response_after_connection_loss :
    (run CloudCommon.sample System.init
      [.call (.get_home []), .store 0 ⟨0, 16, List.replicate 16 0⟩, .read_failure,
        .wake 0]).map (fun s => (s.waiting, s.client.responses, s.client.connected)) =
      some ([], [(0, ⟨0, 16, List.replicate 16 0⟩)], false)
    ∧ (wait_response 0 (listener_routine
          { CloudClient.fresh with current_id := 1 }
          [.frame 0 0 16 (List.replicate 16 0), .failure]) []).2 =
        .thrown (.runtime_error "not connected".toList)
    ∧ (run CloudCommon.sample System.init [.store 7 ⟨0, 0, []⟩]).map
        (fun s => (s.waiting, s.client.responses, s.client.connected)) =
      some ([], [(7, ⟨0, 0, []⟩)], true)
    ∧ (run CloudCommon.sample System.init
      [.call (.get_home []), .store 0 ⟨0, 16, List.replicate 16 0⟩, .wake 0,
        .store 0 ⟨0, 16, List.replicate 16 0⟩]).map
        (fun s => (s.waiting, s.client.responses, s.client.connected)) =
      some ([], [(0, ⟨0, 16, List.replicate 16 0⟩)], true) := by
  refine ⟨by decide, by decide, by decide, by decide⟩

/-! ## C10 -/

theorem split_loop_eq :
    ∀ (suf pre cur : Str) (parts : List Str) (path : Str), path = pre ++ cur ++ suf →
      ((List.range' (pre.length + cur.length) suf.length).foldl (split_step path)
          (parts, pre.length)).1 ++
        [substr path ((List.range' (pre.length + cur.length) suf.length).foldl
          (split_step path) (parts, pre.length)).2 path.length] =
      parts ++ split_from cur suf := by
  intro suf
  induction suf with
  | nil =>
      intro pre cur parts path hp
      subst hp
      simp [split_from, substr]
  | cons ch suf ih =>
      intro pre cur parts path hp
      have hget : path.getD (pre.length + cur.length) (Char.ofNat 0) = ch := by
        subst hp
        rw [List.getD_eq_getElem?_getD, List.getElem?_append_right (by simp)]
        simp
      simp only [List.length_cons, List.range'_succ, List.foldl_cons, split_step, hget]
      by_cases hch : ch = '/'
      · have hsub : substr path pre.length (pre.length + cur.length - pre.length) = cur := by
          subst hp
          simp [substr]
        have h := ih (pre ++ cur ++ [ch]) [] (parts ++ [cur]) path (by subst hp; simp)
        simp only [List.length_append, List.length_singleton, List.length_nil,
          Nat.add_zero] at h
        rw [if_pos hch, hsub, h, split_from, if_pos hch]
        simp
      · have h := ih pre (cur ++ [ch]) parts path (by subst hp; simp)
        simp only [List.length_append, List.length_singleton, ← Nat.add_assoc] at h
        rw [if_neg hch, h, split_from, if_neg hch]

theorem path_parts_eq (path : Str) : path_parts path = split_from [] path := by
  have h := split_loop_eq path [] [] [] path (by simp)
  simpa [path_parts, List.range_eq_range'] using h

theorem split_from_segment (seg : Str) (hdiv : '/' ∉ seg) :
    ∀ cur rest : Str, split_from cur seg = [cur ++ seg]
      ∧ split_from cur (seg ++ '/' :: rest) = (cur ++ seg) :: split_from [] rest := by
  induction seg with
  | nil => intro cur rest; simp [split_from]
  | cons ch seg ih =>
      intro cur rest
      have hch : ¬ ch = '/' := fun h => hdiv (h ▸ List.mem_cons_self _ _)
      have hseg : '/' ∉ seg := fun h => hdiv (List.mem_cons_of_mem _ h)
      have h := ih hseg (cur ++ [ch]) rest
      constructor
      · rw [split_from, if_neg hch, h.1]
        simp
      · rw [List.cons_append, split_from, if_neg hch, h.2]
        simp

theorem foldl_match_entry (part : Str) :
    ∀ (entries : List (Str × Node)) (st : Bool × Node),
      ((∃ e ∈ entries, e.1 = part) →
        (entries.foldl (match_entry part) st).1 = true
          ∧ (part, (entries.foldl (match_entry part) st).2) ∈ entries)
      ∧ ((¬ ∃ e ∈ entries, e.1 = part) → entries.foldl (match_entry part) st = st) := by
  intro entries
  induction entries with
  | nil =>
      intro st
      exact ⟨fun ⟨e, he, _⟩ => absurd he (List.not_mem_nil e), fun _ => rfl⟩
  | cons e entries ih =>
      intro st
      obtain ⟨name, child⟩ := e
      have h := ih (match_entry part st (name, child))
      by_cases hex : ∃ e ∈ entries, e.1 = part
      · refine ⟨fun _ => ⟨(h.1 hex).1, List.mem_cons_of_mem _ (h.1 hex).2⟩, fun hno => ?_⟩
        exact absurd (hex.imp fun e he => ⟨List.mem_cons_of_mem _ he.1, he.2⟩) hno
      · by_cases hn : name = part
        · refine ⟨fun _ => ?_, fun hno => absurd ⟨(name, child), List.mem_cons_self _ _, hn⟩ hno⟩
          have hm : match_entry part st (name, child) = (true, child) := by
            simp [match_entry, hn]
          rw [List.foldl_cons, h.2 hex, hm]
          subst hn
          exact ⟨rfl, List.mem_cons_self _ _⟩
        · refine ⟨fun hyes => ?_, fun _ => ?_⟩
          · obtain ⟨e2, he2, hp⟩ := hyes
            rcases List.mem_cons.1 he2 with rfl | he2
            · exact absurd hp hn
            · exact absurd ⟨e2, he2, hp⟩ hex
          · have hm : match_entry part st (name, child) = st := by
              simp [match_entry, hn]
            rw [List.foldl_cons, h.2 hex, hm]


theorem resolve_named_part (r : Remote) (current : Node) (seg : Str) (parts : List Str)
    (entries : List (Str × Node)) (hne : seg ≠ []) (hdd : seg ≠ "..".toList)
    (hlist : r.list_directory current = .returned entries) :
    ((∃ e ∈ entries, e.1 = seg) →
      (seg, (entries.foldl (match_entry seg) (false, current)).2) ∈ entries
        ∧ resolve_parts r current (seg :: parts) =
          (.list_directory current ::
              (resolve_parts r (entries.foldl (match_entry seg) (false, current)).2 parts).1,
            (resolve_parts r (entries.foldl (match_entry seg) (false, current)).2 parts).2))
    ∧ ((¬ ∃ e ∈ entries, e.1 = seg) →
      resolve_parts r current (seg :: parts) =
        ([.list_directory current], .thrown (.runtime_error (not_found seg)))) := by
  have hemp : seg.isEmpty = false := by
    cases seg with
    | nil => exact absurd rfl hne
    | cons a l => rfl
  have hf := foldl_match_entry seg entries (false, current)
  constructor
  · intro hex
    refine ⟨(hf.1 hex).2, ?_⟩
    rw [resolve_parts]
    simp only [hemp, Bool.false_eq_true, if_false, hdd, hlist, (hf.1 hex).1, Bool.not_true]
  · intro hno
    rw [resolve_parts]
    simp only [hemp, Bool.false_eq_true, if_false, hdd, hlist, hf.2 hno, Bool.not_false,
      if_true]

/-- C10: when the listing of the current node succeeds, a non-empty segment other than `..`
resolves to a child of the current node exactly when the listing has an entry with that very
name; resolution then goes on from (the last) such child with the rest of the path; and when
no entry has the name, the function throws a `runtime_error` whose message is the segment
between single quotes followed by ` not found`, the listing being its last request whatever
segments follow. -/
theorem named_segment_resolves_iff_listed
    (r : Remote) (current : Node) (seg rest : Str) (entries : List (Str × Node))
    (hne : seg ≠ []) (hdd : seg ≠ "..".toList) (hdiv : '/' ∉ seg)
    (hlist : r.list_directory current = .returned entries) :
    ((∃ child, (seg, child) ∈ entries
        ∧ get_relative_path_node r current seg = ([.list_directory current], .returned child))
      ↔ ∃ e ∈ entries, e.1 = seg)
    ∧ ((∃ e ∈ entries, e.1 = seg) → ∃ child, (seg, child) ∈ entries
        ∧ get_relative_path_node r current seg = ([.list_directory current], .returned child)
        ∧ get_relative_path_node r current (seg ++ '/' :: rest) =
          (.list_directory current :: (get_relative_path_node r child rest).1,
            (get_relative_path_node r child rest).2))
    ∧ ((¬ ∃ e ∈ entries, e.1 = seg) →
        get_relative_path_node r current seg =
          ([.list_directory current],
            .thrown (.runtime_error ("'".toList ++ seg ++ "' not found".toList)))
        ∧ get_relative_path_node r current (seg ++ '/' :: rest) =
          ([.list_directory current],
            .thrown (.runtime_error ("'".toList ++ seg ++ "' not found".toList)))) := by
  have hp1 : path_parts seg = [seg] := by
    rw [path_parts_eq, (split_from_segment seg hdiv [] []).1]
    simp
  have hp2 : path_parts (seg ++ '/' :: rest) = seg :: path_parts rest := by
    rw [path_parts_eq, (split_from_segment seg hdiv [] rest).2, path_parts_eq]
    simp
  have hyes : (∃ e ∈ entries, e.1 = seg) → ∃ child, (seg, child) ∈ entries
      ∧ get_relative_path_node r current seg = ([.list_directory current], .returned child)
      ∧ get_relative_path_node r current (seg ++ '/' :: rest) =
        (.list_directory current :: (get_relative_path_node r child rest).1,
          (get_relative_path_node r child rest).2) := by
    intro hex
    refine ⟨(entries.foldl (match_entry seg) (false, current)).2, ?_, ?_, ?_⟩
    · exact ((resolve_named_part r current seg [] entries hne hdd hlist).1 hex).1
    · rw [get_relative_path_node, hp1,
        ((resolve_named_part r current seg [] entries hne hdd hlist).1 hex).2]
      simp [resolve_parts]
    · rw [get_relative_path_node, hp2,
        ((resolve_named_part r current seg _ entries hne hdd hlist).1 hex).2]
      rfl
  refine ⟨⟨?_, fun hex => ?_⟩, hyes, fun hno => ⟨?_, ?_⟩⟩
  · rintro ⟨child, hmem, _⟩
    exact ⟨(seg, child), hmem, rfl⟩
  · obtain ⟨child, hmem, h1, _⟩ := hyes hex
    exact ⟨child, hmem, h1⟩
  · rw [get_relative_path_node, hp1,
      (resolve_named_part r current seg [] entries hne hdd hlist).2 hno]
    rfl
  · rw [get_relative_path_node, hp2,
      (resolve_named_part r current seg _ entries hne hdd hlist).2 hno]
    rfl

/-- C10 on a directory that lists `ab` and `Ab`: `aB` is not found, and nothing is asked
about the segment `x` that follows it. -/
theorem named_segment_resolves_iff_listed_witness :
    get_relative_path_node
        { get_home := fun _ => .blocked,
          list_directory := fun n => if n = ⟨[0]⟩ then
            .returned [("ab".toList, ⟨[1]⟩), ("Ab".toList, ⟨[2]⟩)] else .returned [],
          get_parent := fun _ => .returned none }
        ⟨[0]⟩ "aB/x".toList =
      ([.list_directory ⟨[0]⟩], .thrown (.runtime_error "'aB' not found".toList)) :=
  ((named_segment_resolves_iff_listed
      { get_home := fun _ => .blocked,
        list_directory := fun n => if n = ⟨[0]⟩ then
          .returned [("ab".toList, ⟨[1]⟩), ("Ab".toList, ⟨[2]⟩)] else .returned [],
        get_parent := fun _ => .returned none }
      ⟨[0]⟩ "aB".toList "x".toList [("ab".toList, ⟨[1]⟩), ("Ab".toList, ⟨[2]⟩)]
      (by decide) (by decide) (by decide) rfl).2.2 (by decide)).2

/-! ## Parts of a path -/

theorem path_parts_single (seg : Str) (hdiv : '/' ∉ seg) : path_parts seg = [seg] := by
  rw [path_parts_eq, (split_from_segment seg hdiv [] []).1]
  simp

theorem path_parts_cons (seg rest : Str) (hdiv : '/' ∉ seg) :
    path_parts (seg ++ '/' :: rest) = seg :: path_parts rest := by
  rw [path_parts_eq, (split_from_segment seg hdiv [] rest).2, path_parts_eq]
  simp

theorem get_relative_path_node_nil (r : Remote) (base : Node) :
    get_relative_path_node r base [] = ([], .returned base) := by
  simp [get_relative_path_node, path_parts, split_step, substr, resolve_parts]

theorem resolve_parent_part (r : Remote) (current : Node) (parts : List Str)
    (p : Option Node) (hp : r.get_parent current = .returned p) :
    resolve_parts r current ("..".toList :: parts) =
      (.get_parent current :: (resolve_parts r (p.getD current) parts).1,
        (resolve_parts r (p.getD current) parts).2) := by
  rw [resolve_parts]
  simp [hp]

/-! ## C11 -/

/-- C11, as amended: for every node for which `get_parent` reports no parent,
`get_relative_path_node` on the segment `..` makes that one `get_parent` request and returns
the node itself. -/
theorem parent_segment_stays_at_parentless_node
    (r : Remote) (node : Node) (hp : r.get_parent node = .returned none) :
    get_relative_path_node r node "..".toList = ([.get_parent node], .returned node) := by
  rw [get_relative_path_node, path_parts_single _ (by decide),
    resolve_parent_part r node [] none hp]
  simp [resolve_parts]

/-- C11, as amended, on a server where no node has a parent. -/
theorem parent_segment_stays_at_parentless_node_witness :
    get_relative_path_node
        { get_home := fun _ => .blocked, list_directory := fun _ => .returned [],
          get_parent := fun _ => .returned none }
        ⟨[5]⟩ "..".toList = ([.get_parent ⟨[5]⟩], .returned ⟨[5]⟩) :=
  parent_segment_stays_at_parentless_node
    { get_home := fun _ => .blocked, list_directory := fun _ => .returned [],
      get_parent := fun _ => .returned none }
    ⟨[5]⟩ rfl

/-- C11 fails as stated: on a node for which `get_parent` reports no parent, resolving `..`
does not fail but returns a node. -/
theorem parent_segment_returns_a_node_without_parent :
    (({ get_home := fun _ => .blocked, list_directory := fun _ => .returned [],
        get_parent := fun _ => .returned none } : Remote).get_parent ⟨[5]⟩ = .returned none)
    ∧ (get_relative_path_node
        { get_home := fun _ => .blocked, list_directory := fun _ => .returned [],
          get_parent := fun _ => .returned none }
        ⟨[5]⟩ "..".toList).2 = .returned ⟨[5]⟩ := by
  decide

/-! ## C12 -/

theorem foldl_match_entry_value (part : Str) (entries : List (Str × Node)) (current child : Node)
    (hmem : (part, child) ∈ entries) (hall : ∀ e ∈ entries, e.1 = part → e.2 = child) :
    (∃ e ∈ entries, e.1 = part)
      ∧ (entries.foldl (match_entry part) (false, current)).2 = child := by
  have hex : ∃ e ∈ entries, e.1 = part := ⟨(part, child), hmem, rfl⟩
  exact ⟨hex, hall _ ((foldl_match_entry part entries (false, current)).1 hex).2 rfl⟩

theorem is_absolute_path_append (k : CloudCommon) (a rest : Str) (ha : a ≠ []) :
    is_absolute_path k (a ++ rest) = is_absolute_path k a := by
  cases a with
  | nil => exact absurd rfl ha
  | cons c a => rfl

theorem foldl_match_entry_last (part : Str) (pre post : List (Str × Node))
    (current child : Node) (hpost : ∀ e ∈ post, e.1 ≠ part) :
    (∃ e ∈ pre ++ (part, child) :: post, e.1 = part)
      ∧ ((pre ++ (part, child) :: post).foldl (match_entry part) (false, current)).2 = child := by
  refine ⟨⟨(part, child), by simp, rfl⟩, ?_⟩
  have hno : ¬ ∃ e ∈ post, e.1 = part := fun ⟨e, he, hp⟩ => hpost e he hp
  rw [List.foldl_append, List.foldl_cons, (foldl_match_entry part post _).2 hno]
  simp [match_entry]

/-- C12, as amended: when the last entry named `a` in the listing of the current node is
`a -> A`, the last entry named `b` in the listing of `A` is `b -> B`, and `get_parent(B)`
yields `A`, then for names `a` and `b` that are proper segments of a relative path,
`get_path_node` returns `A` both on `a/b/..` and on `a`. -/
theorem parent_of_child_is_the_directory
    (k : CloudCommon) (string2node : Str → Outcome Node) (r : Remote) (cwd A B : Node)
    (a b : Str) (prea posta preb postb : List (Str × Node))
    (ha1 : a ≠ []) (ha2 : a ≠ "..".toList) (ha3 : '/' ∉ a) (ha4 : is_absolute_path k a = false)
    (hb1 : b ≠ []) (hb2 : b ≠ "..".toList) (hb3 : '/' ∉ b)
    (hla : r.list_directory cwd = .returned (prea ++ (a, A) :: posta))
    (hea : ∀ e ∈ posta, e.1 ≠ a)
    (hlb : r.list_directory A = .returned (preb ++ (b, B) :: postb))
    (heb : ∀ e ∈ postb, e.1 ≠ b)
    (hpar : r.get_parent B = .returned (some A)) :
    get_path_node k string2node r cwd (a ++ '/' :: (b ++ '/' :: "..".toList)) =
        ([.list_directory cwd, .list_directory A, .get_parent B], .returned A)
    ∧ get_path_node k string2node r cwd a = ([.list_directory cwd], .returned A) := by
  obtain ⟨hxa, hva⟩ := foldl_match_entry_last a prea posta cwd A hea
  obtain ⟨hxb, hvb⟩ := foldl_match_entry_last b preb postb A B heb
  have hra : ∀ parts, resolve_parts r cwd (a :: parts) =
      (.list_directory cwd :: (resolve_parts r A parts).1, (resolve_parts r A parts).2) := by
    intro parts
    have h := ((resolve_named_part r cwd a parts _ ha1 ha2 hla).1 hxa).2
    rw [hva] at h
    exact h
  have hrb : ∀ parts, resolve_parts r A (b :: parts) =
      (.list_directory A :: (resolve_parts r B parts).1, (resolve_parts r B parts).2) := by
    intro parts
    have h := ((resolve_named_part r A b parts _ hb1 hb2 hlb).1 hxb).2
    rw [hvb] at h
    exact h
  constructor
  · have habs : is_absolute_path k (a ++ '/' :: (b ++ '/' :: "..".toList)) = false := by
      rw [is_absolute_path_append k a _ ha1]; exact ha4
    rw [get_path_node, habs]
    simp only [Bool.false_eq_true, if_false]
    rw [get_relative_path_node, path_parts_cons a _ ha3, path_parts_cons b _ hb3,
      path_parts_single _ (by decide), hra, hrb, resolve_parent_part r B [] (some A) hpar]
    simp [resolve_parts]
  · rw [get_path_node, ha4]
    simp only [Bool.false_eq_true, if_false]
    rw [get_relative_path_node, path_parts_single a ha3, hra]
    simp [resolve_parts]

/-- C12, as amended, on the literal paths `a/b/..` and `a`, with a listing of the current
node that has an earlier entry named `a` for another node. -/
theorem parent_of_child_is_the_directory_witness :
    get_path_node CloudCommon.sample string2node_sample
        { get_home := fun _ => .blocked,
          list_directory := fun n =>
            if n = ⟨[0]⟩ then .returned [("a".toList, ⟨[9]⟩), ("a".toList, ⟨[1]⟩)]
            else if n = ⟨[1]⟩ then .returned [("b".toList, ⟨[2]⟩)] else .returned [],
          get_parent := fun n => if n = ⟨[2]⟩ then .returned (some ⟨[1]⟩) else .returned none }
        ⟨[0]⟩ "a/b/..".toList =
      ([.list_directory ⟨[0]⟩, .list_directory ⟨[1]⟩, .get_parent ⟨[2]⟩], .returned ⟨[1]⟩) :=
  (parent_of_child_is_the_directory CloudCommon.sample string2node_sample
    { get_home := fun _ => .blocked,
      list_directory := fun n =>
        if n = ⟨[0]⟩ then .returned [("a".toList, ⟨[9]⟩), ("a".toList, ⟨[1]⟩)]
        else if n = ⟨[1]⟩ then .returned [("b".toList, ⟨[2]⟩)] else .returned [],
      get_parent := fun n => if n = ⟨[2]⟩ then .returned (some ⟨[1]⟩) else .returned none }
    ⟨[0]⟩ ⟨[1]⟩ ⟨[2]⟩ "a".toList "b".toList [("a".toList, ⟨[9]⟩)] [] [] []
    (by decide) (by decide) (by decide) (by decide) (by decide) (by decide) (by decide)
    rfl (by decide) rfl (by decide) rfl).1

/-- C12 fails as stated: the listing of the current node has the entry `a -> A` and, after
it, a second entry named `a` for the node `X`; the listing of `A` has `b -> B` and
`get_parent(B)` yields `A`; yet `get_path_node` on `a` returns `X`, the last entry of that
name, and on `a/b/..` it looks for `b` in the listing of `X` and throws. -/
theorem duplicate_name_resolves_to_last_entry :
    ("a".toList, (⟨[1]⟩ : Node)) ∈ [("a".toList, (⟨[1]⟩ : Node)), ("a".toList, ⟨[9]⟩)]
      ∧ get_path_node CloudCommon.sample string2node_sample
        { get_home := fun _ => .blocked,
          list_directory := fun n =>
            if n = ⟨[0]⟩ then .returned [("a".toList, ⟨[1]⟩), ("a".toList, ⟨[9]⟩)]
            else if n = ⟨[1]⟩ then .returned [("b".toList, ⟨[2]⟩)] else .returned [],
          get_parent := fun n => if n = ⟨[2]⟩ then .returned (some ⟨[1]⟩) else .returned none }
        ⟨[0]⟩ "a".toList = ([.list_directory ⟨[0]⟩], .returned ⟨[9]⟩)
      ∧ (⟨[9]⟩ : Node) ≠ ⟨[1]⟩
      ∧ get_path_node CloudCommon.sample string2node_sample
        { get_home := fun _ => .blocked,
          list_directory := fun n =>
            if n = ⟨[0]⟩ then .returned [("a".toList, ⟨[1]⟩), ("a".toList, ⟨[9]⟩)]
            else if n = ⟨[1]⟩ then .returned [("b".toList, ⟨[2]⟩)] else .returned [],
          get_parent := fun n => if n = ⟨[2]⟩ then .returned (some ⟨[1]⟩) else .returned none }
        ⟨[0]⟩ "a/b/..".toList =
          ([.list_directory ⟨[0]⟩, .list_directory ⟨[9]⟩],
            .thrown (.runtime_error (not_found "b".toList))) := by
  refine ⟨by decide, by decide, by decide, by decide⟩

/-! ## C13 -/

theorem str_find_none (ch : Char) : ∀ s : Str, ch ∉ s → str_find s ch = none := by
  intro s
  induction s with
  | nil => intro _; rfl
  | cons c s ih =>
      intro h
      have hc : ¬ c = ch := fun e => h (e ▸ List.mem_cons_self _ _)
      have hs : ch ∉ s := fun e => h (List.mem_cons_of_mem _ e)
      simp [str_find, hc, ih hs]

theorem get_absolute_path_base_whole (k : CloudCommon) (path : Str)
    (hdiv : k.CLOUD_PATH_DIV ∉ path) : get_absolute_path_base k path = path := by
  simp [get_absolute_path_base, str_find_none _ path hdiv]

/-- C13: for an absolute path without divider, `get_path_node` on the node sigil followed by
`h` makes no request and ends as `string2node(h)` ends, and on the home sigil followed by a
user name `u` (possibly empty) it makes the single request `get_home(u)` and ends as that
request ends. -/
theorem absolute_base_path_resolves_directly
    (k : CloudCommon) (string2node : Str → Outcome Node) (r : Remote) (cwd : Node) :
    (∀ h : Str, k.CLOUD_PATH_DIV ∉ k.CLOUD_PATH_NODE :: h →
        get_path_node k string2node r cwd (k.CLOUD_PATH_NODE :: h) = ([], string2node h))
    ∧ (∀ u : Str, k.CLOUD_PATH_HOME ≠ k.CLOUD_PATH_NODE →
        k.CLOUD_PATH_DIV ∉ k.CLOUD_PATH_HOME :: u →
        get_path_node k string2node r cwd (k.CLOUD_PATH_HOME :: u) =
          ([.get_home u], r.get_home u)) := by
  constructor
  · intro h hdiv
    have hbase := get_absolute_path_base_whole k _ hdiv
    have hnode : get_absolute_path_base_node k string2node r (k.CLOUD_PATH_NODE :: h) =
        ([], string2node h) := by
      simp [get_absolute_path_base_node]
    have habs : is_absolute_path k (k.CLOUD_PATH_NODE :: h) = true := by
      simp [is_absolute_path]
    rw [get_path_node, habs]
    simp only [if_true, hbase, hnode, List.drop_length, get_relative_path_node_nil]
    cases string2node h <;> rfl
  · intro u hne hdiv
    have hbase := get_absolute_path_base_whole k _ hdiv
    have hnode : get_absolute_path_base_node k string2node r (k.CLOUD_PATH_HOME :: u) =
        ([.get_home u], r.get_home u) := by
      simp [get_absolute_path_base_node, hne]
    have habs : is_absolute_path k (k.CLOUD_PATH_HOME :: u) = true := by
      simp [is_absolute_path]
    rw [get_path_node, habs]
    simp only [if_true, hbase, hnode, List.drop_length, get_relative_path_node_nil]
    cases r.get_home u <;> simp

/-- C13 on the paths `#xy` and `~bob`. -/
theorem absolute_base_path_resolves_directly_witness :
    get_path_node CloudCommon.sample string2node_sample
        { get_home := fun _ => .returned ⟨[9]⟩, list_directory := fun _ => .returned [],
          get_parent := fun _ => .returned none } ⟨[0]⟩ "#xy".toList =
      ([], string2node_sample "xy".toList)
    ∧ get_path_node CloudCommon.sample string2node_sample
        { get_home := fun _ => .returned ⟨[9]⟩, list_directory := fun _ => .returned [],
          get_parent := fun _ => .returned none } ⟨[0]⟩ "~bob".toList =
      ([.get_home "bob".toList], .returned ⟨[9]⟩) :=
  have h := absolute_base_path_resolves_directly CloudCommon.sample string2node_sample
    { get_home := fun _ => .returned ⟨[9]⟩, list_directory := fun _ => .returned [],
      get_parent := fun _ => .returned none } ⟨[0]⟩
  ⟨h.1 "xy".toList (by decide), h.2 "bob".toList (by decide) (by decide)⟩


/-! ## C14 -/

theorem resolve_parts_skips_empty (r : Remote) :
    ∀ (parts : List Str) (base : Node),
      resolve_parts r base parts = resolve_parts r base (parts.filter fun p => !p.isEmpty) := by
  intro parts
  induction parts with
  | nil => intro base; rfl
  | cons part parts ih =>
      intro base
      by_cases he : part.isEmpty = true
      · rw [resolve_parts, if_pos he, ih base]
        simp [List.filter_cons, he]
      · have hf : (part :: parts).filter (fun p => !p.isEmpty) =
            part :: parts.filter (fun p => !p.isEmpty) := by
          simp [List.filter_cons, he]
        rw [hf, resolve_parts, resolve_parts]
        simp only [he, Bool.false_eq_true, if_false]
        split
        · cases r.get_parent base <;> simp only [ih]
        · cases r.list_directory base <;> simp only [ih]

theorem split_from_divider_added :
    ∀ (pre cur post : Str),
      ((pre = [] ∧ cur = []) ∨ post = [] ∨ pre.getLast? = some '/' ∨ post.head? = some '/') →
      (split_from cur (pre ++ '/' :: post)).filter (fun p => !p.isEmpty) =
        (split_from cur (pre ++ post)).filter (fun p => !p.isEmpty) := by
  intro pre
  induction pre with
  | nil =>
      intro cur post h
      simp only [List.nil_append, split_from, if_true]
      rcases h with ⟨_, hc⟩ | hp | hl | hh
      · subst hc
        simp [List.filter_cons]
      · subst hp
        simp [split_from, List.filter_cons]
      · simp at hl
      · cases post with
        | nil => simp at hh
        | cons c post =>
            simp only [List.head?_cons, Option.some.injEq] at hh
            subst hh
            simp [split_from, List.filter_cons]
  | cons c pre ih =>
      intro cur post h
      have hnext : ∀ cur2 : Str, (c = '/' → cur2 = []) →
          ((pre = [] ∧ cur2 = []) ∨ post = [] ∨ pre.getLast? = some '/'
            ∨ post.head? = some '/') := by
        intro cur2 hc2
        rcases h with ⟨hp, _⟩ | hp | hl | hh
        · cases hp
        · exact Or.inr (Or.inl hp)
        · cases pre with
          | nil =>
              simp only [List.getLast?_singleton, Option.some.injEq] at hl
              exact Or.inl ⟨rfl, hc2 hl⟩
          | cons d pre =>
              rw [List.getLast?_cons_cons] at hl
              exact Or.inr (Or.inr (Or.inl hl))
        · exact Or.inr (Or.inr (Or.inr hh))
      by_cases hc : c = '/'
      · have hi := ih [] post (hnext [] (fun _ => rfl))
        rw [List.cons_append, List.cons_append, split_from, split_from, if_pos hc, if_pos hc,
          List.filter_cons, List.filter_cons, hi]
      · rw [List.cons_append, List.cons_append, split_from, split_from, if_neg hc, if_neg hc]
        exact ih (cur ++ [c]) post (hnext (cur ++ [c]) (fun e => absurd e hc))

/-- C14: `get_relative_path_node` gives the same node or failure with the same requests for a
path and for every path obtained from it by adding dividers at its start, at its end or next
to a divider already there; the empty path gives the base node and no request. -/
theorem added_dividers_are_ignored
    (r : Remote) (base : Node) (p q : Str) (h : DividersAdded p q) :
    get_relative_path_node r base q = get_relative_path_node r base p
    ∧ get_relative_path_node r base [] = ([], .returned base) := by
  refine ⟨?_, get_relative_path_node_nil r base⟩
  induction h with
  | same => rfl
  | add pre post _ hc ih =>
      rw [← ih]
      simp only [get_relative_path_node, path_parts_eq]
      rw [resolve_parts_skips_empty r (split_from [] (pre ++ '/' :: post)),
        resolve_parts_skips_empty r (split_from [] (pre ++ post))]
      have hc2 : (pre = [] ∧ ([] : Str) = []) ∨ post = [] ∨ pre.getLast? = some '/'
          ∨ post.head? = some '/' := by
        rcases hc with hp | hrest
        · exact Or.inl ⟨hp, rfl⟩
        · exact Or.inr hrest
      rw [split_from_divider_added pre [] post hc2]

/-- C14 on the paths `a/b` and `/a//b/`. -/
theorem added_dividers_are_ignored_witness :
    get_relative_path_node
        { get_home := fun _ => .blocked,
          list_directory := fun n =>
            if n = ⟨[0]⟩ then .returned [("a".toList, ⟨[1]⟩)]
            else if n = ⟨[1]⟩ then .returned [("b".toList, ⟨[2]⟩)] else .returned [],
          get_parent := fun _ => .returned none }
        ⟨[0]⟩ "/a//b/".toList =
      get_relative_path_node
        { get_home := fun _ => .blocked,
          list_directory := fun n =>
            if n = ⟨[0]⟩ then .returned [("a".toList, ⟨[1]⟩)]
            else if n = ⟨[1]⟩ then .returned [("b".toList, ⟨[2]⟩)] else .returned [],
          get_parent := fun _ => .returned none }
        ⟨[0]⟩ "a/b".toList :=
  (added_dividers_are_ignored
    { get_home := fun _ => .blocked,
      list_directory := fun n =>
        if n = ⟨[0]⟩ then .returned [("a".toList, ⟨[1]⟩)]
        else if n = ⟨[1]⟩ then .returned [("b".toList, ⟨[2]⟩)] else .returned [],
      get_parent := fun _ => .returned none }
    ⟨[0]⟩ "a/b".toList "/a//b/".toList
    (DividersAdded.add "/a//b".toList [] 
      (DividersAdded.add "/a/".toList "b".toList
        (DividersAdded.add [] "a/b".toList DividersAdded.same (Or.inl rfl))
        (Or.inr (Or.inr (Or.inl rfl))))
      (Or.inr (Or.inl rfl)))).1


/-! ## C15 -/

theorem outcome_map_unfinished {α β : Type} (f : α → β) (o : Outcome α)
    (h : o.map f ≠ .unfinished) : o ≠ .unfinished := by
  intro e
  rw [e] at h
  exact h rfl

theorem get_node_path_more_fuel (k : CloudCommon) (r : Remote) :
    ∀ (fuel : Nat) (node : Node), (get_node_path k r fuel node).2 ≠ .unfinished →
      get_node_path k r (fuel + 1) node = get_node_path k r fuel node := by
  intro fuel
  induction fuel with
  | zero => intro node h; exact absurd rfl h
  | succ fuel ih =>
      intro node h
      rw [get_node_path] at h ⊢
      conv => rhs; rw [get_node_path]
      cases hp : r.get_parent node with
      | returned p =>
          cases p with
          | none => rfl
          | some parent =>
              simp only [hp] at h ⊢
              cases hl : r.list_directory parent with
              | returned entries =>
                  simp only [hl] at h ⊢
                  rw [ih parent (outcome_map_unfinished _ _ h)]
              | thrown e =>
                  cases e with
                  | CloudRequestError status info =>
                      simp only [hl] at h ⊢
                      by_cases hs : status = k.REQUEST_ERR_FORBIDDEN
                      · simp only [hs, if_true] at h ⊢
                        rw [ih parent (outcome_map_unfinished _ _ h)]
                      · simp only [hs, if_false]
                  | runtime_error what => rfl
                  | invalid_argument what => rfl
              | blocked => rfl
              | unfinished => rfl
      | thrown e => rfl
      | blocked => rfl
      | unfinished => rfl

theorem get_node_path_any_more_fuel (k : CloudCommon) (r : Remote) (fuel : Nat) (node : Node)
    (h : (get_node_path k r fuel node).2 ≠ .unfinished) :
    ∀ more, get_node_path k r (fuel + more) node = get_node_path k r fuel node := by
  intro more
  induction more with
  | zero => rfl
  | succ more ih =>
      rw [← Nat.add_assoc, get_node_path_more_fuel k r (fuel + more) node (by rw [ih]; exact h),
        ih]

/-- C15: for a node with a parent whose listing fails with status `REQUEST_ERR_FORBIDDEN`,
`get_node_path` is `get_node_path(parent)` followed by the divider and `CLOUD_PATH_UNKNOWN`
(it returns that string as soon as the recursion on the parent returns, and fails as the
recursion fails); when the listing fails with another status, the `CloudRequestError` of the
listing is thrown as it is. -/
theorem forbidden_listing_gives_placeholder
    (k : CloudCommon) (r : Remote) (fuel : Nat) (node parent : Node)
    (hp : r.get_parent node = .returned (some parent)) :
    (∀ info, r.list_directory parent =
        .thrown (.CloudRequestError k.REQUEST_ERR_FORBIDDEN info) →
      get_node_path k r (fuel + 1) node =
        (.get_parent node :: .list_directory parent :: (get_node_path k r fuel parent).1,
          (get_node_path k r fuel parent).2.map
            fun s => s ++ [k.CLOUD_PATH_DIV] ++ k.CLOUD_PATH_UNKNOWN)
      ∧ ∀ s, (get_node_path k r fuel parent).2 = .returned s →
          ∀ more, (get_node_path k r (fuel + 1 + more) node).2 =
            .returned (s ++ [k.CLOUD_PATH_DIV] ++ k.CLOUD_PATH_UNKNOWN))
    ∧ (∀ status info, status ≠ k.REQUEST_ERR_FORBIDDEN →
      r.list_directory parent = .thrown (.CloudRequestError status info) →
      get_node_path k r (fuel + 1) node =
        ([.get_parent node, .list_directory parent],
          .thrown (.CloudRequestError status info))) := by
  constructor
  · intro info hl
    have h1 : get_node_path k r (fuel + 1) node =
        (.get_parent node :: .list_directory parent :: (get_node_path k r fuel parent).1,
          (get_node_path k r fuel parent).2.map
            fun s => s ++ [k.CLOUD_PATH_DIV] ++ k.CLOUD_PATH_UNKNOWN) := by
      rw [get_node_path]
      simp only [hp, hl, if_true]
    refine ⟨h1, fun s hs more => ?_⟩
    have h2 : (get_node_path k r (fuel + 1) node).2 =
        .returned (s ++ [k.CLOUD_PATH_DIV] ++ k.CLOUD_PATH_UNKNOWN) := by
      rw [h1]
      simp only [hs, Outcome.map]
    rw [get_node_path_any_more_fuel k r (fuel + 1) node (by rw [h2]; simp) more, h2]
  · intro status info hs hl
    rw [get_node_path]
    simp only [hp, hl, hs, if_false]

/-- C15 on a node whose parent, a home root, refuses to be listed: the path is the divider
followed by the placeholder. -/
theorem forbidden_listing_gives_placeholder_witness :
    (get_node_path CloudCommon.sample
        { get_home := fun _ => .blocked,
          list_directory := fun _ => .thrown (.CloudRequestError 2 []),
          get_parent := fun n => if n = ⟨[1]⟩ then .returned (some ⟨[0]⟩) else .returned none }
        (1 + 1 + 3) ⟨[1]⟩).2 = .returned "/?".toList :=
  ((forbidden_listing_gives_placeholder CloudCommon.sample
      { get_home := fun _ => .blocked,
        list_directory := fun _ => .thrown (.CloudRequestError 2 []),
        get_parent := fun n => if n = ⟨[1]⟩ then .returned (some ⟨[0]⟩) else .returned none }
      1 ⟨[1]⟩ ⟨[0]⟩ rfl).1 [] rfl).2 [] rfl 3

/-! ## C16 -/

theorem foldl_match_child (node : Node) :
    ∀ (entries : List (Str × Node)) (init : Str),
      ((∃ e ∈ entries, e.2 = node) →
        ∃ e ∈ entries, e.2 = node ∧ entries.foldl (match_child node) init = e.1)
      ∧ ((¬ ∃ e ∈ entries, e.2 = node) → entries.foldl (match_child node) init = init) := by
  intro entries
  induction entries with
  | nil =>
      intro init
      exact ⟨fun ⟨e, he, _⟩ => absurd he (List.not_mem_nil e), fun _ => rfl⟩
  | cons e entries ih =>
      intro init
      have h := ih (match_child node init e)
      by_cases hex : ∃ e ∈ entries, e.2 = node
      · refine ⟨fun _ => ?_, fun hno => ?_⟩
        · obtain ⟨e2, he2, hn, hv⟩ := h.1 hex
          exact ⟨e2, List.mem_cons_of_mem _ he2, hn, hv⟩
        · exact absurd (hex.imp fun e he => ⟨List.mem_cons_of_mem _ he.1, he.2⟩) hno
      · by_cases hn : e.2 = node
        · refine ⟨fun _ => ⟨e, List.mem_cons_self _ _, hn, ?_⟩,
            fun hno => absurd ⟨e, List.mem_cons_self _ _, hn⟩ hno⟩
          rw [List.foldl_cons, h.2 hex]
          simp [match_child, hn]
        · refine ⟨fun hyes => ?_, fun _ => ?_⟩
          · obtain ⟨e2, he2, hp⟩ := hyes
            rcases List.mem_cons.1 he2 with rfl | he2
            · exact absurd hp hn
            · exact absurd ⟨e2, he2, hp⟩ hex
          · rw [List.foldl_cons, h.2 hex]
            simp [match_child, hn]

theorem get_node_path_of_ascends (k : CloudCommon) (r : Remote) :
    ∀ (ups : List (Str × Node)) (node : Node) (fuel : Nat), ascends r node ups →
      ups.length < fuel → (get_node_path k r fuel node).2 = .returned (levels_path k ups) := by
  intro ups
  induction ups with
  | nil =>
      intro node fuel h hf
      cases fuel with
      | zero => omega
      | succ fuel =>
          simp only [ascends] at h
          rw [get_node_path]
          simp only [h, levels_path]
  | cons up ups ih =>
      intro node fuel h hf
      obtain ⟨name, parent⟩ := up
      cases fuel with
      | zero => omega
      | succ fuel =>
          obtain ⟨hp, ⟨entries, hl, hmem, hall⟩, hrest⟩ := h
          have hup := ih parent fuel hrest (by simpa using hf)
          obtain ⟨e, he, hn, hv⟩ := (foldl_match_child node entries []).1 ⟨_, hmem, rfl⟩
          rw [get_node_path]
          simp only [hp, hl, hup, Outcome.map, hv, hall e he hn, levels_path]

/-- C16: when the parent relation leads from the node through `d` levels up to a parentless
node and every listing on the way succeeds and lists the node below under its name,
`get_node_path` returns once its recursion may go `d + 1` deep, and the string returned is the
concatenation, from the top level down, of the divider followed by that name; for `d = 0` it
is the empty string. -/
theorem get_node_path_spells_the_levels
    (k : CloudCommon) (r : Remote) (node : Node) (ups : List (Str × Node)) (fuel : Nat)
    (h : ascends r node ups) (hf : ups.length < fuel) :
    (get_node_path k r fuel node).2 = .returned (levels_path k ups)
    ∧ levels_path k ups = (ups.reverse.map fun l => k.CLOUD_PATH_DIV :: l.1).flatten
    ∧ (ups = [] → (get_node_path k r fuel node).2 = .returned []) := by
  have h1 := get_node_path_of_ascends k r ups node fuel h hf
  refine ⟨h1, ?_, fun he => by rw [h1, he]; rfl⟩
  clear h hf h1
  induction ups with
  | nil => rfl
  | cons up ups ih =>
      obtain ⟨name, parent⟩ := up
      simp [levels_path, ih]

/-- C16 on a node listed as `b` in a directory listed as `a` in a home root. -/
theorem get_node_path_spells_the_levels_witness :
    (get_node_path CloudCommon.sample
        { get_home := fun _ => .blocked,
          list_directory := fun n =>
            if n = ⟨[0]⟩ then .returned [("a".toList, ⟨[1]⟩)]
            else if n = ⟨[1]⟩ then .returned [("b".toList, ⟨[2]⟩)] else .returned [],
          get_parent := fun n =>
            if n = ⟨[2]⟩ then .returned (some ⟨[1]⟩)
            else if n = ⟨[1]⟩ then .returned (some ⟨[0]⟩) else .returned none }
        3 ⟨[2]⟩).2 = .returned "/a/b".toList :=
  (get_node_path_spells_the_levels CloudCommon.sample
    { get_home := fun _ => .blocked,
      list_directory := fun n =>
        if n = ⟨[0]⟩ then .returned [("a".toList, ⟨[1]⟩)]
        else if n = ⟨[1]⟩ then .returned [("b".toList, ⟨[2]⟩)] else .returned [],
      get_parent := fun n =>
        if n = ⟨[2]⟩ then .returned (some ⟨[1]⟩)
        else if n = ⟨[1]⟩ then .returned (some ⟨[0]⟩) else .returned none }
    ⟨[2]⟩ [("b".toList, ⟨[1]⟩), ("a".toList, ⟨[0]⟩)] 3
    ⟨rfl, ⟨[("b".toList, ⟨[2]⟩)], rfl, by decide, by decide⟩,
      rfl, ⟨[("a".toList, ⟨[1]⟩)], rfl, by decide, by decide⟩, rfl⟩
    (by decide)).1


/-! ## C17 -/

theorem string_of_c_str (name : Str) (rest : List Nat) :
    string_of (c_str name ++ rest) name.length = name := by
  simp [string_of, c_str, List.take_append_of_le_length, Function.comp_def]

theorem encode_entry_length (e : Str × Node) (hn : e.2.bytes.length = 16) :
    (encode_entry e).length = 17 + e.1.length := by
  simp [encode_entry, hn]
  omega

theorem list_directory_loop_decodes (status : Nat) :
    ∀ (entries : List (Str × Node)) (pre : List Nat) (fuel : Nat),
      (∀ e ∈ entries, e.1.length ≤ 255) → (∀ e ∈ entries, e.2.bytes.length = 16) →
      entries.length ≤ fuel →
      list_directory_loop
        ⟨status, (pre ++ encode_entries entries).length, pre ++ encode_entries entries⟩
        fuel pre.length = entries := by
  intro entries
  induction entries with
  | nil =>
      intro pre fuel _ _ _
      cases fuel <;> simp [list_directory_loop, encode_entries]
  | cons e entries ih =>
      intro pre fuel hname hnode hfuel
      cases fuel with
      | zero => simp at hfuel
      | succ fuel =>
          have hn := hnode e (List.mem_cons_self _ _)
          have hlen := encode_entry_length e hn
          have hlt : pre.length < (pre ++ encode_entries (e :: entries)).length := by
            simp only [encode_entries, List.length_append, hlen]
            omega
          have hchild : ((pre ++ encode_entries (e :: entries)).drop pre.length).take 16 =
              e.2.bytes := by
            simp [encode_entries, encode_entry, List.take_append_of_le_length, hn]
          have hsplit : pre ++ encode_entries (e :: entries) =
              (pre ++ e.2.bytes ++ [e.1.length % 2 ^ 8]) ++
                (c_str e.1 ++ encode_entries entries) := by
            simp [encode_entries, encode_entry]
          have hlen17 : (pre ++ e.2.bytes ++ [e.1.length % 2 ^ 8]).length =
              pre.length + 16 + 1 := by
            simp [hn]
          have hbyte : (pre ++ encode_entries (e :: entries)).getD (pre.length + 16) 0 =
              e.1.length := by
            have h16 : (pre ++ e.2.bytes).length = pre.length + 16 := by simp [hn]
            rw [List.getD_eq_getElem?_getD, hsplit, List.append_assoc (pre ++ e.2.bytes),
              List.getElem?_append_right (by omega), h16]
            have h256 : e.1.length < 256 := by
              have := hname e (List.mem_cons_self _ _); omega
            simp [h256]
          have hname2 : string_of ((pre ++ encode_entries (e :: entries)).drop
              (pre.length + 16 + 1)) e.1.length = e.1 := by
            rw [hsplit, ← hlen17, List.drop_left, string_of_c_str]
          have hnext := ih (pre ++ encode_entry e) fuel
            (fun e2 h2 => hname e2 (List.mem_cons_of_mem _ h2))
            (fun e2 h2 => hnode e2 (List.mem_cons_of_mem _ h2)) (by simpa using hfuel)
          have hbody : pre ++ encode_entries (e :: entries) =
              pre ++ encode_entry e ++ encode_entries entries := by
            simp [encode_entries]
          have hoff : pre.length + 16 + 1 + e.1.length = (pre ++ encode_entry e).length := by
            simp only [List.length_append, hlen]
            omega
          rw [list_directory_loop]
          simp only [hlt, if_true, hchild, hbyte, hname2, hoff]
          rw [hbody, hnext]

/-- C17: when the success response to `list_directory` has as its body the concatenation of
entries encoded as 16 Node bytes, one name-length byte and the name bytes, the names being at
most 255 bytes long, the callback is called once per entry, in body order, with exactly that
name and Node. -/
theorem list_directory_decodes_encoded_entries
    (k : CloudCommon) (c : CloudClient) (node : Node) (wakeups : List (List NetRead))
    (entries : List (Str × Node))
    (hname : ∀ e ∈ entries, e.1.length ≤ 255) (hnode : ∀ e ∈ entries, e.2.bytes.length = 16)
    (hd : delivered c wakeups =
      .returned ⟨k.REQUEST_OK, (encode_entries entries).length, encode_entries entries⟩) :
    (list_directory k c node wakeups).2 = .returned entries := by
  have hloop := list_directory_loop_decodes k.REQUEST_OK entries [] (encode_entries entries).length
    hname hnode (by
      clear hd
      induction entries with
      | nil => simp
      | cons e entries ih =>
          have h1 := encode_entry_length e (hnode e (List.mem_cons_self _ _))
          have h2 := ih (fun e2 h2 => hname e2 (List.mem_cons_of_mem _ h2))
            (fun e2 h2 => hnode e2 (List.mem_cons_of_mem _ h2))
          simp only [encode_entries, List.length_cons, List.length_append, h1]
          omega)
  simp only [List.nil_append, List.length_nil] at hloop
  simp only [list_directory, leaf_outcome, delivered_send_uint32, delivered_send_uint16,
    delivered_send_uint64, delivered_send_exact, hd, Outcome.bind, ne_eq, not_true_eq_false,
    if_false, hloop]

/-- C17 on the body `child | 0x03 | "abc"`: the single entry `("abc", child)`. -/
theorem list_directory_decodes_encoded_entries_witness :
    encode_entries [("abc".toList, ⟨List.replicate 16 7⟩)] =
        List.replicate 16 7 ++ [3] ++ [97, 98, 99]
    ∧ (list_directory CloudCommon.sample
        { CloudClient.fresh with
          responses := [(0, ⟨0, 20, List.replicate 16 7 ++ [3] ++ [97, 98, 99]⟩)] }
        ⟨List.replicate 16 0⟩ []).2 = .returned [("abc".toList, ⟨List.replicate 16 7⟩)] :=
  ⟨by decide,
    list_directory_decodes_encoded_entries CloudCommon.sample
      { CloudClient.fresh with
        responses := [(0, ⟨0, 20, List.replicate 16 7 ++ [3] ++ [97, 98, 99]⟩)] }
      ⟨List.replicate 16 0⟩ [] [("abc".toList, ⟨List.replicate 16 7⟩)]
      (by decide) (by decide) (by decide)⟩


/-! ## C18 -/

/-- C18: on a success response to `get_parent`, a body of length 0 makes the call return
`false` without touching the caller's `parent`, and a body that is a 16-byte Node makes it
return `true` with `parent` set to that Node. -/
theorem get_parent_decodes_parent
    (k : CloudCommon) (c : CloudClient) (node : Node) (wakeups : List (List NetRead))
    (response : ServerResponse)
    (hd : delivered c wakeups = .returned response) (hs : response.status = k.REQUEST_OK) :
    (response.size = 0 → (get_parent k c node wakeups).2 = .returned none)
    ∧ (∀ p : Node, p.bytes.length = 16 → response.size = 16 → response.body = p.bytes →
        (get_parent k c node wakeups).2 = .returned (some p)) := by
  have h : (get_parent k c node wakeups).2 =
      .returned (if response.size = 16 then some ⟨response.body.take 16⟩ else none) := by
    simp only [get_parent, leaf_outcome, delivered_send_uint32, delivered_send_uint16,
      delivered_send_uint64, delivered_send_exact, hd, Outcome.bind, hs, ne_eq,
      not_true_eq_false, if_false]
  constructor
  · intro h0
    rw [h, h0]
    rfl
  · intro p hp h16 hb
    rw [h, h16, hb]
    simp only [if_true]
    rw [List.take_of_length_le (by omega)]

/-- C18 on an empty body and on a body of sixteen bytes. -/
theorem get_parent_decodes_parent_witness :
    (get_parent CloudCommon.sample { CloudClient.fresh with responses := [(0, ⟨0, 0, []⟩)] }
        ⟨List.replicate 16 1⟩ []).2 = .returned none
    ∧ (get_parent CloudCommon.sample
        { CloudClient.fresh with responses := [(0, ⟨0, 16, List.replicate 16 4⟩)] }
        ⟨List.replicate 16 1⟩ []).2 = .returned (some ⟨List.replicate 16 4⟩) :=
  ⟨(get_parent_decodes_parent CloudCommon.sample
      { CloudClient.fresh with responses := [(0, ⟨0, 0, []⟩)] } ⟨List.replicate 16 1⟩ []
      ⟨0, 0, []⟩ rfl rfl).1 rfl,
    (get_parent_decodes_parent CloudCommon.sample
      { CloudClient.fresh with responses := [(0, ⟨0, 16, List.replicate 16 4⟩)] }
      ⟨List.replicate 16 1⟩ [] ⟨0, 16, List.replicate 16 4⟩ rfl rfl).2
      ⟨List.replicate 16 4⟩ rfl rfl rfl⟩

/-! ## C19 -/

/-- C19: for every status read after the authentication frame, the constructor throws a
`CloudInitError` exactly when the status differs from `INIT_OK`, the error carries that
status, and the object with its listener thread running exists exactly when the status is
`INIT_OK`. -/
theorem constructor_fails_iff_status_not_ok
    (i : InitCommon) (login password : Str) (status : Nat) :
    ((∃ st desc, (CloudClient.construct i login password (some status)).2 =
        .CloudInitError st desc) ↔ status ≠ i.INIT_OK)
    ∧ (∀ st desc, (CloudClient.construct i login password (some status)).2 =
        .CloudInitError st desc → st = status ∧ desc = i.init_status_string status)
    ∧ ((∃ c, (CloudClient.construct i login password (some status)).2 = .client c
        ∧ c.listener = true) ↔ status = i.INIT_OK)
    ∧ (∀ c, (CloudClient.construct i login password (some status)).2 = .client c →
        c.listener = true ∧ c.connected = true ∧ c.current_id = 0 ∧ c.responses = []) := by
  by_cases hs : status = i.INIT_OK
  · have h : ∃ c, (CloudClient.construct i login password (some status)).2 = .client c
        ∧ c.listener = true ∧ c.connected = true ∧ c.current_id = 0 ∧ c.responses = [] := by
      simp [CloudClient.construct, hs, send_uint8, send_uint16, send_uint64, send_exact]
    obtain ⟨c, hc, hl, hrest⟩ := h
    refine ⟨⟨?_, fun hne => absurd hs hne⟩, ?_, ⟨fun _ => hs, fun _ => ⟨c, hc, hl⟩⟩, ?_⟩
    · rintro ⟨st, desc, he⟩
      rw [hc] at he
      cases he
    · intro st desc he
      rw [hc] at he
      cases he
    · intro c2 hc2
      rw [hc] at hc2
      cases hc2
      exact ⟨hl, hrest⟩
  · have h : (CloudClient.construct i login password (some status)).2 =
        .CloudInitError status (i.init_status_string status) := by
      simp [CloudClient.construct, hs]
    refine ⟨⟨fun _ => hs, fun _ => ⟨_, _, h⟩⟩, ?_, ⟨?_, fun he => absurd he hs⟩, ?_⟩
    · intro st desc he
      rw [h] at he
      cases he
      exact ⟨rfl, rfl⟩
    · rintro ⟨c, hc, _⟩
      rw [h] at hc
      cases hc
    · intro c hc
      rw [h] at hc
      cases hc


/-! ## C20 -/

theorem map_ofNat_c_str (s : Str) : (c_str s).map Char.ofNat = s := by
  simp [c_str, Function.comp_def]

theorem construct_written (i : InitCommon) (login password : Str) (status : Option Nat) :
    (CloudClient.construct i login password status).1 =
      [.uint16 (i.INIT_CMD_AUTH % 2 ^ 16),
        .uint64 ((1 + login.length + password.length) % 2 ^ 64 % 2 ^ 64),
        .uint8 (login.length % 2 ^ 8), .exact login.length (c_str login),
        .exact password.length (c_str password)] := by
  have h1 : (c_str login).take login.length = c_str login :=
    List.take_of_length_le (by simp)
  have h2 : (c_str password).take password.length = c_str password :=
    List.take_of_length_le (by simp)
  cases status with
  | none =>
      simp only [CloudClient.construct, send_uint8, send_uint16, send_uint64, send_exact, h1, h2]
      rfl
  | some st =>
      simp only [CloudClient.construct, send_uint8, send_uint16, send_uint64, send_exact, h1, h2]
      split <;> rfl

theorem parse_auth_cons (n : Nat) (l p : List Nat) (hn : l.length = n) :
    parse_auth (n :: (l ++ p)) = (l.map Char.ofNat, p.map Char.ofNat) := by
  have h1 : (n :: (l ++ p)).getD 0 0 = n := rfl
  have h2 : (n :: (l ++ p)).drop 1 = l ++ p := rfl
  have h3 : (n :: (l ++ p)).drop (1 + n) = p := by
    rw [Nat.add_comm, List.drop_succ_cons, List.drop_left' hn]
  rw [parse_auth, h1, h2, h3, List.take_left' hn]

/-- C20, as amended: for every login of at most 255 bytes and every credential (a string
being shorter than `2^63` bytes), the constructor writes the authentication opcode, the length
prefix `1 + |login| + |credential|`, and a body of exactly that many bytes which, read as a
`u8` login-length, that many login bytes and the rest as credential bytes, gives back the
login and the credential. -/
theorem auth_frame_round_trips_short_login
    (i : InitCommon) (login password : Str) (status : Option Nat)
    (hlogin : login.length ≤ 255) (hp : password.length < 2 ^ 63) :
    (CloudClient.construct i login password status).1 =
        [.uint16 (i.INIT_CMD_AUTH % 2 ^ 16), .uint64 (1 + login.length + password.length),
          .uint8 login.length, .exact login.length (c_str login),
          .exact password.length (c_str password)]
    ∧ body_bytes [.uint8 login.length, .exact login.length (c_str login),
          .exact password.length (c_str password)] =
        some (login.length :: (c_str login ++ c_str password))
    ∧ (login.length :: (c_str login ++ c_str password)).length =
        1 + login.length + password.length
    ∧ parse_auth (login.length :: (c_str login ++ c_str password)) = (login, password) := by
  have h64 : (1 + login.length + password.length) % 2 ^ 64 % 2 ^ 64 =
      1 + login.length + password.length := by
    rw [Nat.mod_mod]
    exact Nat.mod_eq_of_lt (by omega)
  have h8 : login.length % 2 ^ 8 = login.length := Nat.mod_eq_of_lt (by omega)
  refine ⟨?_, ?_, ?_, ?_⟩
  · rw [construct_written, h64, h8]
  · simp [body_bytes]
  · simp
    omega
  · rw [parse_auth_cons _ _ _ (c_str_length login), map_ofNat_c_str, map_ofNat_c_str]

/-- C20, as amended, on the login `al` and the credential `pw`. -/
theorem auth_frame_round_trips_short_login_witness :
    (CloudClient.construct InitCommon.sample "al".toList "pw".toList (some 0)).1 =
        [.uint16 1, .uint64 5, .uint8 2, .exact 2 [97, 108], .exact 2 [112, 119]]
    ∧ parse_auth [2, 97, 108, 112, 119] = ("al".toList, "pw".toList) :=
  have h := auth_frame_round_trips_short_login InitCommon.sample "al".toList "pw".toList
    (some 0) (by decide) (by decide)
  ⟨h.1, h.2.2.2⟩

/-- C20 fails as stated: for a login of 256 bytes the login-length byte written is 0, so the
body read as the wire format describes gives an empty login, and the login followed by the
credential as credential. -/
theorem auth_frame_loses_long_login :
    (CloudClient.construct InitCommon.sample (List.replicate 256 'a') "p".toList (some 0)).1 =
        [.uint16 1, .uint64 258, .uint8 0, .exact 256 (c_str (List.replicate 256 'a')),
          .exact 1 (c_str "p".toList)]
    ∧ body_bytes [.uint8 0, .exact 256 (c_str (List.replicate 256 'a')),
          .exact 1 (c_str "p".toList)] =
        some (0 :: (c_str (List.replicate 256 'a') ++ c_str "p".toList))
    ∧ parse_auth (0 :: (c_str (List.replicate 256 'a') ++ c_str "p".toList)) =
        ([], List.replicate 256 'a' ++ "p".toList)
    ∧ parse_auth (0 :: (c_str (List.replicate 256 'a') ++ c_str "p".toList)) ≠
        (List.replicate 256 'a', "p".toList) := by
  have hparse : parse_auth (0 :: (c_str (List.replicate 256 'a') ++ c_str "p".toList)) =
      ([], List.replicate 256 'a' ++ "p".toList) := by
    have h := parse_auth_cons 0 [] (c_str (List.replicate 256 'a') ++ c_str "p".toList) rfl
    rw [List.nil_append] at h
    rw [h, List.map_append, map_ofNat_c_str, map_ofNat_c_str]
    rfl
  refine ⟨?_, ?_, hparse, ?_⟩
  · rw [construct_written]
    simp only [List.length_replicate]
    rfl
  · rfl
  · rw [hparse]
    intro h
    have h2 : ([] : Str).length = (List.replicate 256 'a').length :=
      congrArg (fun p => p.1.length) h
    rw [List.length_replicate] at h2
    exact absurd h2 (by decide)

/-! ## C21 -/

theorem listener_loop_ends (input : List NetRead) :
    ∀ c : CloudClient, (listener_loop c (input ++ [.failure])).listener = false := by
  induction input with
  | nil => intro c; rfl
  | cons e input ih =>
      intro c
      cases e with
      | frame id status size body => exact ih _
      | failure => rfl

theorem join_listener_spec (c : CloudClient) (input : List NetRead) :
    (join_listener c input).listener = false
      ∧ (join_listener c input).connection = c.connection := by
  refine ⟨?_, (listener_routine_connection c _).1⟩
  unfold join_listener listener_routine
  split
  · exact listener_loop_ends input c
  · simpa using ‹¬ c.listener = true›

/-- C21 on the path where the first write of the goodbye frame fails, next to the other
paths: for a connected client whose listener runs, the destructor swallows the exception and
ends without `listener.join()`, the listener thread still running and nothing written or
closed; when no call fails it writes the three fields id = `current_id`, opcode goodbye,
length 0, closes and joins; for a disconnected client it writes nothing and joins. -/
theorem teardown_skips_join_when_goodbye_write_fails
    (k : CloudCommon) (c : CloudClient) (input : List NetRead) :
    (CloudClient.destroy k { c with connected := true, listener := true } (some 0) input
        = ⟨{ c with connected := true, listener := true }, false, false, none⟩)
      ∧ (CloudClient.destroy k { c with connected := true, listener := true } (some 0)
          input).joined = false
      ∧ (CloudClient.destroy k { c with connected := true, listener := true } (some 0)
          input).client.listener = true
      ∧ (CloudClient.destroy k { c with connected := true } none input).joined = true
      ∧ (CloudClient.destroy k { c with connected := true } none input).client.listener = false
      ∧ (CloudClient.destroy k { c with connected := true } none input).client.connection =
          c.connection ++ [.uint32 (c.current_id % 2 ^ 32),
            .uint16 (k.REQUEST_CMD_GOODBYE % 2 ^ 16), .uint64 0]
      ∧ (CloudClient.destroy k { c with connected := true } none input).client.current_id =
          c.current_id
      ∧ (CloudClient.destroy k { c with connected := false } none input).joined = true
      ∧ (CloudClient.destroy k { c with connected := false } none input).client.connection =
          c.connection := by
  refine ⟨rfl, rfl, rfl, rfl, ?_, ?_, ?_, rfl, ?_⟩
  · simp [CloudClient.destroy, (join_listener_spec _ _).1]
  · simp [CloudClient.destroy, (join_listener_spec _ _).2, send_uint32, send_uint16,
      send_uint64]
  · simp [CloudClient.destroy, join_listener, (listener_routine_connection _ _).2, send_uint32,
      send_uint16, send_uint64]
  · simp [CloudClient.destroy, (join_listener_spec _ _).2]

/-! ## C22 -/

theorem find_first_not_of_none (chars : Str) :
    ∀ s : Str, find_first_not_of s chars = none ↔ ∀ c ∈ s, c ∈ chars := by
  intro s
  induction s with
  | nil => simp [find_first_not_of]
  | cons a s ih =>
      by_cases ha : a ∈ chars
      · simp [find_first_not_of, ha, ih]
      · simp [find_first_not_of, ha]

theorem described_mask_four (nr : NodeRights) (a b c d : Char) :
    described_mask nr [a, b, c, d] =
      (if a = '1' then nr.NODE_RIGHTS_GROUP_READ else 0)
        ||| (if b = '1' then nr.NODE_RIGHTS_GROUP_WRITE else 0)
        ||| (if c = '1' then nr.NODE_RIGHTS_ALL_READ else 0)
        ||| (if d = '1' then nr.NODE_RIGHTS_ALL_WRITE else 0) := by
  by_cases ha : a = '1' <;> by_cases hb : b = '1' <;> by_cases hc : c = '1' <;>
    by_cases hd : d = '1' <;>
    simp [described_mask, List.range, List.range.loop, List.filter, NodeRights.flag, ha, hb,
      hc, hd]

/-- C22: when the target of `chmod` resolves, `set_node_rights` is called exactly when the
rights string has 4 characters each `0` or `1`, and then with the target and the bitwise OR
of the flags group-read, group-write, any-read, any-write of exactly the positions holding
`1` (the flags being byte values); `0000` gives the mask 0 and `1111` the OR of all four. -/
theorem chmod_sets_rights_iff_four_binary_digits
    (k : CloudCommon) (nr : NodeRights) (string2node : Str → Outcome Node) (r : Remote)
    (cwd target : Node) (s path : Str)
    (hres : (get_path_node k string2node r cwd path).2 = .returned target)
    (h0 : nr.NODE_RIGHTS_GROUP_READ < 2 ^ 8) (h1 : nr.NODE_RIGHTS_GROUP_WRITE < 2 ^ 8)
    (h2 : nr.NODE_RIGHTS_ALL_READ < 2 ^ 8) (h3 : nr.NODE_RIGHTS_ALL_WRITE < 2 ^ 8) :
    ((chmod k nr string2node r cwd [s, path]).set_node_rights ≠ none ↔
        s.length = 4 ∧ ∀ c ∈ s, c = '0' ∨ c = '1')
      ∧ (chmod k nr string2node r cwd [s, path]).set_node_rights =
          (if s.length = 4 ∧ ∀ c ∈ s, c = '0' ∨ c = '1' then
            some (target, described_mask nr s) else none)
      ∧ described_mask nr "0000".toList = 0
      ∧ described_mask nr "1111".toList =
          nr.NODE_RIGHTS_GROUP_READ ||| nr.NODE_RIGHTS_GROUP_WRITE
            ||| nr.NODE_RIGHTS_ALL_READ ||| nr.NODE_RIGHTS_ALL_WRITE := by
  have hfind : find_first_not_of s "01".toList = none ↔ ∀ c ∈ s, c = '0' ∨ c = '1' := by
    rw [find_first_not_of_none]
    simp
  have hval : (chmod k nr string2node r cwd [s, path]).set_node_rights =
      (if s.length = 4 ∧ ∀ c ∈ s, c = '0' ∨ c = '1' then
        some (target, described_mask nr s) else none) := by
    by_cases hok : s.length = 4 ∧ ∀ c ∈ s, c = '0' ∨ c = '1'
    · rw [if_pos hok]
      obtain ⟨hlen, hall⟩ := hok
      have hf := hfind.2 hall
      match s, hlen with
      | [a, b, c, d], _ =>
          simp only [chmod, List.length_cons, List.length_nil, List.getD_cons_zero,
            List.getD_cons_succ, hres, hf]
          simp only [described_mask_four]
          have m0 : ∀ x : Nat, x < 2 ^ 8 → ∀ p : Prop, ∀ _ : Decidable p,
              (if p then x else 0) % 2 ^ 8 = (if p then x else 0) := by
            intro x hx p _
            split
            · exact Nat.mod_eq_of_lt hx
            · rfl
          rw [m0 _ h0, m0 _ h1, m0 _ h2, m0 _ h3]
          simp
    · rw [if_neg hok]
      have hbad : s.length ≠ 4 ∨ find_first_not_of s "01".toList ≠ none := by
        by_cases hlen : s.length = 4
        · right
          intro hf
          exact hok ⟨hlen, hfind.1 hf⟩
        · left; exact hlen
      simp only [chmod, List.length_cons, List.length_nil, List.getD_cons_zero,
        List.getD_cons_succ, hres]
      rw [if_pos hbad]
      simp
  refine ⟨?_, hval, ?_, ?_⟩
  · rw [hval]
    by_cases hok : s.length = 4 ∧ ∀ c ∈ s, c = '0' ∨ c = '1'
    · rw [if_pos hok]
      exact ⟨fun _ => hok, fun _ => Option.some_ne_none _⟩
    · rw [if_neg hok]
      exact ⟨fun h => absurd rfl h, fun h => absurd h hok⟩
  · simp [described_mask_four]
  · simp [described_mask_four]

theorem chmod_sets_rights_iff_four_binary_digits_witness :
    ((chmod CloudCommon.sample ⟨8, 4, 2, 1⟩ string2node_sample
          ⟨fun _ => .returned ⟨[0]⟩, fun _ => .returned [("f".toList, ⟨[1]⟩)],
            fun _ => .returned none⟩ ⟨[0]⟩ ["1010".toList, "f".toList]).set_node_rights
        ≠ none ↔ "1010".toList.length = 4 ∧ ∀ c ∈ "1010".toList, c = '0' ∨ c = '1')
      ∧ (chmod CloudCommon.sample ⟨8, 4, 2, 1⟩ string2node_sample
          ⟨fun _ => .returned ⟨[0]⟩, fun _ => .returned [("f".toList, ⟨[1]⟩)],
            fun _ => .returned none⟩ ⟨[0]⟩ ["1010".toList, "f".toList]).set_node_rights =
          some (⟨[1]⟩, 10) :=
  have h := chmod_sets_rights_iff_four_binary_digits CloudCommon.sample ⟨8, 4, 2, 1⟩
    string2node_sample
    ⟨fun _ => .returned ⟨[0]⟩, fun _ => .returned [("f".toList, ⟨[1]⟩)],
      fun _ => .returned none⟩ ⟨[0]⟩ ⟨[1]⟩ "1010".toList "f".toList (by decide) (by decide)
    (by decide) (by decide) (by decide)
  ⟨h.1, h.2.1.trans (by decide)⟩

/-! ## What the locks guarantee -/

@[simp] theorem set_pc_same (pc : Nat → Pc) (t : Nat) (v : Pc) : set_pc pc t v t = v := by
  simp [set_pc]

theorem set_pc_ne (pc : Nat → Pc) (t u : Nat) (v : Pc) (h : u ≠ t) : set_pc pc t v u = pc u := by
  simp [set_pc, h]

theorem notify_all_holds_api (pc : Nat → Pc) (u : Nat) :
    (notify_all pc u).holds_api = (pc u).holds_api := by
  unfold notify_all
  cases pc u <;> rfl

theorem notify_all_holds_ldtm (pc : Nat → Pc) (u : Nat) :
    (notify_all pc u).holds_ldtm = (pc u).holds_ldtm := by
  unfold notify_all
  cases pc u <;> rfl

/-- A step of caller `t` keeps `locks_held`, given what the step does to the two locks and
to the position of `t`. -/
theorem locks_held_caller_step (s s1 : Threads) (t : Nat) (h : locks_held s)
    (hpc : ∀ u, u ≠ t → s1.pc u = s.pc u)
    (ha_t : (s1.pc t).holds_api = true → s1.api_lock = some t)
    (ha_o : ∀ u, u ≠ t → s.api_lock = some u → s1.api_lock = some u)
    (hl_t : (s1.pc t).holds_ldtm = true → s1.ldtm_lock = some t)
    (hl_o : ∀ u, u ≠ t → s.ldtm_lock = some u → s1.ldtm_lock = some u) :
    locks_held s1 := by
  obtain ⟨h1, h2⟩ := h
  refine ⟨?_, ?_⟩
  · intro u hu
    by_cases hut : u = t
    · subst hut; exact ha_t hu
    · rw [hpc u hut] at hu
      exact ha_o u hut (h1 u hu)
  · intro u hu
    by_cases hut : u = t
    · subst hut; exact hl_t hu
    · rw [hpc u hut] at hu
      exact hl_o u hut (h2 u hu)

theorem locks_held_leave (s s0 : Threads) (t : Nat) (req : Request) (h : locks_held s)
    (hapi : s.api_lock = some t) (hldtm : req.bulk = true → s.ldtm_lock = some t)
    (e3 : s0.pc = s.pc) (e5 : s0.ldtm_lock = s.ldtm_lock) :
    locks_held (leave s0 t req) := by
  refine locks_held_caller_step s _ t h
    (fun u hu => by simp [leave, e3, set_pc_ne _ _ _ _ hu])
    (by simp [leave, Pc.holds_api]) ?_ (by simp [leave, Pc.holds_ldtm]) ?_
  · intro u hu hx
    rw [hapi] at hx
    exact absurd (Option.some.inj hx).symm hu
  · intro u hu hx
    by_cases hb : req.bulk = true
    · rw [hldtm hb] at hx
      exact absurd (Option.some.inj hx).symm hu
    · simpa [leave, hb, e5] using hx

theorem tstep_locks_held (k : CloudCommon) (s s1 : Threads) (a : ThreadAction)
    (h : locks_held s) (hs : tstep k s a = some s1) : locks_held s1 := by
  have h' := h
  obtain ⟨h1, h2⟩ := h'
  cases a with
  | lock t req =>
      simp only [tstep] at hs
      cases hpc : s.pc t <;> cases hl : s.api_lock <;> simp [hpc, hl] at hs
      split at hs <;> cases hs
      · exact locks_held_caller_step s _ t h
          (fun u hu => set_pc_ne _ _ _ _ hu) (fun _ => rfl) (fun u _ hx => by simp [hl] at hx)
          (by simp [Pc.holds_ldtm]) (fun u _ hx => hx)
      · rename_i hb
        exact locks_held_caller_step s _ t h
          (fun u hu => set_pc_ne _ _ _ _ hu) (fun _ => rfl) (fun u _ hx => by simp [hl] at hx)
          (by simp [Pc.holds_ldtm, hb]) (fun u _ hx => hx)
  | lock_ldtm t =>
      simp only [tstep] at hs
      cases hpc : s.pc t <;> cases hl : s.ldtm_lock <;> simp [hpc, hl] at hs
      cases hs
      have ht := h1 t (by simp [hpc, Pc.holds_api])
      exact locks_held_caller_step s _ t h
        (fun u hu => set_pc_ne _ _ _ _ hu) (fun _ => ht) (fun u _ hx => hx)
        (fun _ => rfl) (fun u _ hx => by simp [hl] at hx)
  | send t =>
      simp only [tstep] at hs
      cases hpc : s.pc t <;> simp [hpc] at hs
      rename_i req id sent
      cases hg : (request_frame k id req)[sent]? <;> simp [hg] at hs
      cases hs
      have ht := h1 t (by simp [hpc, Pc.holds_api])
      have ht2 := h2 t
      rw [hpc] at ht2
      exact locks_held_caller_step s _ t h
        (fun u hu => set_pc_ne _ _ _ _ hu) (fun _ => ht) (fun u _ hx => hx)
        (by simpa [Pc.holds_ldtm] using ht2) (fun u _ hx => hx)
  | wait t =>
      simp only [tstep] at hs
      cases hpc : s.pc t <;> simp [hpc] at hs
      rename_i req id sent
      obtain ⟨hsent, hs⟩ := hs
      cases hs
      have ht := h1 t (by simp [hpc, Pc.holds_api])
      have ht2 := h2 t
      rw [hpc] at ht2
      exact locks_held_caller_step s _ t h
        (fun u hu => set_pc_ne _ _ _ _ hu) (fun _ => ht) (fun u _ hx => hx)
        (by simpa [Pc.holds_ldtm] using ht2) (fun u _ hx => hx)
  | check t =>
      simp only [tstep] at hs
      cases hpc : s.pc t <;> simp only [hpc] at hs <;> try cases hs
      rename_i req id
      have ht := h1 t (by simp [hpc, Pc.holds_api])
      have ht2 := h2 t
      rw [hpc] at ht2
      have hld : req.bulk = true → s.ldtm_lock = some t := fun hb =>
        ht2 (by simpa [Pc.holds_ldtm] using hb)
      split at hs
      · cases hs
        exact locks_held_caller_step s _ t h
          (fun u hu => set_pc_ne _ _ _ _ hu) (fun _ => ht) (fun u _ hx => hx)
          (by simpa [Pc.holds_ldtm] using ht2) (fun u _ hx => hx)
      · split at hs
        · cases hs
          exact locks_held_leave s s t req h ht hld rfl rfl
        · split at hs
          · rename_i hb
            split at hs
            · cases hs
              exact locks_held_leave s _ t req h ht hld rfl rfl
            · cases hs
              exact locks_held_caller_step s _ t h
                (fun u hu => set_pc_ne _ _ _ _ hu) (fun _ => ht) (fun u _ hx => hx)
                (fun _ => hld hb) (fun u _ hx => hx)
          · cases hs
            exact locks_held_leave s _ t req h ht hld rfl rfl
  | sleep t =>
      simp only [tstep] at hs
      cases hpc : s.pc t <;> simp only [hpc] at hs <;> try cases hs
      rename_i req id
      have ht := h1 t (by simp [hpc, Pc.holds_api])
      have ht2 := h2 t
      rw [hpc] at ht2
      refine locks_held_caller_step s _ t h
        (fun u hu => set_pc_ne _ _ _ _ hu) (by simp [Pc.holds_api]) ?_
        (by simpa [Pc.holds_ldtm] using ht2) (fun u _ hx => hx)
      intro u hu hx
      rw [ht] at hx
      exact absurd (Option.some.inj hx).symm hu
  | wake t =>
      simp only [tstep] at hs
      cases hpc : s.pc t <;> cases hl : s.api_lock <;> simp only [hpc, hl] at hs <;>
        try cases hs
      rename_i req id notified
      cases notified <;> simp only at hs <;> try cases hs
      have ht2 := h2 t
      rw [hpc] at ht2
      exact locks_held_caller_step s _ t h
        (fun u hu => set_pc_ne _ _ _ _ hu) (fun _ => rfl) (fun u _ hx => by simp [hl] at hx)
        (by simpa [Pc.holds_ldtm] using ht2) (fun u _ hx => by simpa [hl] using hx)
  | spurious t =>
      simp only [tstep] at hs
      cases hpc : s.pc t <;> cases hl : s.api_lock <;> simp only [hpc, hl] at hs <;>
        try cases hs
      rename_i req id notified
      have ht2 := h2 t
      rw [hpc] at ht2
      exact locks_held_caller_step s _ t h
        (fun u hu => set_pc_ne _ _ _ _ hu) (fun _ => rfl) (fun u _ hx => by simp [hl] at hx)
        (by simpa [Pc.holds_ldtm] using ht2) (fun u _ hx => by simpa [hl] using hx)
  | transfer t moved data =>
      simp only [tstep] at hs
      cases hpc : s.pc t <;> simp only [hpc] at hs <;> try cases hs
      rename_i req done
      have ht := h1 t (by simp [hpc, Pc.holds_api])
      have ht2 := h2 t (by simp [hpc, Pc.holds_ldtm])
      split at hs
      · cases hs
        exact locks_held_caller_step s _ t h
          (fun u hu => set_pc_ne _ _ _ _ hu) (fun _ => ht) (fun u _ hx => hx)
          (fun _ => ht2) (fun u _ hx => hx)
      · cases hs
        exact locks_held_leave s s t req h ht (fun _ => ht2) rfl rfl
  | listener_store id response =>
      simp only [tstep] at hs
      cases hlp : s.listener_pc <;> simp only [hlp] at hs <;> try cases hs
      exact ⟨fun u hu => h1 u (by simpa [notify_all_holds_api] using hu),
        fun u hu => h2 u (by simpa [notify_all_holds_ldtm] using hu)⟩
  | listener_failure =>
      simp only [tstep] at hs
      cases hlp : s.listener_pc <;> simp only [hlp] at hs <;> try cases hs
      exact ⟨fun u hu => h1 u (by simpa [notify_all_holds_api] using hu),
        fun u hu => h2 u (by simpa [notify_all_holds_ldtm] using hu)⟩
  | listener_lock =>
      simp only [tstep] at hs
      cases hlp : s.listener_pc <;> cases hl : s.ldtm_lock <;> simp only [hlp, hl] at hs <;>
        try cases hs
      refine ⟨h1, ?_⟩
      intro u hu
      have := h2 u hu
      simp [hl] at this

theorem frame_begun_notify (k : CloudCommon) (s s1 : Threads)
    (hapi : s1.api_lock = s.api_lock) (hpc : s1.pc = notify_all s.pc) :
    frame_begun k s1 = frame_begun k s := by
  unfold frame_begun
  rw [hapi, hpc]
  cases s.api_lock with
  | none => rfl
  | some t =>
      simp only [notify_all]
      cases s.pc t <;> rfl

theorem tstep_wire (k : CloudCommon) (s s1 : Threads) (a : ThreadAction)
    (h : locks_held s) (hk : ∃ w, WholeFrames k w ∧ s.wire = w ++ frame_begun k s)
    (hs : tstep k s a = some s1) :
    ∃ w, WholeFrames k w ∧ s1.wire = w ++ frame_begun k s1 := by
  obtain ⟨h1, -⟩ := h
  obtain ⟨w, hw, hwire⟩ := hk
  cases a with
  | lock t req =>
      simp only [tstep] at hs
      cases hpc : s.pc t <;> cases hl : s.api_lock <;> simp [hpc, hl] at hs
      have hb : frame_begun k s = [] := by simp [frame_begun, hl]
      rw [hb] at hwire
      split at hs <;> cases hs
      · exact ⟨w, hw, by simp [frame_begun, hwire]⟩
      · exact ⟨w, hw, by simp [frame_begun, hwire, by_thread]⟩
  | lock_ldtm t =>
      simp only [tstep] at hs
      cases hpc : s.pc t <;> cases hl : s.ldtm_lock <;> simp [hpc, hl] at hs
      cases hs
      have ht := h1 t (by simp [hpc, Pc.holds_api])
      have hb : frame_begun k s = [] := by simp [frame_begun, ht, hpc]
      rw [hb] at hwire
      exact ⟨w, hw, by simp [frame_begun, hwire, ht, by_thread]⟩
  | send t =>
      simp only [tstep] at hs
      cases hpc : s.pc t <;> simp [hpc] at hs
      rename_i req id sent
      cases hg : (request_frame k id req)[sent]? <;> simp [hg] at hs
      cases hs
      have ht := h1 t (by simp [hpc, Pc.holds_api])
      have hb : frame_begun k s = by_thread t ((request_frame k id req).take sent) := by
        simp [frame_begun, ht, hpc]
      rw [hb] at hwire
      refine ⟨w, hw, ?_⟩
      simp only [frame_begun, ht, set_pc_same, hwire, List.append_assoc]
      rw [List.take_succ, hg]
      simp [by_thread]
  | wait t =>
      simp only [tstep] at hs
      cases hpc : s.pc t <;> simp [hpc] at hs
      rename_i req id sent
      obtain ⟨hsent, hs⟩ := hs
      cases hs
      have ht := h1 t (by simp [hpc, Pc.holds_api])
      have hb : frame_begun k s = by_thread t (request_frame k id req) := by
        simp [frame_begun, ht, hpc, hsent]
      rw [hb] at hwire
      exact ⟨_, WholeFrames.frame w t id req hw, by simp [frame_begun, hwire, ht]⟩
  | check t =>
      simp only [tstep] at hs
      cases hpc : s.pc t <;> simp only [hpc] at hs <;> try cases hs
      rename_i req id
      have ht := h1 t (by simp [hpc, Pc.holds_api])
      have hb : frame_begun k s = [] := by simp [frame_begun, ht, hpc]
      rw [hb] at hwire
      split at hs
      · cases hs
        exact ⟨w, hw, by simp [frame_begun, hwire, ht]⟩
      · split at hs
        · cases hs
          exact ⟨w, hw, by simp [frame_begun, leave, hwire]⟩
        · split at hs
          · split at hs
            · cases hs
              exact ⟨w, hw, by simp [frame_begun, leave, hwire]⟩
            · cases hs
              exact ⟨w, hw, by simp [frame_begun, hwire, ht]⟩
          · cases hs
            exact ⟨w, hw, by simp [frame_begun, leave, hwire]⟩
  | sleep t =>
      simp only [tstep] at hs
      cases hpc : s.pc t <;> simp only [hpc] at hs <;> try cases hs
      rename_i req id
      have ht := h1 t (by simp [hpc, Pc.holds_api])
      have hb : frame_begun k s = [] := by simp [frame_begun, ht, hpc]
      rw [hb] at hwire
      exact ⟨w, hw, by simp [frame_begun, hwire]⟩
  | wake t =>
      simp only [tstep] at hs
      cases hpc : s.pc t <;> cases hl : s.api_lock <;> simp only [hpc, hl] at hs <;>
        try cases hs
      rename_i req id notified
      cases notified <;> simp only at hs <;> try cases hs
      have hb : frame_begun k s = [] := by simp [frame_begun, hl]
      rw [hb] at hwire
      exact ⟨w, hw, by simp [frame_begun, hwire]⟩
  | spurious t =>
      simp only [tstep] at hs
      cases hpc : s.pc t <;> cases hl : s.api_lock <;> simp only [hpc, hl] at hs <;>
        try cases hs
      have hb : frame_begun k s = [] := by simp [frame_begun, hl]
      rw [hb] at hwire
      exact ⟨w, hw, by simp [frame_begun, hwire]⟩
  | transfer t moved data =>
      simp only [tstep] at hs
      cases hpc : s.pc t <;> simp only [hpc] at hs <;> try cases hs
      rename_i req done
      have ht := h1 t (by simp [hpc, Pc.holds_api])
      have hb : frame_begun k s = [] := by simp [frame_begun, ht, hpc]
      rw [hb] at hwire
      split at hs
      · cases hs
        by_cases hwl : req.is_fd_write_long = true
        · exact ⟨_, WholeFrames.chunk w t (moved % 2 ^ 32) (data.take (moved % 2 ^ 32)) hw,
            by simp [frame_begun, hwire, ht, hwl]⟩
        · exact ⟨w, hw, by simp [frame_begun, hwire, ht, hwl]⟩
      · cases hs
        exact ⟨w, hw, by simp [frame_begun, leave, hwire]⟩
  | listener_store id response =>
      simp only [tstep] at hs
      cases hlp : s.listener_pc <;> simp only [hlp] at hs <;> try cases hs
      refine ⟨w, hw, hwire.trans (congrArg (fun x => w ++ x)
        (Eq.symm (frame_begun_notify k s _ ?_ ?_)))⟩ <;> rfl
  | listener_failure =>
      simp only [tstep] at hs
      cases hlp : s.listener_pc <;> simp only [hlp] at hs <;> try cases hs
      refine ⟨w, hw, hwire.trans (congrArg (fun x => w ++ x)
        (Eq.symm (frame_begun_notify k s _ ?_ ?_)))⟩ <;> rfl
  | listener_lock =>
      simp only [tstep] at hs
      cases hlp : s.listener_pc <;> cases hl : s.ldtm_lock <;> simp only [hlp, hl] at hs <;>
        try cases hs
      exact ⟨w, hw, hwire⟩

theorem locks_held_init : locks_held Threads.init := by
  refine ⟨?_, ?_⟩
  · intro t ht; simp [Threads.init, Pc.holds_api] at ht
  · intro t ht; simp [Threads.init, Pc.holds_ldtm] at ht

theorem trun_wire (k : CloudCommon) :
    ∀ (actions : List ThreadAction) (s s1 : Threads), locks_held s →
      (∃ w, WholeFrames k w ∧ s.wire = w ++ frame_begun k s) →
      trun k s actions = some s1 → ∃ w, WholeFrames k w ∧ s1.wire = w ++ frame_begun k s1 := by
  intro actions
  induction actions with
  | nil =>
      intro s s1 h hk hr
      simp only [trun, Option.some.injEq] at hr
      subst hr
      exact hk
  | cons a rest ih =>
      intro s s1 h hk hr
      rw [trun] at hr
      cases hst : tstep k s a with
      | none => simp [hst] at hr
      | some s2 =>
          simp only [hst] at hr
          exact ih s2 s1 (tstep_locks_held k s s2 a h hst) (tstep_wire k s s2 a h hk hst) hr

/-! ## C3 -/

/-- A caller asleep without a notification stays so through every step that is not a
spurious wake-up once the listener has ended: nothing notifies any more. -/
theorem tstep_asleep_stays (k : CloudCommon) (s s1 : Threads) (a : ThreadAction) (t : Nat)
    (req : Request) (id : Nat) (hl : s.listener_pc = .ended)
    (hp : s.pc t = .asleep req id false) (ha : a.is_spurious = false)
    (hs : tstep k s a = some s1) :
    s1.listener_pc = .ended ∧ s1.pc t = .asleep req id false := by
  have hkeep : ∀ (u : Nat) (v : Pc), u ≠ t → set_pc s.pc u v t = .asleep req id false := by
    intro u v hu
    rw [set_pc_ne _ _ _ _ (fun e => hu e.symm)]
    exact hp
  cases a with
  | lock u r =>
      simp only [tstep] at hs
      by_cases hu : u = t
      · subst hu; simp [hp] at hs
      · cases hpc : s.pc u <;> cases hapi : s.api_lock <;> simp [hpc, hapi] at hs
        split at hs <;> cases hs <;> exact ⟨hl, hkeep u _ hu⟩
  | lock_ldtm u =>
      simp only [tstep] at hs
      by_cases hu : u = t
      · subst hu; simp [hp] at hs
      · cases hpc : s.pc u <;> cases hld : s.ldtm_lock <;> simp [hpc, hld] at hs
        cases hs
        exact ⟨hl, hkeep u _ hu⟩
  | send u =>
      simp only [tstep] at hs
      by_cases hu : u = t
      · subst hu; simp [hp] at hs
      · cases hpc : s.pc u <;> simp [hpc] at hs
        rename_i r i sent
        cases hg : (request_frame k i r)[sent]? <;> simp [hg] at hs
        cases hs
        exact ⟨hl, hkeep u _ hu⟩
  | wait u =>
      simp only [tstep] at hs
      by_cases hu : u = t
      · subst hu; simp [hp] at hs
      · cases hpc : s.pc u <;> simp [hpc] at hs
        obtain ⟨_, hs⟩ := hs
        cases hs
        exact ⟨hl, hkeep u _ hu⟩
  | check u =>
      simp only [tstep] at hs
      by_cases hu : u = t
      · subst hu; simp [hp] at hs
      · cases hpc : s.pc u <;> simp only [hpc] at hs <;> try cases hs
        split at hs
        · cases hs; exact ⟨hl, hkeep u _ hu⟩
        · split at hs
          · cases hs; exact ⟨hl, by simpa [leave] using hkeep u _ hu⟩
          · split at hs
            · split at hs
              · cases hs; exact ⟨hl, by simpa [leave] using hkeep u _ hu⟩
              · cases hs; exact ⟨hl, hkeep u _ hu⟩
            · cases hs; exact ⟨hl, by simpa [leave] using hkeep u _ hu⟩
  | sleep u =>
      simp only [tstep] at hs
      by_cases hu : u = t
      · subst hu; simp [hp] at hs
      · cases hpc : s.pc u <;> simp only [hpc] at hs <;> try cases hs
        exact ⟨hl, hkeep u _ hu⟩
  | wake u =>
      simp only [tstep] at hs
      by_cases hu : u = t
      · subst hu; simp [hp] at hs
      · cases hpc : s.pc u <;> cases hapi : s.api_lock <;> simp only [hpc, hapi] at hs <;>
          try cases hs
        rename_i r i notified
        cases notified <;> simp only at hs <;> try cases hs
        exact ⟨hl, hkeep u _ hu⟩
  | spurious u => simp [ThreadAction.is_spurious] at ha
  | transfer u moved data =>
      simp only [tstep] at hs
      by_cases hu : u = t
      · subst hu; simp [hp] at hs
      · cases hpc : s.pc u <;> simp only [hpc] at hs <;> try cases hs
        split at hs
        · cases hs; exact ⟨hl, hkeep u _ hu⟩
        · cases hs; exact ⟨hl, by simpa [leave] using hkeep u _ hu⟩
  | listener_store i response =>
      simp [tstep, hl] at hs
  | listener_failure =>
      simp [tstep, hl] at hs
  | listener_lock =>
      simp only [tstep] at hs
      cases hld : s.ldtm_lock <;> simp [hl, hld] at hs

theorem tstep_connected_false (k : CloudCommon) (s s1 : Threads) (a : ThreadAction)
    (hc : s.connected = false) (hs : tstep k s a = some s1) : s1.connected = false := by
  cases a
  all_goals simp only [tstep] at hs
  all_goals repeat' split at hs
  all_goals cases hs
  all_goals first
    | exact hc
    | rfl

theorem trun_connected_false (k : CloudCommon) :
    ∀ (actions : List ThreadAction) (s s1 : Threads), s.connected = false →
      trun k s actions = some s1 → s1.connected = false := by
  intro actions
  induction actions with
  | nil =>
      intro s s1 hc hr
      simp only [trun, Option.some.injEq] at hr
      subst hr
      exact hc
  | cons a rest ih =>
      intro s s1 hc hr
      rw [trun] at hr
      cases hst : tstep k s a with
      | none => simp [hst] at hr
      | some s2 =>
          simp only [hst] at hr
          exact ih s2 s1 (tstep_connected_false k s s2 a hc hst) hr

theorem trun_asleep_stays (k : CloudCommon) (t : Nat) (req : Request) (id : Nat) :
    ∀ (actions : List ThreadAction) (s s1 : Threads), s.listener_pc = .ended →
      s.pc t = .asleep req id false → (∀ a ∈ actions, a.is_spurious = false) →
      trun k s actions = some s1 →
      s1.listener_pc = .ended ∧ s1.pc t = .asleep req id false := by
  intro actions
  induction actions with
  | nil =>
      intro s s1 hl hp _ hr
      simp only [trun, Option.some.injEq] at hr
      subst hr
      exact ⟨hl, hp⟩
  | cons a rest ih =>
      intro s s1 hl hp ha hr
      rw [trun] at hr
      cases hst : tstep k s a with
      | none => simp [hst] at hr
      | some s2 =>
          simp only [hst] at hr
          obtain ⟨hl2, hp2⟩ := tstep_asleep_stays k s s2 a t req id hl hp
            (ha a (List.mem_cons_self _ _)) hst
          exact ih s2 s1 hl2 hp2 (fun b hb => ha b (List.mem_cons_of_mem _ hb)) hr

/-- C3 on a caller that has tested the loop condition of `wait_response` and not yet entered
`response_notifier.wait` when the read of the listener fails: the listener sets `connected =
false` and notifies while nobody is asleep, the caller then goes to sleep without
notification, and through every run of further steps of all threads that has no spurious
wake-up it stays asleep, `connected` being false, the listener having ended. A caller that is
asleep already when the read fails is notified, wakes up and leaves `wait_response`. -/
theorem sleeping_caller_misses_failure_notification :
    (Threads.after CloudCommon.sample Threads.lost_wakeup_steps).connected = false
      ∧ (Threads.after CloudCommon.sample Threads.lost_wakeup_steps).listener_pc = .ended
      ∧ (Threads.after CloudCommon.sample Threads.lost_wakeup_steps).pc 0 =
          .asleep (.get_home []) 0 false
      ∧ (∀ (actions : List ThreadAction) (s1 : Threads),
          (∀ a ∈ actions, a.is_spurious = false) →
          trun CloudCommon.sample (Threads.after CloudCommon.sample Threads.lost_wakeup_steps)
            actions = some s1 →
          s1.pc 0 = .asleep (.get_home []) 0 false ∧ s1.connected = false)
      ∧ (Threads.after CloudCommon.sample (Threads.notified_steps.take 9)).pc 0 =
          .asleep (.get_home []) 0 true
      ∧ (Threads.after CloudCommon.sample Threads.notified_steps).pc 0 = .idle
      ∧ (Threads.after CloudCommon.sample Threads.notified_steps).connected = false := by
  refine ⟨rfl, rfl, rfl, ?_, rfl, rfl, rfl⟩
  intro actions s1 ha hr
  refine ⟨(trun_asleep_stays CloudCommon.sample 0 (.get_home []) 0 actions _ s1 rfl rfl ha
    hr).2, trun_connected_false CloudCommon.sample actions _ s1 rfl hr⟩

/-! ## C23 -/

/-- C24: in every state the threads reach from the start, whatever the number of callers
and the order of their steps, the log of the `send_*` calls on the connection is a
concatenation of whole request frames, each made by one caller (and of chunks of bulk
writes), followed at most by the part written so far of the frame of the one caller that is
sending and owns `api_lock`. -/
theorem request_frames_are_never_interleaved
    (k : CloudCommon) (actions : List ThreadAction) (s : Threads)
    (hrun : trun k Threads.init actions = some s) :
    ∃ w, WholeFrames k w
      ∧ (s.wire = w
        ∨ ∃ t req id sent, s.api_lock = some t ∧ s.pc t = .sending req id sent
            ∧ s.wire = w ++ by_thread t ((request_frame k id req).take sent)) := by
  obtain ⟨w, hw, hwire⟩ := trun_wire k actions _ s locks_held_init
    ⟨[], WholeFrames.nil, by simp [Threads.init, frame_begun]⟩ hrun
  refine ⟨w, hw, ?_⟩
  unfold frame_begun at hwire
  cases hl : s.api_lock with
  | none =>
      left
      simpa [hl] using hwire
  | some t =>
      simp only [hl] at hwire
      cases hpc : s.pc t with
      | sending req id sent =>
          right
          simp only [hpc] at hwire
          exact ⟨t, req, id, sent, rfl, hpc, hwire⟩
      | idle => left; simpa [hpc] using hwire
      | locked req => left; simpa [hpc] using hwire
      | checking req id => left; simpa [hpc] using hwire
      | entering req id => left; simpa [hpc] using hwire
      | asleep req id n => left; simpa [hpc] using hwire
      | raw req done => left; simpa [hpc] using hwire

theorem request_frames_are_never_interleaved_witness :
    ∃ w, WholeFrames CloudCommon.sample w
      ∧ ((Threads.after CloudCommon.sample (Threads.sample_steps.take 12)).wire = w
        ∨ ∃ t req id sent,
            (Threads.after CloudCommon.sample (Threads.sample_steps.take 12)).api_lock = some t
            ∧ (Threads.after CloudCommon.sample (Threads.sample_steps.take 12)).pc t =
                .sending req id sent
            ∧ (Threads.after CloudCommon.sample (Threads.sample_steps.take 12)).wire =
                w ++ by_thread t ((request_frame CloudCommon.sample id req).take sent)) :=
  request_frames_are_never_interleaved CloudCommon.sample (Threads.sample_steps.take 12)
    (Threads.after CloudCommon.sample (Threads.sample_steps.take 12)) rfl

/-! ## C25 -/

theorem wire_size_byte_block (v n : Nat) (data : List Nat) :
    wire_size [.uint8 v, .exact n data] = 1 + n := by
  simp [wire_size, Sent.width]

/-- C25 at the largest 32-bit count: for `n = 2^32 - 1` the sum `1 + n` wraps in `uint32_t`,
so `fd_write` declares payload-length 0 in its frame and then writes the descriptor byte and
`n` data bytes, `1 + n` payload bytes in all. -/
theorem fd_write_declares_zero_for_largest_count
    (k : CloudCommon) (c : CloudClient) (fd : Nat) (bytes : List Nat)
    (wakeups : List (List NetRead)) :
    (fd_write k c fd 4294967295 bytes wakeups).1.connection =
        c.connection ++ [.uint32 (c.current_id % 2 ^ 32),
          .uint16 (k.REQUEST_CMD_FD_WRITE % 2 ^ 16), .uint64 0, .uint8 (fd % 2 ^ 8),
          .exact 4294967295 (bytes.take 4294967295)]
      ∧ wire_size [.uint8 (fd % 2 ^ 8), .exact 4294967295 (bytes.take 4294967295)] =
          1 + 4294967295
      ∧ (0 : Nat) ≠ 1 + 4294967295 := by
  refine ⟨?_, wire_size_byte_block _ _ _, by omega⟩
  rw [fd_write, on_response_fst, wait_current_connection]
  simp [send_uint32, send_uint16, send_uint64, send_uint8, send_exact]

/-! ## C26 -/

/-- C26 on two malformed bodies: for a success response whose body is the single byte 7 the
decoder reads the offsets 0 to 16, sixteen of them at or beyond the body length 1; for a body
of 19 bytes whose name-length byte says 5 with only 2 bytes left it reads up to offset 21;
and `list_directory` returns entries in both cases instead of rejecting the body. -/
theorem list_directory_reads_beyond_a_short_body :
    list_directory_reads ⟨0, 1, [7]⟩ 1 0 = List.range 17
      ∧ 16 ∈ list_directory_reads ⟨0, 1, [7]⟩ 1 0
      ∧ (list_directory CloudCommon.sample
          { CloudClient.fresh with responses := [(0, ⟨0, 1, [7]⟩)] } ⟨[]⟩ []).2 =
            .returned [([], ⟨[7]⟩)]
      ∧ list_directory_reads ⟨0, 19, List.replicate 16 1 ++ [5, 97, 98]⟩ 19 0 = List.range 22
      ∧ 21 ∈ list_directory_reads ⟨0, 19, List.replicate 16 1 ++ [5, 97, 98]⟩ 19 0
      ∧ (list_directory CloudCommon.sample
          { CloudClient.fresh with
            responses := [(0, ⟨0, 19, List.replicate 16 1 ++ [5, 97, 98]⟩)] } ⟨[]⟩ []).2 =
            .returned [("ab".toList, ⟨List.replicate 16 1⟩)] := by
  refine ⟨by decide, by decide, by decide, by decide, by decide, by decide⟩

/-! ## C27 -/

/-- C27 on a response longer than the request: `fd_read(fd, 4, bytes)` handed a success
response of 8 bytes copies all 8 bytes to `bytes` and returns 8. -/
theorem fd_read_copies_more_than_asked :
    (fd_read CloudCommon.sample
        { CloudClient.fresh with responses := [(0, ⟨0, 8, [1, 2, 3, 4, 5, 6, 7, 8]⟩)] }
        3 4 []).2 = .returned (8, [1, 2, 3, 4, 5, 6, 7, 8])
      ∧ ¬ 8 ≤ 4 := by
  refine ⟨by decide, by decide⟩

/-! ## C28 -/

/-- C28 on the target `a/b/`: its last character is the divider, but its first divider is not
the last character, so `ls` prints the description of the node `a/b/` resolves to instead of
listing its contents; for `a/` it lists the contents and for `a/b` it describes the node. -/
theorem ls_describes_node_for_nested_target_with_trailing_divider :
    ls CloudCommon.sample string2node_sample
        ⟨fun _ => .returned ⟨[0]⟩,
          fun n => if n = ⟨[0]⟩ then .returned [("a".toList, ⟨[1]⟩)]
            else if n = ⟨[1]⟩ then .returned [("b".toList, ⟨[2]⟩)] else .returned [],
          fun _ => .returned none⟩ ⟨[0]⟩ ["a/b/".toList] =
        .description [.list_directory ⟨[0]⟩, .list_directory ⟨[1]⟩] (.returned ⟨[2]⟩)
          false false
      ∧ "a/b/".toList.getLast? = some CloudCommon.sample.CLOUD_PATH_DIV
      ∧ ls CloudCommon.sample string2node_sample
        ⟨fun _ => .returned ⟨[0]⟩,
          fun n => if n = ⟨[0]⟩ then .returned [("a".toList, ⟨[1]⟩)]
            else if n = ⟨[1]⟩ then .returned [("b".toList, ⟨[2]⟩)] else .returned [],
          fun _ => .returned none⟩ ⟨[0]⟩ ["a/".toList] =
        .contents [.list_directory ⟨[0]⟩] (.returned ⟨[1]⟩) false false
      ∧ ls CloudCommon.sample string2node_sample
        ⟨fun _ => .returned ⟨[0]⟩,
          fun n => if n = ⟨[0]⟩ then .returned [("a".toList, ⟨[1]⟩)]
            else if n = ⟨[1]⟩ then .returned [("b".toList, ⟨[2]⟩)] else .returned [],
          fun _ => .returned none⟩ ⟨[0]⟩ ["a/b".toList] =
        .description [.list_directory ⟨[0]⟩, .list_directory ⟨[1]⟩] (.returned ⟨[2]⟩)
          false false := by
  refine ⟨by decide, by decide, by decide, by decide⟩

/-! ## C29 -/

/-- C29 for a non-empty info: the constructor keeps the status and the info, but the
description it builds, which `what()` returns, is the status text alone whatever the info,
because `desc` is initialised after `info` was moved into the member; for the info `x` it is
not the status text followed by ` (x)`. -/
theorem request_error_description_lacks_info
    (request_status_string : Nat → Str) (status : Nat) (info : Str) :
    (CloudRequestError.construct request_status_string status info).status = status
      ∧ (CloudRequestError.construct request_status_string status info).info = info
      ∧ (CloudRequestError.construct request_status_string status info).what =
          request_status_string status
      ∧ (CloudRequestError.construct request_status_string status "x".toList).what ≠
          request_status_string status ++ " (".toList ++ "x".toList ++ ")".toList := by
  refine ⟨rfl, rfl, rfl, ?_⟩
  intro h
  have h2 := congrArg List.length h
  simp [CloudRequestError.what, CloudRequestError.construct] at h2

/-! ## C30 -/

theorem split_from_append_divider (p2 : Str) :
    ∀ p1 cur : Str, split_from cur (p1 ++ '/' :: p2) = split_from cur p1 ++ split_from [] p2 := by
  intro p1
  induction p1 with
  | nil => intro cur; simp [split_from]
  | cons ch p1 ih =>
      intro cur
      by_cases hch : ch = '/'
      · rw [List.cons_append, split_from, if_pos hch, split_from, if_pos hch, ih]
        simp
      · rw [List.cons_append, split_from, if_neg hch, split_from, if_neg hch, ih]

theorem path_parts_append_divider (p1 p2 : Str) :
    path_parts (p1 ++ '/' :: p2) = path_parts p1 ++ path_parts p2 := by
  rw [path_parts_eq, path_parts_eq, path_parts_eq, split_from_append_divider]

theorem resolve_parts_append (r : Remote) (qs : List Str) :
    ∀ (ps : List Str) (base mid : Node), (resolve_parts r base ps).2 = .returned mid →
      (resolve_parts r base (ps ++ qs)).2 = (resolve_parts r mid qs).2 := by
  intro ps
  induction ps with
  | nil =>
      intro base mid h
      simp only [resolve_parts, Outcome.returned.injEq] at h
      subst h
      rfl
  | cons part ps ih =>
      intro base mid h
      rw [List.cons_append, resolve_parts]
      rw [resolve_parts] at h
      by_cases he : part.isEmpty = true
      · rw [if_pos he] at h ⊢
        exact ih _ _ h
      · rw [if_neg he] at h ⊢
        by_cases hdd : part = "..".toList
        · rw [if_pos hdd] at h ⊢
          cases hp : r.get_parent base with
          | returned p =>
              rw [hp] at h
              exact ih _ _ h
          | thrown e => rw [hp] at h; cases h
          | blocked => rw [hp] at h; cases h
          | unfinished => rw [hp] at h; cases h
        · rw [if_neg hdd] at h ⊢
          cases hl : r.list_directory base with
          | returned entries =>
              rw [hl] at h
              simp only at h ⊢
              by_cases hf : (entries.foldl (match_entry part) (false, base)).1 = true
              · simp only [hf, Bool.not_true, Bool.false_eq_true, if_false] at h ⊢
                exact ih _ _ h
              · simp only [hf, Bool.not_false, if_true] at h
                cases h
          | thrown e => rw [hl] at h; cases h
          | blocked => rw [hl] at h; cases h
          | unfinished => rw [hl] at h; cases h

theorem name_determines_child (entries : List (Str × Node))
    (hnodup : (entries.map Prod.fst).Nodup) (name : Str) (child : Node)
    (hmem : (name, child) ∈ entries) : ∀ e ∈ entries, e.1 = name → e.2 = child := by
  induction entries with
  | nil => simp at hmem
  | cons a entries ih =>
      intro e he hn
      rw [List.map_cons, List.nodup_cons] at hnodup
      rcases List.mem_cons.1 hmem with h1 | h1
      · rcases List.mem_cons.1 he with h2 | h2
        · rw [h2, ← h1]
        · exact absurd (List.mem_map.2 ⟨e, h2, by rw [hn, ← h1]⟩) hnodup.1
      · rcases List.mem_cons.1 he with h2 | h2
        · refine absurd (List.mem_map.2 ⟨(name, child), h1, ?_⟩) hnodup.1
          rw [← h2, hn]
        · exact ih hnodup.2 h1 e h2 hn

/-- C30: when the listings form a tree (distinct names in every listing, no name empty, `..`
or containing the divider, `get_parent` of every listed child being its directory), the
divider constant is `/`, `root` has no parent and `node` lies below `root` through `d`
directories with all listings on the way permitted, then `get_node_path` returns a path once
its recursion may go `d + 1` deep, and `get_relative_path_node` from `root` with that path
returns `node`. -/
theorem path_of_node_resolves_back_to_node
    (k : CloudCommon) (r : Remote) (root : Node) (hdiv : k.CLOUD_PATH_DIV = '/')
    (htree : tree_listings r) (hroot : r.get_parent root = .returned none) :
    ∀ (ups : List Node) (node : Node) (fuel : Nat), below r root node ups → ups.length < fuel →
      ∃ path, (get_node_path k r fuel node).2 = .returned path
        ∧ (get_relative_path_node r root path).2 = .returned node := by
  intro ups
  induction ups with
  | nil =>
      intro node fuel h hf
      cases fuel with
      | zero => omega
      | succ fuel =>
          simp only [below] at h
          subst h
          refine ⟨[], ?_, ?_⟩
          · rw [get_node_path]
            simp only [hroot]
          · rw [get_relative_path_node_nil]
  | cons d ups ih =>
      intro node fuel h hf
      cases fuel with
      | zero => omega
      | succ fuel =>
          obtain ⟨⟨entries, hl, name, hmem⟩, hrest⟩ := h
          obtain ⟨hnodup, hnames⟩ := htree d entries hl
          obtain ⟨pd, hpd, hres⟩ := ih d fuel hrest (by simpa using hf)
          obtain ⟨e, he, hn, hv⟩ := (foldl_match_child node entries []).1 ⟨_, hmem, rfl⟩
          obtain ⟨hne, hdd, hnd, _⟩ := hnames e he
          have hp := (hnames _ hmem).2.2.2
          simp only at hp
          refine ⟨pd ++ [k.CLOUD_PATH_DIV] ++ e.1, ?_, ?_⟩
          · rw [get_node_path]
            simp only [hp, hl, hpd, Outcome.map, hv]
          · have hall := name_determines_child entries hnodup e.1 node (by rw [← hn]; exact he)
            have hval := foldl_match_entry_value e.1 entries d node (by rw [← hn]; exact he) hall
            have hstep := (resolve_named_part r d e.1 [] entries hne hdd hl).1 hval.1
            rw [get_relative_path_node, hdiv, List.append_assoc, List.singleton_append,
              path_parts_append_divider, path_parts_single e.1 hnd]
            rw [get_relative_path_node] at hres
            rw [resolve_parts_append r [e.1] _ _ _ hres, hstep.2, hval.2]
            rfl

theorem path_of_node_resolves_back_to_node_witness :
    ∃ path, (get_node_path CloudCommon.sample
        ⟨fun _ => .returned ⟨[0]⟩,
          fun n => if n = ⟨[0]⟩ then .returned [("a".toList, ⟨[1]⟩)]
            else if n = ⟨[1]⟩ then .returned [("b".toList, ⟨[2]⟩)] else .returned [],
          fun n => if n = ⟨[1]⟩ then .returned (some ⟨[0]⟩)
            else if n = ⟨[2]⟩ then .returned (some ⟨[1]⟩) else .returned none⟩
        3 ⟨[2]⟩).2 = .returned path
      ∧ (get_relative_path_node
        ⟨fun _ => .returned ⟨[0]⟩,
          fun n => if n = ⟨[0]⟩ then .returned [("a".toList, ⟨[1]⟩)]
            else if n = ⟨[1]⟩ then .returned [("b".toList, ⟨[2]⟩)] else .returned [],
          fun n => if n = ⟨[1]⟩ then .returned (some ⟨[0]⟩)
            else if n = ⟨[2]⟩ then .returned (some ⟨[1]⟩) else .returned none⟩
        ⟨[0]⟩ path).2 = .returned ⟨[2]⟩ :=
  path_of_node_resolves_back_to_node CloudCommon.sample
    ⟨fun _ => .returned ⟨[0]⟩,
      fun n => if n = ⟨[0]⟩ then .returned [("a".toList, ⟨[1]⟩)]
        else if n = ⟨[1]⟩ then .returned [("b".toList, ⟨[2]⟩)] else .returned [],
      fun n => if n = ⟨[1]⟩ then .returned (some ⟨[0]⟩)
        else if n = ⟨[2]⟩ then .returned (some ⟨[1]⟩) else .returned none⟩
    ⟨[0]⟩ rfl
    (by
      intro d entries hl
      by_cases h0 : d = ⟨[0]⟩
      · subst h0
        simp only [if_true, Outcome.returned.injEq] at hl
        subst hl
        simp
      · by_cases h1 : d = ⟨[1]⟩
        · subst h1
          simp only [if_neg h0, if_true, Outcome.returned.injEq] at hl
          subst hl
          simp
        · simp only [if_neg h0, if_neg h1, Outcome.returned.injEq] at hl
          subst hl
          simp)
    (by decide) [⟨[1]⟩, ⟨[0]⟩] ⟨[2]⟩ 3
    ⟨⟨[("b".toList, ⟨[2]⟩)], by decide, "b".toList, by decide⟩,
      ⟨[("a".toList, ⟨[1]⟩)], by decide, "a".toList, by decide⟩, rfl⟩
    (by decide)

end Cloud9
